import Mathlib

/-!
# Schema generator of terraform-provider-minikube

A shallow embedding of `minikube/generator/schema_builder.go` and the
properties its specification states about it.

Modelling conventions.

* A Go `string` is a Lean `String`: a sequence of Unicode code points.  The
  help text is taken to be valid UTF-8, where the byte-level functions of the
  Go `strings` package agree with their code-point-level counterparts below.
* `SchemaType` is a string type in the source (`type SchemaType string`) and
  is one here, so that the zero value `""` of a fresh `SchemaEntry` exists.
* A Go `(value, error)` pair is a Lean pair whose second component is an
  `Option GoError`; `none` is `nil`.
* A run-time panic (the index fault of `seg[1]` in `loadParameter`) is the
  `none` of an outer `Option`.
* `bufio.Scanner` with the default split function is modelled by `ScanLines`,
  with its token limit: at the first line of `MaxScanTokenSize` bytes or more
  `Scan` returns false, and `Build`, which never reads `scanner.Err()`, goes
  on with the entries it has.
* `strconv.Atoi`, `strconv.Itoa`, `time.ParseDuration` and `Duration.Minutes`
  are modelled from the Go standard library, for a 64-bit `int`; their
  `float64` arithmetic is IEEE 754 binary64 with round-to-nearest-even,
  computed exactly on integer fractions.
* `log.Printf` has no effect on the result and is left out.
-/

namespace Generator

/-! ## The Go `strings` package -/

namespace strings

/-- The Unicode white space of `unicode.IsSpace`. -/
def isSpace (c : Char) : Bool :=
  c.val = 0x09 || c.val = 0x0a || c.val = 0x0b || c.val = 0x0c || c.val = 0x0d ||
  c.val = 0x20 || c.val = 0x85 || c.val = 0xa0 || c.val = 0x1680 ||
  (0x2000 ≤ c.val && c.val ≤ 0x200a) ||
  c.val = 0x2028 || c.val = 0x2029 || c.val = 0x202f || c.val = 0x205f || c.val = 0x3000

/-- Drop the elements satisfying `p` from the end of a list. -/
def dropWhileEnd (p : Char → Bool) (l : List Char) : List Char :=
  ((l.reverse).dropWhile p).reverse

/-- Go `strings.TrimSpace`: remove all leading and trailing white space. -/
def TrimSpace (s : String) : String :=
  ⟨dropWhileEnd isSpace (s.data.dropWhile isSpace)⟩

/-- Go `strings.HasPrefix`. -/
def HasPrefix (s pre : String) : Bool :=
  pre.data.isPrefixOf s.data

/-- Go `strings.HasSuffix`. -/
def HasSuffix (s suf : String) : Bool :=
  suf.data.reverse.isPrefixOf s.data.reverse

/-- Go `strings.TrimPrefix`: remove one leading copy of `pre`, if there is one. -/
def TrimPrefix (s pre : String) : String :=
  if HasPrefix s pre then ⟨s.data.drop pre.data.length⟩ else s

/-- Go `strings.TrimSuffix`: remove one trailing copy of `suf`, if there is one. -/
def TrimSuffix (s suf : String) : String :=
  if HasSuffix s suf then ⟨s.data.take (s.data.length - suf.data.length)⟩ else s

/-- Go `strings.Trim`: remove all leading and trailing code points contained in `cutset`. -/
def Trim (s cutset : String) : String :=
  ⟨dropWhileEnd (fun c => cutset.data.contains c)
    (s.data.dropWhile (fun c => cutset.data.contains c))⟩

/-- The non-overlapping occurrences of a non-empty `old` in a list, scanned from the left,
each replaced by `new`.  `skip` counts the characters of a match still to be passed over. -/
def replaceFrom (old new : List Char) : Nat → List Char → List Char
  | _, [] => []
  | skip + 1, _ :: cs => replaceFrom old new skip cs
  | 0, c :: cs =>
    if old.isPrefixOf (c :: cs) then new ++ replaceFrom old new (old.length - 1) cs
    else c :: replaceFrom old new 0 cs

/-- Go `strings.ReplaceAll`.  An empty `old` matches before every code point and at the end. -/
def ReplaceAll (s old new : String) : String :=
  if old.data = [] then ⟨s.data.flatMap (fun c => new.data ++ [c]) ++ new.data⟩
  else ⟨replaceFrom old.data new.data 0 s.data⟩

/-- The number of non-overlapping occurrences of a non-empty `sub`, scanned from the left. -/
def countFrom (sub : List Char) : Nat → List Char → Nat
  | _, [] => 0
  | skip + 1, _ :: cs => countFrom sub skip cs
  | 0, c :: cs =>
    if sub.isPrefixOf (c :: cs) then countFrom sub (sub.length - 1) cs + 1
    else countFrom sub 0 cs

/-- Go `strings.Count`.  For an empty `sub` it is one more than the number of code points. -/
def Count (s sub : String) : Nat :=
  if sub.data = [] then s.data.length + 1 else countFrom sub.data 0 s.data

/-- The pieces of a list between the non-overlapping occurrences of a non-empty `sep`;
`cur` is the piece being collected, in reverse. -/
def splitFrom (sep : List Char) : Nat → List Char → List Char → List (List Char)
  | _, cur, [] => [cur.reverse]
  | skip + 1, cur, _ :: cs => splitFrom sep skip cur cs
  | 0, cur, c :: cs =>
    if sep.isPrefixOf (c :: cs) then cur.reverse :: splitFrom sep (sep.length - 1) [] cs
    else splitFrom sep 0 (c :: cur) cs

/-- Go `strings.Split`.  An empty `sep` splits after every code point. -/
def Split (s sep : String) : List String :=
  if sep.data = [] then s.data.map (fun c => ⟨[c]⟩)
  else (splitFrom sep.data 0 [] s.data).map String.mk

end strings

/-! ## Data model -/

/-- Go `type SchemaType string`. -/
abbrev SchemaType := String

/-- Go `String SchemaType = "String"`. -/
def SchemaType.String : SchemaType := "String"
/-- Go `Int SchemaType = "Int"`. -/
def SchemaType.Int : SchemaType := "Int"
/-- Go `Bool SchemaType = "Bool"`. -/
def SchemaType.Bool : SchemaType := "Bool"
/-- Go `Array SchemaType = "List"`. -/
def SchemaType.Array : SchemaType := "List"

/-- Go `getSchemaType`. -/
def getSchemaType (s : String) : SchemaType :=
  if strings.Count s "\x27" = 2 ∨ s = "" then SchemaType.String
  else if s = "true" ∨ s = "false" then SchemaType.Bool
  else if strings.HasPrefix s "[" ∧ strings.HasSuffix s "]" then SchemaType.Array
  else SchemaType.Int

/-- Go `SchemaOverride`. -/
structure SchemaOverride where
  Description : String
  Default : String
  Type_ : SchemaType
  deriving DecidableEq, Repr

/-- Go `SchemaEntry`. -/
structure SchemaEntry where
  Parameter : String := ""
  Default : String := ""
  Description : String := ""
  Type_ : SchemaType := ""
  ArrayType : SchemaType := ""
  deriving DecidableEq, Repr

/-- Go `computedFields`. -/
def computedFields : List String :=
  ["addons", "apiserver_ips", "apiserver_names", "hyperkit_vsock_ports", "insecure_registry",
   "iso_url", "nfs_share", "ports", "registry_mirror", "client_key", "client_certificate",
   "cluster_ca_certificate", "host"]

/-- Go `schemaOverrides`, a map; the lookup `val, ok := schemaOverrides[key]` is `some val`
when `ok` holds. -/
def schemaOverrides (key : String) : Option SchemaOverride :=
  if key = "memory" then
    some { Default := "4000mb",
           Description := "Amount of RAM to allocate to Kubernetes (format: <number>[<unit>], where unit = b, k, m or g)",
           Type_ := SchemaType.String }
  else if key = "cpus" then
    some { Default := "2",
           Description := "Amount of CPUs to allocate to Kubernetes",
           Type_ := SchemaType.Int }
  else none

/-- Go `contains`. -/
def contains : List String → String → Bool
  | [], _ => false
  | a :: s, e => if a = e then true else contains s e

/-- Go `loadParameter`.  `none` is the panic of `seg[1]` on a line without `=`. -/
def loadParameter (line : String) : Option SchemaEntry :=
  match strings.Split line "=" with
  | seg0 :: seg1 :: _ =>
    let parameter := strings.ReplaceAll (strings.TrimPrefix seg0 "--") "-" "_"
    let default := strings.TrimSuffix seg1 ":"
    let type := getSchemaType default
    -- Apply explicit overrides
    let default := match schemaOverrides parameter with
      | some val => val.Default
      | none => default
    let type := match schemaOverrides parameter with
      | some val => val.Type_
      | none => type
    let default := if type = SchemaType.String then strings.Trim default "\x27" else default
    some { Parameter := parameter, Default := default, Description := "", Type_ := type,
           ArrayType := "" }
  | _ => none

/-- The escaping `Build` applies to the description of a record that is closed: every
backslash is doubled, then every double quote gets a backslash in front. -/
def escapeDescription (d : String) : String :=
  strings.ReplaceAll (strings.ReplaceAll d "\\" "\\\\") "\"" "\\\""

/-- The reverse the specification describes: undo the quote escaping, then un-double the
backslashes.  It is not part of the program. -/
def unescapeDescription (e : String) : String :=
  strings.ReplaceAll (strings.ReplaceAll e "\\\"" "\"") "\\\\" "\\"

/-! ## Rendering -/

/-- The `header` of `constructSchema`. -/
def header : String :=
  "//go:generate go run ../generate/main.go -target $GOFILE\n" ++
  "// THIS FILE IS GENERATED DO NOT EDIT\n" ++
  "package minikube\n" ++
  "\n" ++
  "import \"github.com/hashicorp/terraform-plugin-sdk/v2/helper/schema\"\n" ++
  "\n" ++
  "var (\n" ++
  "\tclusterSchema = map[string]*schema.Schema\x7b\n" ++
  "\t\t\"cluster_name\": \x7b\n" ++
  "\t\t\tType:\t\t\t\t\tschema.TypeString,\n" ++
  "\t\t\tOptional:\t\t\ttrue,\n" ++
  "\t\t\tForceNew:\t\t\ttrue,\n" ++
  "\t\t\tDescription:\t\"The name of the minikube cluster\",\n" ++
  "\t\t\tDefault:\t\t\t\"terraform-provider-minikube\",\n" ++
  "\t\t\x7d,\n" ++
  "\n" ++
  "\t\t\"nodes\": \x7b\n" ++
  "\t\t\tType:\t\t\t\t\tschema.TypeInt,\n" ++
  "\t\t\tOptional:\t\t\ttrue,\n" ++
  "\t\t\tForceNew:\t\t\ttrue,\n" ++
  "\t\t\tDescription:\t\"Amount of nodes in the cluster\",\n" ++
  "\t\t\tDefault:\t\t\t1,\n" ++
  "\t\t\x7d,\n" ++
  "\n" ++
  "\t\t\"client_key\": \x7b\n" ++
  "\t\t\tType:        schema.TypeString,\n" ++
  "\t\t\tComputed:    true,\n" ++
  "\t\t\tDescription: \"client key for cluster\",\n" ++
  "\t\t\tSensitive:   true,\n" ++
  "\t\t\x7d,\n" ++
  "\n" ++
  "\t\t\"client_certificate\": \x7b\n" ++
  "\t\t\tType:        schema.TypeString,\n" ++
  "\t\t\tComputed:    true,\n" ++
  "\t\t\tDescription: \"client certificate used in cluster\",\n" ++
  "\t\t\tSensitive:   true,\n" ++
  "\t\t\x7d,\n" ++
  "\n" ++
  "\t\t\"cluster_ca_certificate\": \x7b\n" ++
  "\t\t\tType:        schema.TypeString,\n" ++
  "\t\t\tComputed:    true,\n" ++
  "\t\t\tDescription: \"certificate authority for cluster\",\n" ++
  "\t\t\tSensitive:   true,\n" ++
  "\t\t\x7d,\n" ++
  "\n" ++
  "\t\t\"host\": \x7b\n" ++
  "\t\t\tType:        schema.TypeString,\n" ++
  "\t\t\tComputed:    true,\n" ++
  "\t\t\tDescription: \"the host name for the cluster\",\n" ++
  "\t\t\x7d,\n"

/-- The `footer` of `constructSchema`. -/
def footer : String :=
  "\n" ++
  "\t\x7d\n" ++
  ")\n" ++
  "\n" ++
  "func GetClusterSchema() map[string]*schema.Schema \x7b\n" ++
  "\treturn clusterSchema\n" ++
  "\x7d\n" ++
  "\t"

/-- The marker section: the value `extraParams` is first given in the loop of
`constructSchema`. -/
def markerParams (entry : SchemaEntry) : String :=
  if !contains computedFields entry.Parameter then
    "\n\t\t\tOptional:\t\t\ttrue,\n\t\t\tForceNew:\t\t\ttrue,\n\t\t\t"
  else
    "\n\t\t\tComputed:\t\t\ttrue,\n\t\t\t"

/-- The type section: what the loop of `constructSchema` appends to `extraParams`. -/
def typeParams (entry : SchemaEntry) : String :=
  if entry.Type_ = SchemaType.Array then
    "\n\t\t\tElem: &schema.Schema\x7b\n\t\t\t\tType:\t" ++ ("schema.Type" ++ entry.ArrayType) ++
      ",\n\t\t\t\x7d,\n\t\t\t"
  else
    "\n\t\t\tDefault:\t" ++ entry.Default ++ ","

/-- The final value of `extraParams` in the loop of `constructSchema`. -/
def extraParams (entry : SchemaEntry) : String :=
  markerParams entry ++ typeParams entry

/-- The block one pass of the loop of `constructSchema` appends to `body`. -/
def entryBlock (entry : SchemaEntry) : String :=
  "\n\t\t\"" ++ entry.Parameter ++ "\": \x7b\n\t\t\tType:\t\t\t\t\t" ++
    ("schema.Type" ++ entry.Type_) ++ ",\n\t\t\tDescription:\t\"" ++ entry.Description ++
    "\",\n\t\t\t" ++ extraParams entry ++ "\n\t\t\x7d,\n\t"

/-- Go `constructSchema`. -/
def constructSchema (entries : List SchemaEntry) : String :=
  let body := entries.foldl (fun body entry => body ++ entryBlock entry) ""
  header ++ body ++ footer

/-- Go `strings.Contains`, as a proposition: `substr` occurs in `s`. -/
def strings.Contains (s substr : String) : Prop :=
  substr.data <:+: s.data

instance (s substr : String) : Decidable (strings.Contains s substr) := by
  unfold strings.Contains; infer_instance

/-! ## IEEE 754 binary64 arithmetic

The `float64` operations the program reaches through `time.ParseDuration` and
`time.Duration.Minutes`, with round-to-nearest-even.  A value is a pair of integers
`m * 2 ^ e`; the exponent range is not bounded, since the values met here are either
within the normal range or so small that the truncated product they enter is zero either
way. -/

namespace float64

/-- The number of binary digits of `n`; `fuel` bounds the recursion. -/
def bitLenAux : Nat → Nat → Nat
  | 0, _ => 0
  | fuel + 1, n => if n = 0 then 0 else bitLenAux fuel (n / 2) + 1

/-- The number of binary digits of `n`. -/
def bitLen (n : Nat) : Nat := bitLenAux n n

/-- The integer nearest to `N / D`, ties to the even one. -/
def roundHalfEven (N D : Nat) : Nat :=
  let q := N / D
  let r := N % D
  if 2 * r < D then q
  else if D < 2 * r then q + 1
  else if q % 2 = 0 then q else q + 1

/-- A finite binary64 value, `m * 2 ^ e`. -/
structure F64 where
  m : Int
  e : Int
  deriving DecidableEq, Repr

/-- The numerator of `s * 2 ^ k` written over the denominator `scaleDen k`. -/
def scaleNum (k : Int) : Nat := 2 ^ k.toNat
/-- The denominator going with `scaleNum k`. -/
def scaleDen (k : Int) : Nat := 2 ^ (-k).toNat

/-- Round the positive rational `n / d` to the nearest binary64 value, ties to even:
the 53-bit significand is the rounding of `n / d * 2 ^ s`, where `s` places that product
in `[2 ^ 52, 2 ^ 53)`. -/
def roundNat (n d : Nat) : Nat × Int :=
  if n = 0 then (0, 0)
  else
    let s0 : Int := 52 + (bitLen d : Int) - (bitLen n : Int)
    let s : Int := if n * scaleNum s0 < 2 ^ 52 * (d * scaleDen s0) then s0 + 1 else s0
    (roundHalfEven (n * scaleNum s) (d * scaleDen s), -s)

/-- Round the rational `n / d` to the nearest binary64 value. -/
def round (n : Int) (d : Nat) : F64 :=
  let r := roundNat n.natAbs d
  ⟨Int.sign n * r.1, r.2⟩

/-- The numerator of the value of `x` over the denominator `den x`. -/
def num (x : F64) : Int := x.m * scaleNum x.e
/-- The denominator of the value of `x`. -/
def den (x : F64) : Nat := scaleDen x.e

/-- Go `float64(n)` for an integer `n`. -/
def ofInt (n : Int) : F64 := round n 1

/-- Go `x + y` on `float64`. -/
def add (x y : F64) : F64 := round (num x * den y + num y * den x) (den x * den y)

/-- Go `x * y` on `float64`. -/
def mul (x y : F64) : F64 := round (num x * num y) (den x * den y)

/-- Go `x / y` on `float64`, for `y` other than zero. -/
def div (x y : F64) : F64 :=
  round (num x * den y * Int.sign (num y)) (den x * (num y).natAbs)

/-- Go `int64(x)` and `uint64(x)` for a `float64` in range: the fraction is discarded. -/
def trunc (x : F64) : Int := Int.tdiv (num x) (den x)

/-- The rational value of a binary64 value. -/
def F64.val (x : F64) : ℚ := (x.m : ℚ) * (2 : ℚ) ^ x.e

/-- The opposite of a binary64 value. -/
def F64.neg (x : F64) : F64 := ⟨-x.m, x.e⟩

end float64

/-! ## The Go `strconv` and `time` packages -/

/-- The value of a decimal digit. -/
def digitValue (c : Char) : Nat := c.toNat - 48

/-- Whether `c` is one of `0` to `9`. -/
def isDigit (c : Char) : Bool := decide (48 ≤ c.toNat) && decide (c.toNat ≤ 57)

namespace strconv

/-- The value of a sequence of decimal digits, `none` when a character is not a digit. -/
def digitsValue : List Char → Nat → Option Nat
  | [], n => some n
  | c :: cs, n => if isDigit c then digitsValue cs (n * 10 + digitValue c) else none

/-- Go `strconv.Atoi` with a 64-bit `int`: an optional sign and one or more decimal digits,
whose value fits the type.  `none` is a returned error (of syntax or of range). -/
def Atoi (s : String) : Option Int :=
  let neg : Bool := s.data.head? = some (Char.ofNat 45)
  let digits : List Char :=
    if s.data.head? = some (Char.ofNat 45) ∨ s.data.head? = some (Char.ofNat 43) then s.data.tail
    else s.data
  if digits = [] then none
  else
    match digitsValue digits 0 with
    | none => none
    | some n =>
      let v : Int := if neg then -(n : Int) else (n : Int)
      if -(2 : Int) ^ 63 ≤ v ∧ v ≤ (2 : Int) ^ 63 - 1 then some v else none

/-- Go `strconv.Itoa`. -/
def Itoa (i : Int) : String := toString i

end strconv

/-- The errors `Build` can return. -/
inductive GoError where
  /-- Go `errors.New(text)`. -/
  | errorsNew (text : String)
  /-- The error of `time.ParseDuration`: `time: invalid duration` and the input. -/
  | invalidDuration (orig : String)
  /-- The error of `time.ParseDuration`: `time: missing unit in duration` and the input. -/
  | missingUnit (orig : String)
  /-- The error of `time.ParseDuration`: `time: unknown unit` with the unit and the input. -/
  | unknownUnit (unit orig : String)
  deriving DecidableEq, Repr

namespace time

/-- Go `time.Minute`, in nanoseconds. -/
def Minute : Nat := 60000000000

/-- Go `unitMap` of package `time`. -/
def unitMap (u : String) : Option Nat :=
  if u = "ns" then some 1
  else if u = "us" then some 1000
  else if u = "µs" then some 1000
  else if u = "μs" then some 1000
  else if u = "ms" then some 1000000
  else if u = "s" then some 1000000000
  else if u = "m" then some 60000000000
  else if u = "h" then some 3600000000000
  else none

/-- Go `leadingInt`: the value of the leading digits and the rest; `none` on overflow. -/
def leadingInt : List Char → Nat → Option (Nat × List Char)
  | [], x => some (x, [])
  | c :: cs, x =>
    if !isDigit c then some (x, c :: cs)
    else if x > 2 ^ 63 / 10 then none
    else if x * 10 + digitValue c > 2 ^ 63 then none
    else leadingInt cs (x * 10 + digitValue c)

/-- Go `leadingFraction`: the value of the leading digits, the scale and the rest.
On overflow it stops accumulating precision. -/
def leadingFraction : List Char → Nat → float64.F64 → Bool → Nat × float64.F64 × List Char
  | [], x, scale, _ => (x, scale, [])
  | c :: cs, x, scale, overflow =>
    if !isDigit c then (x, scale, c :: cs)
    else if overflow then leadingFraction cs x scale true
    else if x > (2 ^ 63 - 1) / 10 then leadingFraction cs x scale true
    else if x * 10 + digitValue c > 2 ^ 63 then leadingFraction cs x scale true
    else leadingFraction cs (x * 10 + digitValue c) (float64.mul scale (float64.ofInt 10)) false

/-- The outcome of one pass of the loop of `time.ParseDuration`. -/
inductive Term where
  /-- The added nanoseconds and the rest of the input. -/
  | value (v : Nat) (rest : List Char)
  /-- The pass returns `time: invalid duration`. -/
  | invalid
  /-- The pass returns `time: missing unit in duration`. -/
  | noUnit
  /-- The pass returns `time: unknown unit`. -/
  | badUnit (u : String)
  deriving DecidableEq, Repr

/-- The part `(\.[0-9]*)?` of one pass of the loop of `time.ParseDuration`: the fraction
`f`, its `scale` and the rest of the input. -/
def fractionPart (s1 : List Char) : Nat × float64.F64 × List Char :=
  if s1.head? = some (Char.ofNat 46) then leadingFraction s1.tail 0 (float64.ofInt 1) false
  else (0, float64.ofInt 1, s1)

/-- The end of one pass of the loop of `time.ParseDuration`: the unit is consumed and the
value `v + f / scale` is converted to nanoseconds. -/
def unitPart (v f : Nat) (scale : float64.F64) (s2 : List Char) : Term :=
  -- Consume unit.
  let u := s2.takeWhile (fun c => !(c = Char.ofNat 46 || isDigit c))
  let s3 := s2.dropWhile (fun c => !(c = Char.ofNat 46 || isDigit c))
  if u = [] then Term.noUnit
  else
    match unitMap ⟨u⟩ with
    | none => Term.badUnit ⟨u⟩
    | some unit =>
      if v > 2 ^ 63 / unit then Term.invalid
      else
        let v1 := v * unit
        let v2 :=
          if f > 0 then
            v1 + (float64.trunc (float64.mul (float64.ofInt f)
                    (float64.div (float64.ofInt unit) scale))).toNat
          else v1
        if f > 0 ∧ v2 > 2 ^ 63 then Term.invalid
        else Term.value v2 s3

/-- One pass of the loop of `time.ParseDuration` on a non-empty input: a number, an optional
fraction and a unit. -/
def parseTerm (s : List Char) : Term :=
  -- The next character must be [0-9.]
  if !(s.head? = some (Char.ofNat 46) || (s.head?.map isDigit).getD false) then Term.invalid
  else
    -- Consume [0-9]*
    match leadingInt s 0 with
    | none => Term.invalid
    | some (v, s1) =>
      let pre : Bool := s.length ≠ s1.length
      -- Consume (\.[0-9]*)?
      let frac := fractionPart s1
      let post : Bool := s1.head? = some (Char.ofNat 46) ∧ s1.tail.length ≠ frac.2.2.length
      if !pre && !post then Term.invalid
      else unitPart v frac.1 frac.2.1 frac.2.2

/-- The loop of `time.ParseDuration`; `d` is the sum so far, a `uint64`.  `none` is the
exhaustion of `fuel`, which the length of the input excludes. -/
def parseTerms : Nat → List Char → Nat → String → Option (Except GoError Nat)
  | _, [], d, _ => some (.ok d)
  | 0, _ :: _, _, _ => none
  | fuel + 1, c :: cs, d, orig =>
    match parseTerm (c :: cs) with
    | Term.invalid => some (.error (GoError.invalidDuration orig))
    | Term.noUnit => some (.error (GoError.missingUnit orig))
    | Term.badUnit u => some (.error (GoError.unknownUnit u orig))
    | Term.value v rest =>
      if (d + v) % 2 ^ 64 > 2 ^ 63 then some (.error (GoError.invalidDuration orig))
      else parseTerms fuel rest ((d + v) % 2 ^ 64) orig

/-- Go `time.ParseDuration`; the duration is in nanoseconds. -/
def ParseDuration (orig : String) : Except GoError Int :=
  let neg : Bool := orig.data.head? = some (Char.ofNat 45)
  -- Consume [-+]?
  let s : List Char :=
    if orig.data.head? = some (Char.ofNat 45) ∨ orig.data.head? = some (Char.ofNat 43)
    then orig.data.tail else orig.data
  -- Special case: if all that is left is "0", this is zero.
  if s = [Char.ofNat 48] then .ok 0
  else if s = [] then .error (GoError.invalidDuration orig)
  else
    match parseTerms s.length s 0 orig with
    | none => .error (GoError.invalidDuration orig)
    | some (.error err) => .error err
    | some (.ok d) =>
      if neg then .ok (-(d : Int))
      else if d > 2 ^ 63 - 1 then .error (GoError.invalidDuration orig)
      else .ok (d : Int)

/-- Go `Duration.Minutes`. -/
def Minutes (d : Int) : float64.F64 :=
  let min := Int.tdiv d Minute
  let nsec := Int.tmod d Minute
  float64.add (float64.ofInt min) (float64.div (float64.ofInt nsec) (float64.ofInt 60000000000))

end time

/-! ## Parsing the help text -/

/-- Go `addEntry`.  An error stands for the returned pair `nil, err`. -/
def addEntry (entries : List SchemaEntry) (currentEntry : SchemaEntry) :
    Except GoError (List SchemaEntry) :=
  if currentEntry.Type_ = SchemaType.String then
    .ok (entries ++ [{ Parameter := currentEntry.Parameter,
                       Default := "\"" ++ currentEntry.Default ++ "\"",
                       Type_ := currentEntry.Type_,
                       Description := currentEntry.Description }])
  else if currentEntry.Type_ = SchemaType.Bool then
    .ok (entries ++ [{ Parameter := currentEntry.Parameter,
                       Default := currentEntry.Default,
                       Type_ := currentEntry.Type_,
                       Description := currentEntry.Description }])
  else if currentEntry.Type_ = SchemaType.Int then
    match strconv.Atoi currentEntry.Default with
    | some val =>
      .ok (entries ++ [{ Parameter := currentEntry.Parameter,
                         Default := strconv.Itoa val,
                         Type_ := currentEntry.Type_,
                         Description := currentEntry.Description }])
    | none =>
      -- is it a timestamp?
      match time.ParseDuration currentEntry.Default with
      | .error err => .error err
      | .ok t =>
        .ok (entries ++ [{ Parameter := currentEntry.Parameter,
                           Default := strconv.Itoa (float64.trunc (time.Minutes t)),
                           Type_ := currentEntry.Type_,
                           Description := currentEntry.Description ++ " (Configured in minutes)" }])
  else if currentEntry.Type_ = SchemaType.Array then
    .ok (entries ++ [{ Parameter := currentEntry.Parameter,
                       Type_ := SchemaType.Array,
                       ArrayType := SchemaType.String,
                       Description := currentEntry.Description }])
  else .ok entries

/-- Remove one trailing carriage return, as `dropCR` of package `bufio` does. -/
def dropCR (l : List Char) : List Char :=
  if l.getLast? = some (Char.ofNat 13) then l.dropLast else l

/-- Go `utf8.RuneLen`: the number of bytes of the UTF-8 encoding of a code point. -/
def runeLen (c : Char) : Nat :=
  if c.toNat < 0x80 then 1 else if c.toNat < 0x800 then 2 else if c.toNat < 0x10000 then 3
  else 4

/-- Go `len` of a string: its number of bytes. -/
def byteLen (l : List Char) : Nat :=
  (l.map runeLen).sum

/-- Go `bufio.MaxScanTokenSize`: the largest size the buffer of a `bufio.Scanner` grows
to. -/
def MaxScanTokenSize : Nat := 64 * 1024

/-- The tokens of a `bufio.Scanner` with the split function `bufio.ScanLines`; `cur` is the
line being read, in reverse.  The scanner finds the end of a line only when the line and its
newline fit the buffer, and a last line without a newline only when it leaves the buffer
room for one more read: in both cases when the line has fewer than `MaxScanTokenSize` bytes.
At a longer line `Scan` sets `ErrTooLong` and returns false, here and ever after. -/
def scanLinesFrom : List Char → List Char → List String
  | cur, [] =>
    if cur = [] then []
    else if byteLen cur < MaxScanTokenSize then [⟨dropCR cur.reverse⟩] else []
  | cur, c :: cs =>
    if c = Char.ofNat 10 then
      if byteLen cur < MaxScanTokenSize then ⟨dropCR cur.reverse⟩ :: scanLinesFrom [] cs
      else []
    else scanLinesFrom (c :: cur) cs

/-- The successive values of `scanner.Text()` in the loop `for scanner.Scan()` over `help`:
the lines of `help` without their end-of-line markers, up to the first line of
`MaxScanTokenSize` bytes or more, where the loop ends; a last line without a newline is a
token when it is not empty. -/
def ScanLines (help : String) : List String :=
  scanLinesFrom [] help.data

/-- The variables the loop of `Build` updates. -/
structure LoopState where
  entries : List SchemaEntry := []
  currentEntry : SchemaEntry := {}
  deriving DecidableEq, Repr

/-- How the loop of `Build` ends. -/
inductive LoopResult where
  /-- The scanner is exhausted. -/
  | done (st : LoopState)
  /-- The body returns `"", err`. -/
  | failed (err : GoError)
  /-- The body panics in `loadParameter`. -/
  | panicked
  deriving DecidableEq, Repr

/-- The loop `for scanner.Scan()` of `Build`, over the remaining lines. -/
def scanLoop : List String → LoopState → LoopResult
  | [], st => LoopResult.done st
  | text :: rest, st =>
    let line := strings.TrimSpace text
    if strings.HasPrefix line "--" then
      match loadParameter line with
      | none => LoopResult.panicked
      | some entry => scanLoop rest { st with currentEntry := entry }
    else if line ≠ "" then
      scanLoop rest { st with currentEntry :=
        { st.currentEntry with Description := st.currentEntry.Description ++ line } }
    else if st.currentEntry.Parameter ≠ "" then
      let escaped := escapeDescription st.currentEntry.Description
      -- Apply description override once we've built the description
      let description := match schemaOverrides st.currentEntry.Parameter with
        | some val => val.Description
        | none => escaped
      let currentEntry := { st.currentEntry with Description := description }
      match addEntry st.entries currentEntry with
      | .error err => LoopResult.failed err
      | .ok entries =>
        scanLoop rest { entries := entries, currentEntry := { currentEntry with Parameter := "" } }
    else scanLoop rest st

/-- Go `MinikubeBinary`: what the two methods return. -/
structure MinikubeBinary where
  GetVersion : String × Option GoError
  GetStartHelpText : String × Option GoError

/-- Go `SchemaBuilder.Build`.  `none` is a panic; otherwise the returned pair. -/
def Build (minikube : MinikubeBinary) : Option (String × Option GoError) :=
  match minikube.GetVersion.2 with
  | some _ =>
    some ("", some (GoError.errorsNew
      "could not run minikube binary. please ensure that you have minikube installed and available"))
  | none =>
    match minikube.GetStartHelpText.2 with
    | some err => some ("", some err)
    | none =>
      match scanLoop (ScanLines minikube.GetStartHelpText.1) {} with
      | LoopResult.panicked => none
      | LoopResult.failed err => some ("", some err)
      | LoopResult.done st => some (constructSchema st.entries, none)

/-! ## The vocabulary of the specification -/

/-- A flag line: after trimming it starts with `--`. -/
def isFlagLine (text : String) : Bool :=
  strings.HasPrefix (strings.TrimSpace text) "--"

/-- A blank line: nothing is left after trimming. -/
def isBlankLine (text : String) : Bool :=
  decide (strings.TrimSpace text = "")

/-- A description line: neither blank nor a flag line. -/
def isDescriptionLine (text : String) : Bool :=
  !isFlagLine text && !isBlankLine text

/-- The record `entry` is opened by a flag line of `lines` and closed by a blank line: the
flag line has a non-empty name, only description lines follow it up to the blank line. -/
def ClosedRecord (lines : List String) (entry : SchemaEntry) : Prop :=
  ∃ pre flag desc blank post,
    lines = pre ++ flag :: (desc ++ blank :: post) ∧
    isFlagLine flag = true ∧ (∀ d ∈ desc, isDescriptionLine d = true) ∧
    isBlankLine blank = true ∧
    loadParameter (strings.TrimSpace flag) = some entry ∧ entry.Parameter ≠ ""

/-- The entry has kind `Int` and a default that parses neither as a decimal integer nor as a
duration. -/
def UnparsableInt (entry : SchemaEntry) : Prop :=
  entry.Type_ = SchemaType.Int ∧ strconv.Atoi entry.Default = none ∧
    ∃ err, time.ParseDuration entry.Default = .error err

/-- The text whose lines are `lines`: they are joined by single newlines. -/
def joinLines : List String → String
  | [] => ""
  | [a] => a
  | a :: b :: rest => a ++ "\n" ++ joinLines (b :: rest)

/-- The binary of `TestPropertyFailure`. -/
def testPropertyFailure : MinikubeBinary :=
  ⟨("Version 999", none), ("\n--test=asdfasdf:\n\tI am a great test description\n\n\t", none)⟩

/-- After zero or more description lines comes a blank line (and not a flag line or the end
of the input). -/
def terminated : List String → Bool
  | [] => false
  | text :: rest =>
    if isBlankLine text then true else if isFlagLine text then false else terminated rest

/-- The number of blank-line-terminated flag records: the flag lines that are followed,
after zero or more description lines, by a blank line. -/
def countTerminated : List String → Nat
  | [] => 0
  | text :: rest => (if isFlagLine text && terminated rest then 1 else 0) + countTerminated rest

/-- The binary of `TestStringProperty`. -/
def testStringProperty : MinikubeBinary :=
  ⟨("Version 999", none),
   ("\n--test=\x27test-value\x27:\n\tI am a great test description\n\n" ++
    "--test2=\x27test-value2\x27:\n\tI am a great test2 description\n\t", none)⟩

/-! ## Further vocabulary -/

/-- The `body` of `constructSchema`: the blocks of the entries, appended in list order. -/
def schemaBody (entries : List SchemaEntry) : String :=
  entries.foldl (fun body entry => body ++ entryBlock entry) ""

/-- The name `loadParameter` gives the record of a flag line: `seg[0]` without its `--` and
with `_` for every `-`. -/
def flagName (line : String) : String :=
  strings.ReplaceAll (strings.TrimPrefix ((strings.Split line "=").headD "") "--") "-" "_"

/-- The raw default `loadParameter` reads from a flag line: `seg[1]` without one trailing
colon.  `none` when there is no `seg[1]`. -/
def rawDefault (line : String) : Option String :=
  (strings.Split line "=")[1]?.map (fun seg1 => strings.TrimSuffix seg1 ":")

/-- The override of the default and of the kind, as in `loadParameter`. -/
def overrideDefault (entry : SchemaEntry) : SchemaEntry :=
  match schemaOverrides entry.Parameter with
  | some val => { entry with Default := val.Default, Type_ := val.Type_ }
  | none => entry

/-- The override of the description, as in `Build`. -/
def overrideDescription (entry : SchemaEntry) : SchemaEntry :=
  match schemaOverrides entry.Parameter with
  | some val => { entry with Description := val.Description }
  | none => entry

/-- Applying the override table to a record: the default and the kind, then the
description. -/
def applyOverrides (entry : SchemaEntry) : SchemaEntry :=
  overrideDescription (overrideDefault entry)

/-- The stripping of the single quotes of a `String` default, as in `loadParameter`. -/
def stripQuotes (entry : SchemaEntry) : SchemaEntry :=
  if entry.Type_ = SchemaType.String then
    { entry with Default := strings.Trim entry.Default "\x27" }
  else entry

/-- The methods of `MinikubeBinary`. -/
inductive Call where
  | GetVersion
  | GetStartHelpText
  deriving DecidableEq, Repr

/-- Go `MinikubeBinary` as an object with a state of type `σ`: a method returns its pair of
results and the state it leaves. -/
structure StatefulBinary (σ : Type) where
  GetVersion : σ → (String × Option GoError) × σ
  GetStartHelpText : σ → (String × Option GoError) × σ

/-- Go `SchemaBuilder.Build` over a binary with state: the result of `Build` and the state
the calls leave. -/
def BuildWith {σ : Type} (minikube : StatefulBinary σ) (s : σ) :
    Option (String × Option GoError) × σ :=
  match minikube.GetVersion s with
  | ((_, some _), s1) =>
    (some ("", some (GoError.errorsNew
      "could not run minikube binary. please ensure that you have minikube installed and available")),
     s1)
  | ((_, none), s1) =>
    match minikube.GetStartHelpText s1 with
    | ((_, some err), s2) => (some ("", some err), s2)
    | ((help, none), s2) =>
      match scanLoop (ScanLines help) {} with
      | LoopResult.panicked => (none, s2)
      | LoopResult.failed err => (some ("", some err), s2)
      | LoopResult.done st => (some (constructSchema st.entries, none), s2)

/-- The binary that returns what `minikube` returns and records the calls made to it. -/
def recording (minikube : MinikubeBinary) : StatefulBinary (List Call) where
  GetVersion := fun log => (minikube.GetVersion, log ++ [Call.GetVersion])
  GetStartHelpText := fun log => (minikube.GetStartHelpText, log ++ [Call.GetStartHelpText])

/-- The mock of `TestMinikubeNotFound`; the test sets no expectation for the help text. -/
def testMinikubeNotFound : MinikubeBinary :=
  ⟨("", some (GoError.errorsNew "could not find minikube binary")), ("", none)⟩


/-- The names of the blank-line-terminated flag records with a non-empty name, in the order
of their flag lines. -/
def terminatedNames : List String → List String
  | [] => []
  | text :: rest =>
    (if isFlagLine text && terminated rest then
      match loadParameter (strings.TrimSpace text) with
      | some entry => if entry.Parameter = "" then [] else [entry.Parameter]
      | none => []
    else []) ++ terminatedNames rest

/-- A help text that repeats the flag `a`. -/
def repeatedFlag : MinikubeBinary :=
  ⟨("Version 999", none), ("--a=1:\n\n--a=2:\n\n", none)⟩

/-- A help text with a record that fails before a flag line without `=`. -/
def failureBeforeMalformed : MinikubeBinary :=
  ⟨("Version 999", none), ("--a=xyz:\n\n--bad\n", none)⟩

/-- A help text with a flag line without `=`. -/
def malformedFlag : MinikubeBinary :=
  ⟨("Version 999", none), ("--a=1:\n\n--bad\n", none)⟩


/-- A text that is safe between double quotes: every double quote is preceded by a maximal
run of backslashes of odd length, and every maximal run of backslashes that is followed by
another character, or by the end of the text, has even length. -/
def QuoteSafe (s : List Char) : Prop :=
  (∀ pre post k, s = pre ++ (List.replicate k (Char.ofNat 92) ++ Char.ofNat 34 :: post) →
    pre.getLast? ≠ some (Char.ofNat 92) → k % 2 = 1) ∧
  (∀ pre post k c, s = pre ++ (List.replicate k (Char.ofNat 92) ++ c :: post) →
    c ≠ Char.ofNat 34 → c ≠ Char.ofNat 92 →
    pre.getLast? ≠ some (Char.ofNat 92) → k % 2 = 0) ∧
  (∀ pre k, s = pre ++ List.replicate k (Char.ofNat 92) →
    pre.getLast? ≠ some (Char.ofNat 92) → k % 2 = 0)

/-- A check of `QuoteSafe` in one pass; `odd` tells whether the run of backslashes just read
has odd length. -/
def safeFrom : Bool → List Char → Bool
  | odd, [] => !odd
  | odd, c :: cs =>
    if c = Char.ofNat 92 then safeFrom (!odd) cs
    else if c = Char.ofNat 34 then odd && safeFrom false cs
    else !odd && safeFrom false cs


/-- What `Build` returns for an outcome of its loop. -/
def LoopResult.output : LoopResult → Option (String × Option GoError)
  | LoopResult.panicked => none
  | LoopResult.failed err => some ("", some err)
  | LoopResult.done st => some (constructSchema st.entries, none)

/-- The text made of the lines `lines`, each followed by a newline. -/
def unlines (lines : List String) : String :=
  lines.foldr (fun l t => l ++ "\n" ++ t) ""

/-- A place outside the records: no flag line comes before it, or since the last blank line
before it there is no flag line. -/
def OutsideRecords (pre : List String) : Prop :=
  ∃ p gap, pre = p ++ gap ∧ (∀ t ∈ gap, isFlagLine t = false) ∧
    (p = [] ∨ ∃ q b, p = q ++ [b] ∧ isBlankLine b = true)

/-- A help text with a description that holds double quotes and a backslash. -/
def quotedDescription : MinikubeBinary :=
  ⟨("Version 999", none), ("--test=6m0s:\n\tsay \"hi\" to C:\\\n\n", none)⟩

/-- A line of `MaxScanTokenSize` letters `x`: the shortest kind of line the scanner does not
deliver. -/
def longLine : String :=
  ⟨List.replicate MaxScanTokenSize (Char.ofNat 120)⟩

/-- A help text whose record `--a=xyz:`, closed by a blank line, comes after a long line. -/
def failureAfterLongLine : MinikubeBinary :=
  ⟨("Version 999", none), (unlines [longLine, "--a=xyz:", ""], none)⟩

/-- A help text whose record `--a=1:`, closed by a blank line, comes after a long line. -/
def recordAfterLongLine : MinikubeBinary :=
  ⟨("Version 999", none), (unlines [longLine, "--a=1:", ""], none)⟩

/-- A help text with the closed record of a quoted default that holds `=`. -/
def quotedDefaultWithEquals : MinikubeBinary :=
  ⟨("Version 999", none), ("--foo=\x27a=b\x27:\n\n", none)⟩

/-- A help text with the closed record of a bracket-delimited default that holds `=`. -/
def listDefaultWithEquals : MinikubeBinary :=
  ⟨("Version 999", none), ("--foo=[a=b]:\n\n", none)⟩

/-! ## Facts about the string functions -/

theorem countFrom_single (c : Char) (l : List Char) :
    strings.countFrom [c] 0 l = l.count c := by
  induction l with
  | nil => rfl
  | cons a l ih =>
    by_cases h : c = a
    · subst h
      simp [strings.countFrom, List.isPrefixOf, ih]
    · have h2 : ¬ a = c := fun e => h e.symm
      simp [strings.countFrom, List.isPrefixOf, ih, h, List.count_cons, h2]

theorem Count_single (s : String) (c : Char) :
    strings.Count s ⟨[c]⟩ = s.data.count c := by
  simp [strings.Count, countFrom_single]

theorem HasPrefix_single (s : String) (c : Char) :
    strings.HasPrefix s ⟨[c]⟩ = true ↔ s.data.head? = some c := by
  cases s with
  | mk l =>
    cases l with
    | nil => simp [strings.HasPrefix, List.isPrefixOf]
    | cons a l =>
      simp only [strings.HasPrefix, List.isPrefixOf, Bool.and_true, beq_iff_eq, List.head?_cons,
        Option.some.injEq]
      exact eq_comm

theorem HasSuffix_single (s : String) (c : Char) :
    strings.HasSuffix s ⟨[c]⟩ = true ↔ s.data.getLast? = some c := by
  cases s with
  | mk l =>
    rw [← List.head?_reverse]
    cases h : l.reverse with
    | nil => simp [strings.HasSuffix, List.isPrefixOf, h]
    | cons a l =>
      simp only [strings.HasSuffix, List.isPrefixOf, Bool.and_true, beq_iff_eq, List.head?_cons,
        Option.some.injEq, h, List.reverse_cons, List.reverse_nil, List.nil_append]
      exact eq_comm

theorem schemaTypes_nodup :
    [SchemaType.String, SchemaType.Bool, SchemaType.Array, SchemaType.Int].Nodup := by
  decide

/-! ## C1: type inference -/

/-- C1: `getSchemaType` follows the four priority rules for every string `s`.  It returns
`String` exactly when `s` is empty or holds exactly two single quotes; otherwise `Bool`
exactly when `s` is `true` or `false`; otherwise `List` exactly when `s` starts with `[`
and ends with `]`; otherwise `Int`.  The four kinds are pairwise different, so exactly one
is selected, and an earlier rule wins: `['a']` is a `String`. -/
theorem getSchemaType_priority (s : String) :
    (getSchemaType s = SchemaType.String ↔
      (s = "" ∨ s.data.count (Char.ofNat 39) = 2)) ∧
    (getSchemaType s = SchemaType.Bool ↔
      ¬ (s = "" ∨ s.data.count (Char.ofNat 39) = 2) ∧ (s = "true" ∨ s = "false")) ∧
    (getSchemaType s = SchemaType.Array ↔
      ¬ (s = "" ∨ s.data.count (Char.ofNat 39) = 2) ∧ ¬ (s = "true" ∨ s = "false") ∧
      (s.data.head? = some (Char.ofNat 91) ∧ s.data.getLast? = some (Char.ofNat 93))) ∧
    (getSchemaType s = SchemaType.Int ↔
      ¬ (s = "" ∨ s.data.count (Char.ofNat 39) = 2) ∧ ¬ (s = "true" ∨ s = "false") ∧
      ¬ (s.data.head? = some (Char.ofNat 91) ∧ s.data.getLast? = some (Char.ofNat 93))) ∧
    [SchemaType.String, SchemaType.Bool, SchemaType.Array, SchemaType.Int].Nodup ∧
    getSchemaType "[\x27a\x27]" = SchemaType.String := by
  have hc : strings.Count s "\x27" = s.data.count (Char.ofNat 39) := Count_single s _
  have hp : strings.HasPrefix s "[" = true ↔ s.data.head? = some (Char.ofNat 91) :=
    HasPrefix_single s _
  have hs : strings.HasSuffix s "]" = true ↔ s.data.getLast? = some (Char.ofNat 93) :=
    HasSuffix_single s _
  have d1 : SchemaType.String ≠ SchemaType.Bool := by decide
  have d2 : SchemaType.String ≠ SchemaType.Array := by decide
  have d3 : SchemaType.String ≠ SchemaType.Int := by decide
  have d4 : SchemaType.Bool ≠ SchemaType.Array := by decide
  have d5 : SchemaType.Bool ≠ SchemaType.Int := by decide
  have d6 : SchemaType.Array ≠ SchemaType.Int := by decide
  refine ⟨?_, ?_, ?_, ?_, schemaTypes_nodup, by decide⟩
  all_goals
    by_cases h1 : s = "" ∨ s.data.count (Char.ofNat 39) = 2
    · have g1 : strings.Count s "\x27" = 2 ∨ s = "" := by rw [hc]; exact h1.symm
      simp [getSchemaType, g1, h1, d1, d2, d3]
    · have g1 : ¬ (strings.Count s "\x27" = 2 ∨ s = "") := by
        rw [hc]; exact fun h => h1 h.symm
      by_cases h2 : s = "true" ∨ s = "false"
      · simp [getSchemaType, g1, h1, h2, d1.symm, d4, d5]
      · by_cases h3 : s.data.head? = some (Char.ofNat 91) ∧
            s.data.getLast? = some (Char.ofNat 93)
        · have g3 : strings.HasPrefix s "[" = true ∧ strings.HasSuffix s "]" = true :=
            ⟨hp.2 h3.1, hs.2 h3.2⟩
          simp [getSchemaType, g1, h1, h2, g3, h3, d2.symm, d4.symm, d6]
        · have g3 : ¬ (strings.HasPrefix s "[" = true ∧ strings.HasSuffix s "]" = true) :=
            fun g => h3 ⟨hp.1 g.1, hs.1 g.2⟩
          simp [getSchemaType, g1, h1, h2, g3, h3, d3.symm, d5.symm, d6.symm]

/-! ## C5: the flag line is split at every `=` -/

/-- C5: on the flag line `--foo='a=b':` the line is split at every `=` and the raw default is
the second segment alone: `loadParameter` returns the default `'a` of kind `Int`, where the
text after the first `=` without its trailing colon is `'a=b'`. -/
theorem loadParameter_second_segment_only :
    loadParameter "--foo=\x27a=b\x27:" =
      some { Parameter := "foo", Default := "\x27a", Description := "",
             Type_ := SchemaType.Int, ArrayType := "" } ∧
    strings.Split "--foo=\x27a=b\x27:" "=" = ["--foo", "\x27a", "b\x27:"] := by
  decide

/-! ## C6: escaping and its reverse -/

theorem replaceFrom_single (a : Char) (new l : List Char) :
    strings.replaceFrom [a] new 0 l = l.flatMap (fun c => if c = a then new else [c]) := by
  induction l with
  | nil => rfl
  | cons c l ih =>
    by_cases h : a = c
    · subst h
      simp [strings.replaceFrom, List.isPrefixOf, ih]
    · have h2 : ¬ c = a := fun e => h e.symm
      simp [strings.replaceFrom, List.isPrefixOf, ih, h, h2]

theorem replaceFrom_cons_of_no_match (old new : List Char) (c : Char) (cs : List Char)
    (h : old.isPrefixOf (c :: cs) = false) :
    strings.replaceFrom old new 0 (c :: cs) = c :: strings.replaceFrom old new 0 cs := by
  simp [strings.replaceFrom, h]

theorem replaceFrom_pair_match (a b : Char) (new cs : List Char) :
    strings.replaceFrom [a, b] new 0 (a :: b :: cs) =
      new ++ strings.replaceFrom [a, b] new 0 cs := by
  simp [strings.replaceFrom, List.isPrefixOf]

theorem head_flatMap_quote (l : List Char) :
    (l.flatMap (fun c => if c = Char.ofNat 34 then [Char.ofNat 92, Char.ofNat 34] else [c])).head?
      ≠ some (Char.ofNat 34) := by
  cases l with
  | nil => simp
  | cons c l =>
    by_cases h : c = Char.ofNat 34
    · subst h
      rw [List.flatMap_cons, if_pos rfl]
      simp only [List.cons_append, List.head?_cons, ne_eq, Option.some.injEq]
      decide
    · rw [List.flatMap_cons, if_neg h]
      simpa using h

theorem unquote_flatMap (l : List Char) :
    strings.replaceFrom [Char.ofNat 92, Char.ofNat 34] [Char.ofNat 34] 0
      (l.flatMap (fun c => if c = Char.ofNat 34 then [Char.ofNat 92, Char.ofNat 34] else [c]))
      = l := by
  induction l with
  | nil => rfl
  | cons c l ih =>
    by_cases h : c = Char.ofNat 34
    · subst h
      rw [List.flatMap_cons, if_pos rfl]
      rw [List.cons_append, List.singleton_append, replaceFrom_pair_match, ih]
      rfl
    · have hh := head_flatMap_quote l
      rw [List.flatMap_cons, if_neg h, List.singleton_append]
      rw [replaceFrom_cons_of_no_match, ih]
      generalize (l.flatMap
        (fun c => if c = Char.ofNat 34 then [Char.ofNat 92, Char.ofNat 34] else [c])) = r
        at hh
      cases r with
      | nil => simp [List.isPrefixOf]
      | cons b r =>
        have hb : ¬ Char.ofNat 34 = b := by
          intro e; apply hh; rw [← e]; rfl
        simp [List.isPrefixOf, hb]

theorem undouble_flatMap (l : List Char) :
    strings.replaceFrom [Char.ofNat 92, Char.ofNat 92] [Char.ofNat 92] 0
      (l.flatMap (fun c => if c = Char.ofNat 92 then [Char.ofNat 92, Char.ofNat 92] else [c]))
      = l := by
  induction l with
  | nil => rfl
  | cons c l ih =>
    by_cases h : c = Char.ofNat 92
    · subst h
      rw [List.flatMap_cons, if_pos rfl]
      rw [List.cons_append, List.singleton_append, replaceFrom_pair_match, ih]
      rfl
    · have h2 : ¬ Char.ofNat 92 = c := fun e => h e.symm
      rw [List.flatMap_cons, if_neg h, List.singleton_append]
      rw [replaceFrom_cons_of_no_match, ih]
      simp [List.isPrefixOf, h2]

theorem escapeDescription_data (d : String) :
    (escapeDescription d).data =
      (d.data.flatMap
        (fun c => if c = Char.ofNat 92 then [Char.ofNat 92, Char.ofNat 92] else [c])).flatMap
        (fun c => if c = Char.ofNat 34 then [Char.ofNat 92, Char.ofNat 34] else [c]) := by
  have h1 : ("\\" : String).data = [Char.ofNat 92] := by decide
  have h2 : ("\\\\" : String).data = [Char.ofNat 92, Char.ofNat 92] := by decide
  have h3 : ("\"" : String).data = [Char.ofNat 34] := by decide
  have h4 : ("\\\"" : String).data = [Char.ofNat 92, Char.ofNat 34] := by decide
  simp only [escapeDescription, strings.ReplaceAll, h1, h2, h3, h4]
  simp [replaceFrom_single]

theorem unescape_escape_aux (d : String) : unescapeDescription (escapeDescription d) = d := by
  have h2 : ("\\\\" : String).data = [Char.ofNat 92, Char.ofNat 92] := by decide
  have h1 : ("\\" : String).data = [Char.ofNat 92] := by decide
  have h3 : ("\"" : String).data = [Char.ofNat 34] := by decide
  have h4 : ("\\\"" : String).data = [Char.ofNat 92, Char.ofNat 34] := by decide
  have e := escapeDescription_data d
  simp only [unescapeDescription, strings.ReplaceAll, h1, h2, h3, h4, e]
  simp [unquote_flatMap, undouble_flatMap]

/-- C6: description escaping round-trips.  With `escapeDescription` the escaping of `Build`
(double every backslash, then put a backslash before every double quote) and
`unescapeDescription` its reverse (drop the backslash before every double quote, then
un-double the backslashes), `unescapeDescription (escapeDescription d) = d` for every string
`d`; hence the escaping is injective. -/
theorem unescape_escape :
    (∀ d : String, unescapeDescription (escapeDescription d) = d) ∧
    Function.Injective escapeDescription := by
  refine ⟨unescape_escape_aux, ?_⟩
  intro a b h
  rw [← unescape_escape_aux a, ← unescape_escape_aux b, h]

/-! ## C8 and C9: the markers of a block -/

theorem contains_iff_mem (l : List String) (e : String) : contains l e = true ↔ e ∈ l := by
  induction l with
  | nil => simp [contains]
  | cons a l ih =>
    by_cases h : a = e
    · simp [contains, h]
    · have h2 : ¬ e = a := fun x => h x.symm
      simp [contains, h, h2, ih]

/-- C8: the marker section of every rendered block is decided by exact membership of the
entry's name in `computedFields`.  The block is its head, the marker section, the type
section and its tail.  If the name is in the set the marker section is the `Computed` marker
and holds neither the `Optional` nor the `ForceNew` marker, whatever the kind; otherwise it
holds the `Optional` and the `ForceNew` marker and no `Computed` marker. -/
theorem markerParams_by_membership (entry : SchemaEntry) :
    entryBlock entry =
      "\n\t\t\"" ++ entry.Parameter ++ "\": \x7b\n\t\t\tType:\t\t\t\t\t" ++
        ("schema.Type" ++ entry.Type_) ++ ",\n\t\t\tDescription:\t\"" ++ entry.Description ++
        "\",\n\t\t\t" ++ (markerParams entry ++ typeParams entry) ++ "\n\t\t\x7d,\n\t" ∧
    (entry.Parameter ∈ computedFields →
      markerParams entry = "\n\t\t\tComputed:\t\t\ttrue,\n\t\t\t" ∧
      strings.Contains (markerParams entry) "Computed:\t\t\ttrue" ∧
      ¬ strings.Contains (markerParams entry) "Optional:" ∧
      ¬ strings.Contains (markerParams entry) "ForceNew:") ∧
    (entry.Parameter ∉ computedFields →
      markerParams entry = "\n\t\t\tOptional:\t\t\ttrue,\n\t\t\tForceNew:\t\t\ttrue,\n\t\t\t" ∧
      strings.Contains (markerParams entry) "Optional:\t\t\ttrue" ∧
      strings.Contains (markerParams entry) "ForceNew:\t\t\ttrue" ∧
      ¬ strings.Contains (markerParams entry) "Computed:") := by
  refine ⟨rfl, ?_, ?_⟩
  · intro h
    have hc : contains computedFields entry.Parameter = true := (contains_iff_mem _ _).2 h
    have hm : markerParams entry = "\n\t\t\tComputed:\t\t\ttrue,\n\t\t\t" := by
      simp [markerParams, hc]
    rw [hm]
    decide
  · intro h
    have hc : contains computedFields entry.Parameter = false := by
      rw [← Bool.not_eq_true, contains_iff_mem]; exact h
    have hm : markerParams entry =
        "\n\t\t\tOptional:\t\t\ttrue,\n\t\t\tForceNew:\t\t\ttrue,\n\t\t\t" := by
      simp [markerParams, hc]
    rw [hm]
    decide

/-- Witness of C8 at the computed field `host` of kind `Int`. -/
theorem markerParams_by_membership_witness :
    "host" ∈ computedFields ∧
    markerParams { Parameter := "host", Default := "123", Type_ := SchemaType.Int } =
      "\n\t\t\tComputed:\t\t\ttrue,\n\t\t\t" :=
  ⟨by decide,
   ((markerParams_by_membership
      { Parameter := "host", Default := "123", Type_ := SchemaType.Int }).2.1 (by decide)).1⟩

/-- C9, as stated, fails: the block of the computed field `host` with kind `Int` and default
`123` holds the line `Default:	123,`. -/
theorem computed_block_has_default :
    ¬ (∀ entry : SchemaEntry, entry.Parameter ∈ computedFields →
        ¬ strings.Contains (entryBlock entry) "Default:") := by
  intro h
  refine h { Parameter := "host", Default := "123", Type_ := SchemaType.Int,
             Description := "I am a great test description" } (by decide) ?_
  exact ⟨("\n\t\t\"host\": \x7b\n\t\t\tType:\t\t\t\t\tschema.TypeInt,\n\t\t\tDescription:\t" ++
          "\"I am a great test description\",\n\t\t\t\n\t\t\tComputed:\t\t\ttrue,\n\t\t\t\n\t\t\t").data,
         ("\t123,\n\t\t\x7d,\n\t").data, by decide⟩

/-- C9, amended: for every entry whose name is in `computedFields` the parameters of the
block are the `Computed` marker followed by the type section, and the type section does not
depend on the membership: for a kind other than `List` it is the line `Default:	<default>,`
and for the kind `List` it is the element sub-block, in which no `Default:` occurs when none
occurs in the element kind. -/
theorem computed_block_default (entry : SchemaEntry) (h : entry.Parameter ∈ computedFields) :
    (entry.Type_ ≠ SchemaType.Array →
      extraParams entry =
        "\n\t\t\tComputed:\t\t\ttrue,\n\t\t\t" ++ ("\n\t\t\tDefault:\t" ++ entry.Default ++ ",")) ∧
    (entry.Type_ = SchemaType.Array →
      extraParams entry =
        "\n\t\t\tComputed:\t\t\ttrue,\n\t\t\t" ++
          ("\n\t\t\tElem: &schema.Schema\x7b\n\t\t\t\tType:\t" ++
            ("schema.Type" ++ entry.ArrayType) ++ ",\n\t\t\t\x7d,\n\t\t\t")) ∧
    (entry.Type_ = SchemaType.Array → entry.ArrayType = SchemaType.String →
      ¬ strings.Contains (extraParams entry) "Default:") := by
  have hc : contains computedFields entry.Parameter = true := (contains_iff_mem _ _).2 h
  have hm : markerParams entry = "\n\t\t\tComputed:\t\t\ttrue,\n\t\t\t" := by
    simp [markerParams, hc]
  refine ⟨?_, ?_, ?_⟩
  · intro ht
    simp [extraParams, typeParams, hm, ht]
  · intro ht
    simp [extraParams, typeParams, hm, ht]
  · intro ht ha
    have e : extraParams entry =
        "\n\t\t\tComputed:\t\t\ttrue,\n\t\t\t" ++
          ("\n\t\t\tElem: &schema.Schema\x7b\n\t\t\t\tType:\t" ++
            ("schema.Type" ++ SchemaType.String) ++ ",\n\t\t\t\x7d,\n\t\t\t") := by
      simp [extraParams, typeParams, hm, ht, ha]
    rw [e]
    set_option maxRecDepth 20000 in decide

/-- Witness of the amended C9 at the computed field `host` of kind `Int`. -/
theorem computed_block_default_witness :
    "host" ∈ computedFields ∧
    extraParams { Parameter := "host", Default := "123", Type_ := SchemaType.Int } =
      "\n\t\t\tComputed:\t\t\ttrue,\n\t\t\t" ++ ("\n\t\t\tDefault:\t" ++ "123" ++ ",") :=
  ⟨by decide,
   (computed_block_default
      { Parameter := "host", Default := "123", Type_ := SchemaType.Int } (by decide)).1
      (by decide)⟩

/-! ## The loop of `Build` -/

theorem not_flag_of_blank (text : String) (h : isBlankLine text = true) :
    isFlagLine text = false := by
  simp only [isBlankLine, decide_eq_true_eq] at h
  simp only [isFlagLine, h]
  decide

theorem scanLoop_flag (text : String) (rest : List String) (st : LoopState)
    (h : isFlagLine text = true) :
    scanLoop (text :: rest) st =
      match loadParameter (strings.TrimSpace text) with
      | none => LoopResult.panicked
      | some entry => scanLoop rest { st with currentEntry := entry } := by
  simp only [isFlagLine] at h
  simp only [scanLoop, h, if_true]

theorem scanLoop_description (text : String) (rest : List String) (st : LoopState)
    (h : isDescriptionLine text = true) :
    scanLoop (text :: rest) st =
      scanLoop rest { st with currentEntry :=
        { st.currentEntry with
          Description := st.currentEntry.Description ++ strings.TrimSpace text } } := by
  simp only [isDescriptionLine, isFlagLine, isBlankLine, Bool.and_eq_true, Bool.not_eq_true',
    decide_eq_false_iff_not] at h
  simp only [scanLoop, h.1, Bool.false_eq_true, if_false, ne_eq, h.2, not_false_eq_true, if_true]

theorem scanLoop_blank_open (text : String) (rest : List String) (st : LoopState)
    (h : isBlankLine text = true) (hp : st.currentEntry.Parameter ≠ "") :
    scanLoop (text :: rest) st =
      match addEntry st.entries
          { st.currentEntry with
            Description := match schemaOverrides st.currentEntry.Parameter with
              | some val => val.Description
              | none => escapeDescription st.currentEntry.Description } with
      | .error err => LoopResult.failed err
      | .ok entries =>
        scanLoop rest
          { entries := entries,
            currentEntry :=
              { st.currentEntry with
                Description := match schemaOverrides st.currentEntry.Parameter with
                  | some val => val.Description
                  | none => escapeDescription st.currentEntry.Description,
                Parameter := "" } } := by
  have hf : strings.HasPrefix "" "--" = false := by decide
  simp only [isBlankLine, decide_eq_true_eq] at h
  simp only [scanLoop, h, hf, Bool.false_eq_true, if_false, ne_eq, not_true_eq_false, hp,
    not_false_eq_true, if_true]

theorem scanLoop_blank_idle (text : String) (rest : List String) (st : LoopState)
    (h : isBlankLine text = true) (hp : st.currentEntry.Parameter = "") :
    scanLoop (text :: rest) st = scanLoop rest st := by
  have hf : strings.HasPrefix "" "--" = false := by decide
  simp only [isBlankLine, decide_eq_true_eq] at h
  simp only [scanLoop, h, hf, Bool.false_eq_true, if_false, ne_eq, not_true_eq_false, hp]

theorem line_cases (text : String) :
    isFlagLine text = true ∨ isDescriptionLine text = true ∨ isBlankLine text = true := by
  by_cases h1 : isFlagLine text = true
  · exact Or.inl h1
  · by_cases h2 : isBlankLine text = true
    · exact Or.inr (Or.inr h2)
    · refine Or.inr (Or.inl ?_)
      simp [isDescriptionLine, h1, h2]

theorem splitFrom_ne_nil (sep : List Char) (k : Nat) (cur l : List Char) :
    strings.splitFrom sep k cur l ≠ [] := by
  induction l generalizing k cur with
  | nil => cases k <;> simp [strings.splitFrom]
  | cons c cs ih =>
    cases k with
    | zero =>
      simp only [strings.splitFrom]
      split
      · simp
      · exact ih _ _
    | succ k =>
      simp only [strings.splitFrom]
      exact ih _ _

theorem splitFrom_two_of_mem (c : Char) (cur l : List Char) (h : c ∈ l) :
    ∃ a b t, strings.splitFrom [c] 0 cur l = a :: b :: t := by
  induction l generalizing cur with
  | nil => simp at h
  | cons x xs ih =>
    by_cases hx : c = x
    · subst hx
      have hne := splitFrom_ne_nil [c] 0 [] xs
      obtain ⟨b, t, hbt⟩ := List.exists_cons_of_ne_nil hne
      refine ⟨cur.reverse, b, t, ?_⟩
      simp [strings.splitFrom, List.isPrefixOf, hbt]
    · have hm : c ∈ xs := by
        rcases List.mem_cons.1 h with h1 | h1
        · exact absurd h1 hx
        · exact h1
      obtain ⟨a, b, t, e⟩ := ih (x :: cur) hm
      refine ⟨a, b, t, ?_⟩
      simp [strings.splitFrom, List.isPrefixOf, hx, e]

theorem loadParameter_isSome_of_eq (line : String) (h : Char.ofNat 61 ∈ line.data) :
    ∃ entry, loadParameter line = some entry := by
  obtain ⟨a, b, t, e⟩ := splitFrom_two_of_mem (Char.ofNat 61) [] line.data h
  have hs : strings.Split line "=" = String.mk a :: String.mk b :: t.map String.mk := by
    have h1 : ("=" : String).data = [Char.ofNat 61] := by decide
    simp [strings.Split, h1, e]
  simp only [loadParameter, hs]
  exact ⟨_, rfl⟩

theorem mem_dropWhile_of_not (p : Char → Bool) (c : Char) (l : List Char) (h : c ∈ l)
    (hp : p c = false) : c ∈ l.dropWhile p := by
  induction l with
  | nil => simp at h
  | cons x xs ih =>
    by_cases hx : p x = true
    · have hm : c ∈ xs := by
        rcases List.mem_cons.1 h with h1 | h1
        · subst h1; rw [hp] at hx; cases hx
        · exact h1
      simp only [List.dropWhile_cons, hx, if_true]
      exact ih hm
    · simp only [List.dropWhile_cons, hx, Bool.false_eq_true, if_false]
      exact h

theorem mem_TrimSpace_of_not_space (text : String) (c : Char) (h : c ∈ text.data)
    (hp : strings.isSpace c = false) : c ∈ (strings.TrimSpace text).data := by
  simp only [strings.TrimSpace, strings.dropWhileEnd, List.mem_reverse]
  apply mem_dropWhile_of_not _ _ _ _ hp
  rw [List.mem_reverse]
  exact mem_dropWhile_of_not _ _ _ h hp

theorem String_ne_Bool : SchemaType.String ≠ SchemaType.Bool := by decide
theorem String_ne_Int : SchemaType.String ≠ SchemaType.Int := by decide
theorem String_ne_Array : SchemaType.String ≠ SchemaType.Array := by decide
theorem Bool_ne_String : SchemaType.Bool ≠ SchemaType.String := by decide
theorem Bool_ne_Int : SchemaType.Bool ≠ SchemaType.Int := by decide
theorem Bool_ne_Array : SchemaType.Bool ≠ SchemaType.Array := by decide
theorem Int_ne_String : SchemaType.Int ≠ SchemaType.String := by decide
theorem Int_ne_Bool : SchemaType.Int ≠ SchemaType.Bool := by decide
theorem Int_ne_Array : SchemaType.Int ≠ SchemaType.Array := by decide
theorem Array_ne_String : SchemaType.Array ≠ SchemaType.String := by decide
theorem Array_ne_Bool : SchemaType.Array ≠ SchemaType.Bool := by decide
theorem Array_ne_Int : SchemaType.Array ≠ SchemaType.Int := by decide

theorem addEntry_error_iff (entries : List SchemaEntry) (entry : SchemaEntry) :
    (∃ err, addEntry entries entry = .error err) ↔ UnparsableInt entry := by
  unfold addEntry UnparsableInt
  by_cases h1 : entry.Type_ = SchemaType.String
  · simp [h1, String_ne_Int]
  · by_cases h2 : entry.Type_ = SchemaType.Bool
    · simp [h2, Bool_ne_String, Bool_ne_Int]
    · by_cases h3 : entry.Type_ = SchemaType.Int
      · simp only [h3, Int_ne_String, Int_ne_Bool, if_true, if_false, true_and]
        cases ha : strconv.Atoi entry.Default with
        | some v => simp
        | none =>
          cases hd : time.ParseDuration entry.Default with
          | error e => simp
          | ok t => simp
      · simp only [h1, h2, h3, if_false, false_and, iff_false, not_exists]
        intro err
        split <;> simp

theorem scanLoop_ne_panicked (lines : List String) (st : LoopState)
    (h : ∀ text ∈ lines, isFlagLine text = true → Char.ofNat 61 ∈ text.data) :
    scanLoop lines st ≠ LoopResult.panicked := by
  induction lines generalizing st with
  | nil => simp [scanLoop]
  | cons text rest ih =>
    have hr : ∀ t ∈ rest, isFlagLine t = true → Char.ofNat 61 ∈ t.data :=
      fun t ht => h t (List.mem_cons_of_mem _ ht)
    rcases line_cases text with hf | hd | hb
    · have hm := mem_TrimSpace_of_not_space text _ (h text (List.mem_cons_self _ _) hf)
        (by decide)
      obtain ⟨entry, he⟩ := loadParameter_isSome_of_eq _ hm
      rw [scanLoop_flag _ _ _ hf, he]
      exact ih _ hr
    · rw [scanLoop_description _ _ _ hd]
      exact ih _ hr
    · by_cases hp : st.currentEntry.Parameter = ""
      · rw [scanLoop_blank_idle _ _ _ hb hp]
        exact ih _ hr
      · rw [scanLoop_blank_open _ _ _ hb hp]
        split
        · simp
        · exact ih _ hr

theorem scanLoop_append (a b : List String) (st : LoopState) :
    scanLoop (a ++ b) st =
      match scanLoop a st with
      | LoopResult.done st1 => scanLoop b st1
      | r => r := by
  induction a generalizing st with
  | nil => simp [scanLoop]
  | cons text rest ih =>
    rw [List.cons_append]
    rcases line_cases text with hf | hd | hb
    · rw [scanLoop_flag _ _ _ hf, scanLoop_flag _ _ _ hf]
      cases loadParameter (strings.TrimSpace text) with
      | none => rfl
      | some entry => exact ih _
    · rw [scanLoop_description _ _ _ hd, scanLoop_description _ _ _ hd]
      exact ih _
    · by_cases hp : st.currentEntry.Parameter = ""
      · rw [scanLoop_blank_idle _ _ _ hb hp, scanLoop_blank_idle _ _ _ hb hp]
        exact ih _
      · rw [scanLoop_blank_open _ _ _ hb hp, scanLoop_blank_open _ _ _ hb hp]
        split
        · rfl
        · exact ih _

theorem scanLoop_descriptions (desc rest : List String) (st : LoopState)
    (h : ∀ d ∈ desc, isDescriptionLine d = true) :
    scanLoop (desc ++ rest) st =
      scanLoop rest { st with currentEntry :=
        { st.currentEntry with
          Description :=
            desc.foldl (fun acc d => acc ++ strings.TrimSpace d)
              st.currentEntry.Description } } := by
  induction desc generalizing st with
  | nil => rfl
  | cons d ds ih =>
    rw [List.cons_append, scanLoop_description _ _ _ (h d (List.mem_cons_self _ _))]
    rw [ih _ (fun x hx => h x (List.mem_cons_of_mem _ hx))]
    rfl

/-! ## C2: when `Build` returns an error -/

theorem ClosedRecord_cons (text : String) (rest : List String) (entry : SchemaEntry)
    (h : ClosedRecord rest entry) : ClosedRecord (text :: rest) entry := by
  obtain ⟨pre, flag, desc, blank, post, e, h1, h2, h3, h4, h5⟩ := h
  exact ⟨text :: pre, flag, desc, blank, post, by rw [e]; rfl, h1, h2, h3, h4, h5⟩

theorem scanLoop_failed_cases (lines : List String) (st : LoopState) (err : GoError)
    (h : scanLoop lines st = LoopResult.failed err) :
    (st.currentEntry.Parameter ≠ "" ∧ UnparsableInt st.currentEntry ∧
      ∃ desc blank post, lines = desc ++ blank :: post ∧
        (∀ d ∈ desc, isDescriptionLine d = true) ∧ isBlankLine blank = true) ∨
    (∃ entry, ClosedRecord lines entry ∧ UnparsableInt entry) := by
  induction lines generalizing st with
  | nil => simp [scanLoop] at h
  | cons text rest ih =>
    rcases line_cases text with hf | hd | hb
    · rw [scanLoop_flag _ _ _ hf] at h
      cases he : loadParameter (strings.TrimSpace text) with
      | none => rw [he] at h; cases h
      | some entry =>
        rw [he] at h
        rcases ih _ h with ⟨hp, hu, desc, blank, post, e, h2, h3⟩ | ⟨entry1, hc, hu⟩
        · exact Or.inr ⟨entry, ⟨[], text, desc, blank, post, by rw [e]; rfl, hf, h2, h3, he, hp⟩,
            hu⟩
        · exact Or.inr ⟨entry1, ClosedRecord_cons _ _ _ hc, hu⟩
    · rw [scanLoop_description _ _ _ hd] at h
      rcases ih _ h with ⟨hp, hu, desc, blank, post, e, h2, h3⟩ | ⟨entry1, hc, hu⟩
      · refine Or.inl ⟨hp, hu, text :: desc, blank, post, by rw [e]; rfl, ?_, h3⟩
        intro d hdm
        rcases List.mem_cons.1 hdm with h4 | h4
        · rw [h4]; exact hd
        · exact h2 d h4
      · exact Or.inr ⟨entry1, ClosedRecord_cons _ _ _ hc, hu⟩
    · by_cases hp : st.currentEntry.Parameter = ""
      · rw [scanLoop_blank_idle _ _ _ hb hp] at h
        rcases ih _ h with ⟨hp1, _⟩ | ⟨entry1, hc, hu⟩
        · exact absurd hp hp1
        · exact Or.inr ⟨entry1, ClosedRecord_cons _ _ _ hc, hu⟩
      · rw [scanLoop_blank_open _ _ _ hb hp] at h
        split at h
        · rename_i err1 hadd
          have hu := (addEntry_error_iff _ _).1 ⟨err1, hadd⟩
          exact Or.inl ⟨hp, hu, [], text, rest, rfl, by simp, hb⟩
        · rcases ih _ h with ⟨hp1, _⟩ | ⟨entry1, hc, hu⟩
          · exact absurd rfl hp1
          · exact Or.inr ⟨entry1, ClosedRecord_cons _ _ _ hc, hu⟩

theorem scanLoop_fails_of_closed (lines : List String) (st : LoopState) (entry : SchemaEntry)
    (hc : ClosedRecord lines entry) (hu : UnparsableInt entry)
    (hn : scanLoop lines st ≠ LoopResult.panicked) :
    ∃ err, scanLoop lines st = LoopResult.failed err := by
  obtain ⟨pre, flag, desc, blank, post, e, h1, h2, h3, h4, h5⟩ := hc
  subst e
  rw [scanLoop_append] at hn ⊢
  cases hpre : scanLoop pre st with
  | panicked => rw [hpre] at hn; exact absurd rfl hn
  | failed err => exact ⟨err, rfl⟩
  | done st1 =>
    simp only []
    rw [scanLoop_flag _ _ _ h1, h4]
    simp only []
    rw [scanLoop_descriptions _ _ _ h2, scanLoop_blank_open _ _ _ h3 h5]
    have hu2 := (addEntry_error_iff st1.entries
      { entry with
        Description := match schemaOverrides entry.Parameter with
          | some val => val.Description
          | none => escapeDescription
              (desc.foldl (fun acc d => acc ++ strings.TrimSpace d) entry.Description) }).2 hu
    obtain ⟨err, he⟩ := hu2
    refine ⟨err, ?_⟩
    simp only []
    rw [he]

/-- C2, amended: assume both fetches succeed and every flag line the scanner delivers (the
flag lines before the first line of 65536 bytes or more) contains exactly one `=`.  Then
`Build` returns an error exactly when, among the lines the scanner delivers, some record
closed by a blank line has, after the overrides, kind `Int` and a default that parses
neither as a decimal integer nor as a duration; whenever `Build` returns an error the
document is the empty string; and a record whose default is empty never has kind `Int`, as
for the help text of `--test=:`, on which `Build` returns no error. -/
theorem Build_error_iff (minikube : MinikubeBinary)
    (hv : minikube.GetVersion.2 = none) (hh : minikube.GetStartHelpText.2 = none)
    (hone : ∀ text ∈ ScanLines minikube.GetStartHelpText.1,
      isFlagLine text = true → text.data.count (Char.ofNat 61) = 1) :
    ((∃ doc err, Build minikube = some (doc, some err)) ↔
      ∃ entry, ClosedRecord (ScanLines minikube.GetStartHelpText.1) entry ∧
        UnparsableInt entry) ∧
    (∀ doc err, Build minikube = some (doc, some err) → doc = "") ∧
    (∀ line entry, loadParameter line = some entry → entry.Default = "" →
      entry.Type_ ≠ SchemaType.Int) ∧
    (Build ⟨("Version 999", none),
        ("\n--test=:\n\tI am a great test description\n\n\t", none)⟩).map Prod.snd
      = some none := by
  have heq : ∀ text ∈ ScanLines minikube.GetStartHelpText.1,
      isFlagLine text = true → Char.ofNat 61 ∈ text.data := by
    intro text ht hf
    apply List.count_pos_iff.1
    rw [hone text ht hf]
    exact Nat.one_pos
  have hn := scanLoop_ne_panicked (ScanLines minikube.GetStartHelpText.1) {} heq
  refine ⟨⟨?_, ?_⟩, ?_, ?_, ?_⟩
  · rintro ⟨doc, err, hb⟩
    simp only [Build, hv, hh] at hb
    cases hl : scanLoop (ScanLines minikube.GetStartHelpText.1) {} with
    | panicked => exact absurd hl hn
    | done st => rw [hl] at hb; simp at hb
    | failed err1 =>
      rcases scanLoop_failed_cases _ _ _ hl with ⟨hp, _⟩ | hr
      · exact absurd rfl hp
      · exact hr
  · rintro ⟨entry, hc, hu⟩
    obtain ⟨err, he⟩ := scanLoop_fails_of_closed _ {} entry hc hu hn
    exact ⟨"", err, by simp only [Build, hv, hh, he]⟩
  · intro doc err hb
    simp only [Build, hv, hh] at hb
    cases hl : scanLoop (ScanLines minikube.GetStartHelpText.1) {} with
    | panicked => rw [hl] at hb; simp at hb
    | done st => rw [hl] at hb; simp at hb
    | failed err1 =>
      rw [hl] at hb
      simp only [Option.some.injEq, Prod.mk.injEq] at hb
      exact hb.1.symm
  · intro line entry hl hd ht
    unfold loadParameter at hl
    split at hl
    · rename_i seg0 seg1 rest hsplit
      simp only [Option.some.injEq] at hl
      subst hl
      simp only at hd ht
      generalize strings.ReplaceAll (strings.TrimPrefix seg0 "--") "-" "_" = p at hd ht
      by_cases hm : p = "memory"
      · simp [schemaOverrides, hm, String_ne_Int] at ht
      · by_cases hcp : p = "cpus"
        · have h2 : ("2" : String) ≠ "" := by decide
          simp [schemaOverrides, hcp, Int_ne_String, h2] at hd
        · simp only [schemaOverrides, hm, hcp, if_false] at hd ht
          rw [if_neg (by rw [ht]; exact Int_ne_String)] at hd
          rw [hd] at ht
          exact absurd ht (by decide)
    · cases hl
  · set_option maxRecDepth 100000 in decide

/-- Witness of the amended C2 on the help text of `TestPropertyFailure`. -/
theorem Build_error_iff_witness :
    (∀ text ∈ ScanLines testPropertyFailure.GetStartHelpText.1,
      isFlagLine text = true → text.data.count (Char.ofNat 61) = 1) ∧
    ((∃ doc err, Build testPropertyFailure = some (doc, some err)) ↔
      ∃ entry, ClosedRecord (ScanLines testPropertyFailure.GetStartHelpText.1) entry ∧
        UnparsableInt entry) :=
  ⟨by decide, (Build_error_iff testPropertyFailure rfl rfl (by decide)).1⟩

/-! ## C3: a dangling record is dropped -/

theorem byteLen_append (a b : List Char) : byteLen (a ++ b) = byteLen a + byteLen b := by
  simp [byteLen]

theorem byteLen_cons (c : Char) (a : List Char) : byteLen (c :: a) = runeLen c + byteLen a := by
  simp [byteLen]

theorem byteLen_reverse (a : List Char) : byteLen a.reverse = byteLen a := by
  induction a with
  | nil => rfl
  | cons c cs ih => rw [List.reverse_cons, byteLen_append, ih, byteLen_cons]; simp [byteLen]; omega

theorem byteLen_replicate (n : Nat) (c : Char) : byteLen (List.replicate n c) = n * runeLen c := by
  induction n with
  | zero => simp [byteLen]
  | succ k ih => rw [List.replicate_succ, byteLen_cons, ih]; ring

theorem scanLinesFrom_line (cur a b : List Char) (h : Char.ofNat 10 ∉ a) :
    scanLinesFrom cur (a ++ Char.ofNat 10 :: b) =
      if byteLen (cur.reverse ++ a) < MaxScanTokenSize then
        ⟨dropCR (cur.reverse ++ a)⟩ :: scanLinesFrom [] b
      else [] := by
  induction a generalizing cur with
  | nil =>
    simp only [List.nil_append, List.append_nil, scanLinesFrom, if_true, byteLen_reverse]
  | cons c cs ih =>
    have hc : ¬ c = Char.ofNat 10 := fun e => h (by rw [e]; exact List.mem_cons_self _ _)
    have hcs : Char.ofNat 10 ∉ cs := fun e => h (List.mem_cons_of_mem _ e)
    rw [List.cons_append]
    simp only [scanLinesFrom, hc, if_false]
    rw [ih _ hcs]
    simp

theorem scanLinesFrom_last (cur a : List Char) (h : Char.ofNat 10 ∉ a)
    (hne : cur.reverse ++ a ≠ []) :
    scanLinesFrom cur a =
      if byteLen (cur.reverse ++ a) < MaxScanTokenSize then [⟨dropCR (cur.reverse ++ a)⟩]
      else [] := by
  induction a generalizing cur with
  | nil =>
    have hc : ¬ cur = [] := by
      intro e; apply hne; simp [e]
    simp only [scanLinesFrom, hc, if_false, List.append_nil, byteLen_reverse]
  | cons c cs ih =>
    have hc : ¬ c = Char.ofNat 10 := fun e => h (by rw [e]; exact List.mem_cons_self _ _)
    have hcs : Char.ofNat 10 ∉ cs := fun e => h (List.mem_cons_of_mem _ e)
    simp only [scanLinesFrom, hc, if_false]
    rw [ih _ hcs (by simp)]
    simp

theorem scanLinesFrom_append (cur h : List Char) :
    (∀ t, scanLinesFrom cur (h ++ Char.ofNat 10 :: t) =
      scanLinesFrom cur (h ++ [Char.ofNat 10]) ++ scanLinesFrom [] t) ∨
    (∀ t, scanLinesFrom cur (h ++ Char.ofNat 10 :: t) =
      scanLinesFrom cur (h ++ [Char.ofNat 10])) := by
  induction h generalizing cur with
  | nil =>
    by_cases hs : byteLen cur < MaxScanTokenSize
    · left; intro t; simp [scanLinesFrom, hs]
    · right; intro t; simp [scanLinesFrom, hs]
  | cons c cs ih =>
    have e1 : ∀ t, scanLinesFrom cur ((c :: cs) ++ t) =
        if c = Char.ofNat 10 then
          if byteLen cur < MaxScanTokenSize then
            ⟨dropCR cur.reverse⟩ :: scanLinesFrom [] (cs ++ t)
          else []
        else scanLinesFrom (c :: cur) (cs ++ t) := by
      intro t
      rw [List.cons_append]
      rfl
    by_cases hc : c = Char.ofNat 10
    · by_cases hs : byteLen cur < MaxScanTokenSize
      · rcases ih [] with h1 | h1
        · left; intro t
          rw [e1, e1, if_pos hc, if_pos hc, if_pos hs, if_pos hs, h1 t]
          rfl
        · right; intro t
          rw [e1, e1, if_pos hc, if_pos hc, if_pos hs, if_pos hs, h1 t]
      · right; intro t
        rw [e1, e1, if_pos hc, if_pos hc, if_neg hs, if_neg hs]
    · rcases ih (c :: cur) with h1 | h1
      · left; intro t
        rw [e1, e1, if_neg hc, if_neg hc, h1 t]
      · right; intro t
        rw [e1, e1, if_neg hc, if_neg hc, h1 t]

theorem ScanLines_append (h : String)
    (hh : h = "" ∨ h.data.getLast? = some (Char.ofNat 10)) :
    (∀ t, ScanLines (h ++ t) = ScanLines h ++ ScanLines t) ∨
    (∀ t, ScanLines (h ++ t) = ScanLines h) := by
  rcases hh with hh | hh
  · subst hh
    left; intro t
    simp [ScanLines, scanLinesFrom]
  · obtain ⟨l, hl⟩ : ∃ l, h.data = l ++ [Char.ofNat 10] := by
      rcases List.eq_nil_or_concat h.data with e | ⟨l, c, e⟩
      · rw [e] at hh; simp at hh
      · rw [e, List.concat_eq_append, List.getLast?_concat] at hh
        simp only [Option.some.injEq] at hh
        exact ⟨l, by rw [e, hh]; simp⟩
    rcases scanLinesFrom_append [] l with h1 | h1
    · left; intro t
      simp only [ScanLines, String.data_append, hl, List.append_assoc, List.singleton_append]
      exact h1 _
    · right; intro t
      simp only [ScanLines, String.data_append, hl, List.append_assoc, List.singleton_append]
      exact h1 _

theorem joinLines_cons_cons (a b : String) (rest : List String) :
    (joinLines (a :: b :: rest)).data = a.data ++ Char.ofNat 10 :: (joinLines (b :: rest)).data := by
  simp only [joinLines, String.data_append]
  have h1 : ("\n" : String).data = [Char.ofNat 10] := by decide
  simp only [h1, List.append_assoc, List.singleton_append]

theorem scanLines_joinLines (lines : List String) (tail : String)
    (hl : lines ≠ [])
    (hn : ∀ l ∈ lines, Char.ofNat 10 ∉ l.data ∧ l.data ≠ [])
    (ht : tail = "" ∨ tail = "\n") :
    ScanLines (joinLines lines ++ tail) =
      (lines.takeWhile (fun l => decide (byteLen l.data < MaxScanTokenSize))).map
        (fun l => ⟨dropCR l.data⟩) := by
  induction lines with
  | nil => exact absurd rfl hl
  | cons a rest ih =>
    have ha := hn a (List.mem_cons_self _ _)
    cases rest with
    | nil =>
      simp only [joinLines, ScanLines, String.data_append, List.takeWhile_cons,
        List.takeWhile_nil]
      rcases ht with ht | ht
      · subst ht
        have e : ("" : String).data = [] := rfl
        rw [e, List.append_nil, scanLinesFrom_last [] a.data ha.1 (by simpa using ha.2)]
        by_cases hs : byteLen a.data < MaxScanTokenSize <;> simp [hs]
      · subst ht
        have e : ("\n" : String).data = [Char.ofNat 10] := by decide
        rw [e, scanLinesFrom_line [] a.data [] ha.1]
        by_cases hs : byteLen a.data < MaxScanTokenSize <;> simp [hs, scanLinesFrom]
    | cons b rest2 =>
      have hr := ih (by simp) (fun l hl2 => hn l (List.mem_cons_of_mem _ hl2))
      simp only [ScanLines, String.data_append] at hr ⊢
      rw [joinLines_cons_cons, List.append_assoc, List.cons_append,
        scanLinesFrom_line [] a.data _ ha.1, hr, List.takeWhile_cons (l := b :: rest2)]
      by_cases hs : byteLen a.data < MaxScanTokenSize <;> simp [hs]

theorem dropWhileEnd_concat (p : Char → Bool) (x : List Char) (c : Char) (hc : p c = true) :
    strings.dropWhileEnd p (x ++ [c]) = strings.dropWhileEnd p x := by
  simp [strings.dropWhileEnd, List.dropWhile_cons, hc]

theorem trim_concat (p : Char → Bool) (r : List Char) (c : Char) (hc : p c = true) :
    strings.dropWhileEnd p ((r ++ [c]).dropWhile p) = strings.dropWhileEnd p (r.dropWhile p) := by
  induction r with
  | nil => simp [List.dropWhile_cons, hc]
  | cons x xs ih =>
    by_cases hx : p x = true
    · simp only [List.cons_append, List.dropWhile_cons, hx, if_true]
      exact ih
    · simp only [List.cons_append, List.dropWhile_cons, hx, Bool.false_eq_true, if_false]
      exact dropWhileEnd_concat p (x :: xs) c hc

theorem TrimSpace_dropCR (l : List Char) :
    strings.TrimSpace ⟨dropCR l⟩ = strings.TrimSpace ⟨l⟩ := by
  unfold dropCR
  split
  · rename_i hlast
    rcases List.eq_nil_or_concat l with e | ⟨r, c, e⟩
    · rw [e] at hlast; simp at hlast
    · rw [e, List.concat_eq_append, List.getLast?_concat] at hlast
      simp only [Option.some.injEq] at hlast
      subst hlast
      rw [e, List.concat_eq_append, List.dropLast_concat]
      simp only [strings.TrimSpace]
      rw [trim_concat _ _ _ (by decide)]
  · rfl

theorem isFlagLine_dropCR (l : String) : isFlagLine ⟨dropCR l.data⟩ = isFlagLine l := by
  simp only [isFlagLine, TrimSpace_dropCR]

theorem isDescriptionLine_dropCR (l : String) :
    isDescriptionLine ⟨dropCR l.data⟩ = isDescriptionLine l := by
  simp only [isDescriptionLine, isFlagLine, isBlankLine, TrimSpace_dropCR]

theorem data_ne_nil_of_flag (l : String) (h : isFlagLine l = true) : l.data ≠ [] := by
  intro e
  have : l = "" := by cases l; simp only at e; rw [e]
  rw [this] at h
  exact absurd h (by decide)

theorem data_ne_nil_of_description (l : String) (h : isDescriptionLine l = true) :
    l.data ≠ [] := by
  intro e
  have : l = "" := by cases l; simp only at e; rw [e]
  rw [this] at h
  exact absurd h (by decide)

theorem scanLoop_dangling (flag : String) (desc : List String) (st : LoopState)
    (entry : SchemaEntry) (hf : isFlagLine flag = true)
    (he : loadParameter (strings.TrimSpace flag) = some entry)
    (hd : ∀ d ∈ desc, isDescriptionLine d = true) :
    ∃ cur, scanLoop (flag :: desc) st =
      LoopResult.done { entries := st.entries, currentEntry := cur } := by
  rw [scanLoop_flag _ _ _ hf, he]
  simp only []
  have h := scanLoop_descriptions desc [] { st with currentEntry := entry } hd
  rw [List.append_nil] at h
  rw [h]
  exact ⟨_, rfl⟩

/-- C3: a dangling trailing record is dropped.  Let `h` be a help text that is empty or ends
with a newline, `L` a flag line containing `=`, and `D` description lines (not blank, not
starting with `--`); join `L` and `D` by newlines, with or without a last newline.  Then
`Build` on `h` followed by them returns exactly what it returns on `h`, whatever the default
of `L`; on them alone it returns the document without entries and no error. -/
theorem Build_drops_dangling_record (version : String × Option GoError) (h L : String)
    (D : List String) (tail : String)
    (hh : h = "" ∨ h.data.getLast? = some (Char.ofNat 10))
    (hL : isFlagLine L = true) (hLn : Char.ofNat 10 ∉ L.data) (hLe : Char.ofNat 61 ∈ L.data)
    (hD : ∀ d ∈ D, isDescriptionLine d = true ∧ Char.ofNat 10 ∉ d.data)
    (ht : tail = "" ∨ tail = "\n") :
    Build ⟨version, (h ++ (joinLines (L :: D) ++ tail), none)⟩ = Build ⟨version, (h, none)⟩ ∧
    (version.2 = none →
      Build ⟨version, (joinLines (L :: D) ++ tail, none)⟩ = some (constructSchema [], none)) := by
  have hlines : ScanLines (joinLines (L :: D) ++ tail) =
      ((L :: D).takeWhile (fun l => decide (byteLen l.data < MaxScanTokenSize))).map
        (fun l => ⟨dropCR l.data⟩) := by
    apply scanLines_joinLines _ _ (by simp) _ ht
    intro l hl
    rcases List.mem_cons.1 hl with e | e
    · rw [e]; exact ⟨hLn, data_ne_nil_of_flag L hL⟩
    · exact ⟨(hD l e).2, data_ne_nil_of_description l (hD l e).1⟩
  have hflag : isFlagLine ⟨dropCR L.data⟩ = true := by rw [isFlagLine_dropCR]; exact hL
  have hmem : Char.ofNat 61 ∈ (strings.TrimSpace ⟨dropCR L.data⟩).data := by
    rw [TrimSpace_dropCR]
    exact mem_TrimSpace_of_not_space L _ hLe (by decide)
  obtain ⟨entry, he⟩ := loadParameter_isSome_of_eq _ hmem
  have hdesc : ∀ d ∈ (D.takeWhile (fun l => decide (byteLen l.data < MaxScanTokenSize))).map
      (fun l : String => (⟨dropCR l.data⟩ : String)), isDescriptionLine d = true := by
    intro d hd
    obtain ⟨x, hx, e⟩ := List.mem_map.1 hd
    rw [← e, isDescriptionLine_dropCR]
    exact (hD x ((List.takeWhile_sublist _).subset hx)).1
  have hloop : ∀ st : LoopState, ∃ cur,
      scanLoop (ScanLines (joinLines (L :: D) ++ tail)) st =
        LoopResult.done { entries := st.entries, currentEntry := cur } := by
    intro st
    rw [hlines, List.takeWhile_cons]
    by_cases hs : byteLen L.data < MaxScanTokenSize
    · simp only [hs, decide_True, if_true, List.map_cons]
      exact scanLoop_dangling _ _ st entry hflag he hdesc
    · simp only [hs, decide_False, Bool.false_eq_true, if_false, List.map_nil]
      exact ⟨st.currentEntry, rfl⟩
  constructor
  · simp only [Build]
    cases version.2 with
    | some e => rfl
    | none =>
      simp only []
      rcases ScanLines_append h hh with happ | happ
      · rw [happ, scanLoop_append]
        cases hs : scanLoop (ScanLines h) {} with
        | panicked => rfl
        | failed err => rfl
        | done st1 =>
          simp only []
          obtain ⟨cur, hc⟩ := hloop st1
          rw [hc]
      · rw [happ]
  · intro hv
    obtain ⟨cur, hc⟩ := hloop {}
    simp only [Build, hv, hc]

/-- Witness of C3: after the help text of one closed record, the dangling record of
`--bad=xyz:` with one description line is dropped. -/
theorem Build_drops_dangling_record_witness :
    Build ⟨("Version 999", none),
        ("--test=123:\n\n" ++ (joinLines ["--bad=xyz:", "\tnot a number"] ++ "\n"), none)⟩ =
      Build ⟨("Version 999", none), ("--test=123:\n\n", none)⟩ :=
  (Build_drops_dangling_record ("Version 999", none) "--test=123:\n\n" "--bad=xyz:"
    ["\tnot a number"] "\n" (Or.inr (by decide)) (by decide) (by decide) (by decide)
    (by decide) (Or.inr rfl)).1

/-! ## C4: one block for each terminated record -/

theorem loadParameter_type (line : String) (entry : SchemaEntry)
    (h : loadParameter line = some entry) :
    entry.Type_ = SchemaType.String ∨ entry.Type_ = SchemaType.Bool ∨
      entry.Type_ = SchemaType.Int ∨ entry.Type_ = SchemaType.Array := by
  unfold loadParameter at h
  split at h
  · simp only [Option.some.injEq] at h
    subst h
    simp only
    generalize strings.ReplaceAll _ "-" "_" = p
    by_cases hm : p = "memory"
    · simp [schemaOverrides, hm]
    · by_cases hc : p = "cpus"
      · simp [schemaOverrides, hc]
      · simp only [schemaOverrides, hm, hc, if_false]
        unfold getSchemaType
        split
        · exact Or.inl rfl
        · split
          · exact Or.inr (Or.inl rfl)
          · split
            · exact Or.inr (Or.inr (Or.inr rfl))
            · exact Or.inr (Or.inr (Or.inl rfl))
  · cases h

theorem addEntry_length (entries entries1 : List SchemaEntry) (entry : SchemaEntry)
    (ht : entry.Type_ = SchemaType.String ∨ entry.Type_ = SchemaType.Bool ∨
      entry.Type_ = SchemaType.Int ∨ entry.Type_ = SchemaType.Array)
    (h : addEntry entries entry = .ok entries1) :
    entries1.length = entries.length + 1 := by
  unfold addEntry at h
  rcases ht with ht | ht | ht | ht
  · simp only [ht, if_true] at h
    cases h; simp
  · simp only [ht, Bool_ne_String, if_true, if_false] at h
    cases h; simp
  · simp only [ht, Int_ne_String, Int_ne_Bool, if_true, if_false] at h
    split at h
    · cases h; simp
    · split at h
      · cases h
      · cases h; simp
  · simp only [ht, Array_ne_String, Array_ne_Bool, Array_ne_Int, if_true, if_false] at h
    cases h; simp

theorem scanLoop_count (lines : List String) (st st1 : LoopState)
    (hname : ∀ text ∈ lines, isFlagLine text = true →
      (loadParameter (strings.TrimSpace text)).map SchemaEntry.Parameter ≠ some "")
    (hty : st.currentEntry.Parameter ≠ "" →
      st.currentEntry.Type_ = SchemaType.String ∨ st.currentEntry.Type_ = SchemaType.Bool ∨
      st.currentEntry.Type_ = SchemaType.Int ∨ st.currentEntry.Type_ = SchemaType.Array)
    (h : scanLoop lines st = LoopResult.done st1) :
    st1.entries.length =
      st.entries.length +
        (if st.currentEntry.Parameter ≠ "" ∧ terminated lines = true then 1 else 0) +
        countTerminated lines := by
  induction lines generalizing st with
  | nil =>
    simp only [scanLoop, LoopResult.done.injEq] at h
    subst h
    simp [terminated, countTerminated]
  | cons text rest ih =>
    have hr : ∀ t ∈ rest, isFlagLine t = true →
        (loadParameter (strings.TrimSpace t)).map SchemaEntry.Parameter ≠ some "" :=
      fun t ht => hname t (List.mem_cons_of_mem _ ht)
    rcases line_cases text with hf | hd | hb
    · rw [scanLoop_flag _ _ _ hf] at h
      have hnb : isBlankLine text = false := by
        cases hb : isBlankLine text with
        | false => rfl
        | true => rw [not_flag_of_blank text hb] at hf; cases hf
      cases he : loadParameter (strings.TrimSpace text) with
      | none => rw [he] at h; cases h
      | some entry =>
        rw [he] at h
        have hp : entry.Parameter ≠ "" := by
          have := hname text (List.mem_cons_self _ _) hf
          rw [he] at this
          simpa using this
        have := ih { st with currentEntry := entry } hr
          (fun _ => loadParameter_type _ _ he) h
        rw [this]
        simp [terminated, countTerminated, hf, hnb, hp]
        omega
    · rw [scanLoop_description _ _ _ hd] at h
      have := ih { st with currentEntry :=
        { st.currentEntry with
          Description := st.currentEntry.Description ++ strings.TrimSpace text } } hr hty h
      rw [this]
      simp only [isDescriptionLine, Bool.and_eq_true, Bool.not_eq_true'] at hd
      simp [terminated, countTerminated, hd.1, hd.2]
    · have hf := not_flag_of_blank text hb
      by_cases hp : st.currentEntry.Parameter = ""
      · rw [scanLoop_blank_idle _ _ _ hb hp] at h
        have := ih _ hr hty h
        rw [this]
        simp [terminated, countTerminated, hf, hb, hp]
      · rw [scanLoop_blank_open _ _ _ hb hp] at h
        split at h
        · cases h
        · rename_i entries1 hadd
          have hl := addEntry_length _ _ _ (by exact hty hp) hadd
          have := ih _ hr (fun hx => absurd rfl hx) h
          rw [this]
          simp only [hl]
          simp [terminated, countTerminated, hf, hb, hp]

theorem foldl_blocks (entries : List SchemaEntry) (init : String) :
    entries.foldl (fun body entry => body ++ entryBlock entry) init =
      init ++ entries.foldr (fun entry rest => entryBlock entry ++ rest) "" := by
  induction entries generalizing init with
  | nil => simp
  | cons e es ih =>
    simp only [List.foldl_cons, List.foldr_cons, ih, String.append_assoc]

/-- C4, amended: take a help text on which `Build` succeeds and in which the flag lines the
scanner delivers (those before the first line of 65536 bytes or more) all have a non-empty
name.  The loop of `Build` ends with a list of entries; the returned document is the header,
one block for each of these entries, in order, and the footer; and the number of these
entries equals the number of blank-line-terminated flag records among the lines the scanner
delivers: the flag lines that are followed, after zero or more lines that are neither blank
nor flag lines, by a blank line. -/
theorem Build_block_count (minikube : MinikubeBinary) (doc : String)
    (hname : ∀ text ∈ ScanLines minikube.GetStartHelpText.1, isFlagLine text = true →
      (loadParameter (strings.TrimSpace text)).map SchemaEntry.Parameter ≠ some "")
    (hb : Build minikube = some (doc, none)) :
    ∃ st : LoopState,
      scanLoop (ScanLines minikube.GetStartHelpText.1) {} = LoopResult.done st ∧
      doc = header ++ st.entries.foldr (fun entry rest => entryBlock entry ++ rest) "" ++
        footer ∧
      st.entries.length = countTerminated (ScanLines minikube.GetStartHelpText.1) := by
  unfold Build at hb
  split at hb
  · cases hb
  · split at hb
    · cases hb
    · split at hb
      · cases hb
      · cases hb
      · rename_i st hl
        simp only [Option.some.injEq, Prod.mk.injEq, and_true] at hb
        refine ⟨st, hl, ?_, ?_⟩
        · rw [← hb]
          simp only [constructSchema, foldl_blocks]
          rfl
        · have := scanLoop_count _ {} st hname (fun hx => absurd rfl hx) hl
          rw [this]
          simp

/-- Witness of the amended C4 on the help text of `TestStringProperty`: two terminated
records. -/
theorem Build_block_count_witness :
    countTerminated (ScanLines testStringProperty.GetStartHelpText.1) = 2 ∧
    ∃ st : LoopState,
      scanLoop (ScanLines testStringProperty.GetStartHelpText.1) {} = LoopResult.done st ∧
      constructSchema
          [{ Parameter := "test", Default := "\"test-value\"",
             Description := "I am a great test description", Type_ := SchemaType.String },
           { Parameter := "test2", Default := "\"test-value2\"",
             Description := "I am a great test2 description", Type_ := SchemaType.String }] =
        header ++ st.entries.foldr (fun entry rest => entryBlock entry ++ rest) "" ++
          footer ∧
      st.entries.length = countTerminated (ScanLines testStringProperty.GetStartHelpText.1) :=
  ⟨by decide,
   Build_block_count testStringProperty _ (by decide) (by rfl)⟩

/-! ## C7: overrides replace what was parsed -/

theorem Split_cons (c : Char) (l : List Char) (cur : List Char) (h : c ≠ Char.ofNat 61) :
    strings.splitFrom [Char.ofNat 61] 0 cur (c :: l) =
      strings.splitFrom [Char.ofNat 61] 0 (c :: cur) l := by
  have h2 : ¬ Char.ofNat 61 = c := fun e => h e.symm
  simp [strings.splitFrom, List.isPrefixOf, h2]

theorem loadParameter_memory (R : String) :
    loadParameter ("--memory=" ++ R) =
      some { Parameter := "memory", Default := "4000mb", Description := "",
             Type_ := SchemaType.String, ArrayType := "" } := by
  have hne := splitFrom_ne_nil [Char.ofNat 61] 0 [] R.data
  obtain ⟨b, t, hbt⟩ := List.exists_cons_of_ne_nil hne
  have hs : strings.Split ("--memory=" ++ R) "=" =
      "--memory" :: String.mk b :: t.map String.mk := by
    have h1 : ("=" : String).data = [Char.ofNat 61] := by decide
    have h2 : ("--memory=" : String).data =
        [Char.ofNat 45, Char.ofNat 45, Char.ofNat 109, Char.ofNat 101, Char.ofNat 109,
         Char.ofNat 111, Char.ofNat 114, Char.ofNat 121, Char.ofNat 61] := by decide
    simp only [strings.Split, h1, String.data_append, h2, List.cons_append, List.nil_append]
    rw [if_neg (by simp)]
    rw [Split_cons _ _ _ (by decide), Split_cons _ _ _ (by decide), Split_cons _ _ _ (by decide),
      Split_cons _ _ _ (by decide), Split_cons _ _ _ (by decide), Split_cons _ _ _ (by decide),
      Split_cons _ _ _ (by decide), Split_cons _ _ _ (by decide)]
    simp only [strings.splitFrom, List.isPrefixOf, beq_self_eq_true, Bool.and_true, if_true,
      List.length_singleton, Nat.sub_self, hbt, List.map_cons]
    congr 1
  have hp : strings.ReplaceAll (strings.TrimPrefix "--memory" "--") "-" "_" = "memory" := by
    decide
  have ht : strings.Trim "4000mb" "\x27" = "4000mb" := by decide
  simp only [loadParameter, hs, hp, schemaOverrides, if_true, ht]

theorem loadParameter_cpus (R : String) :
    loadParameter ("--cpus=" ++ R) =
      some { Parameter := "cpus", Default := "2", Description := "",
             Type_ := SchemaType.Int, ArrayType := "" } := by
  have hne := splitFrom_ne_nil [Char.ofNat 61] 0 [] R.data
  obtain ⟨b, t, hbt⟩ := List.exists_cons_of_ne_nil hne
  have hs : strings.Split ("--cpus=" ++ R) "=" =
      "--cpus" :: String.mk b :: t.map String.mk := by
    have h1 : ("=" : String).data = [Char.ofNat 61] := by decide
    have h2 : ("--cpus=" : String).data =
        [Char.ofNat 45, Char.ofNat 45, Char.ofNat 99, Char.ofNat 112, Char.ofNat 117,
         Char.ofNat 115, Char.ofNat 61] := by decide
    simp only [strings.Split, h1, String.data_append, h2, List.cons_append, List.nil_append]
    rw [if_neg (by simp)]
    rw [Split_cons _ _ _ (by decide), Split_cons _ _ _ (by decide), Split_cons _ _ _ (by decide),
      Split_cons _ _ _ (by decide), Split_cons _ _ _ (by decide), Split_cons _ _ _ (by decide)]
    simp only [strings.splitFrom, List.isPrefixOf, beq_self_eq_true, Bool.and_true, if_true,
      List.length_singleton, Nat.sub_self, hbt, List.map_cons]
    congr 1
  have hp : strings.ReplaceAll (strings.TrimPrefix "--cpus" "--") "-" "_" = "cpus" := by
    decide
  have hm : ¬ ("cpus" : String) = "memory" := by decide
  simp only [loadParameter, hs, hp, schemaOverrides, hm, if_true, if_false, Int_ne_String]

theorem scanLoop_record (flag blank : String) (desc : List String) (st : LoopState)
    (entry : SchemaEntry) (hf : isFlagLine flag = true)
    (he : loadParameter (strings.TrimSpace flag) = some entry)
    (hd : ∀ d ∈ desc, isDescriptionLine d = true) (hb : isBlankLine blank = true)
    (hp : entry.Parameter ≠ "") :
    scanLoop (flag :: (desc ++ [blank])) st =
      match addEntry st.entries
          { entry with
            Description := match schemaOverrides entry.Parameter with
              | some val => val.Description
              | none => escapeDescription
                  (desc.foldl (fun acc d => acc ++ strings.TrimSpace d) entry.Description) } with
      | .error err => LoopResult.failed err
      | .ok entries =>
        LoopResult.done
          { entries := entries,
            currentEntry :=
              { entry with
                Description := match schemaOverrides entry.Parameter with
                  | some val => val.Description
                  | none => escapeDescription
                      (desc.foldl (fun acc d => acc ++ strings.TrimSpace d) entry.Description),
                Parameter := "" } } := by
  rw [scanLoop_flag _ _ _ hf, he]
  simp only []
  rw [scanLoop_descriptions _ _ _ hd, scanLoop_blank_open _ _ _ hb hp]
  simp only []
  split <;> rfl

/-- C7: overrides fully replace what was parsed.  For a flag line `--memory=R` or
`--cpus=R`, whatever the text `R` and whatever description lines follow it up to the closing
blank line, the loop of `Build` passes the record without error and appends exactly one
entry: for `memory` of kind `String` with rendered default `"4000mb"`, for `cpus` of kind
`Int` with rendered default `2`, each with exactly the description of the override. -/
theorem override_replaces_record (st : LoopState) (flag blank R : String) (desc : List String)
    (hd : ∀ d ∈ desc, isDescriptionLine d = true) (hb : isBlankLine blank = true) :
    (strings.TrimSpace flag = "--memory=" ++ R →
      ∃ cur, scanLoop (flag :: (desc ++ [blank])) st =
        LoopResult.done
          { entries := st.entries ++
              [{ Parameter := "memory", Default := "\"4000mb\"",
                 Description := "Amount of RAM to allocate to Kubernetes (format: <number>[<unit>], where unit = b, k, m or g)",
                 Type_ := SchemaType.String, ArrayType := "" }],
            currentEntry := cur }) ∧
    (strings.TrimSpace flag = "--cpus=" ++ R →
      ∃ cur, scanLoop (flag :: (desc ++ [blank])) st =
        LoopResult.done
          { entries := st.entries ++
              [{ Parameter := "cpus", Default := "2",
                 Description := "Amount of CPUs to allocate to Kubernetes",
                 Type_ := SchemaType.Int, ArrayType := "" }],
            currentEntry := cur }) := by
  constructor
  · intro hflag
    have hf : isFlagLine flag = true := by
      simp only [isFlagLine, hflag, strings.HasPrefix, String.data_append]
      rfl
    have he := loadParameter_memory R
    rw [← hflag] at he
    rw [scanLoop_record flag blank desc st _ hf he hd hb (by decide)]
    simp only [schemaOverrides, if_true, addEntry]
    exact ⟨_, rfl⟩
  · intro hflag
    have hf : isFlagLine flag = true := by
      simp only [isFlagLine, hflag, strings.HasPrefix, String.data_append]
      rfl
    have he := loadParameter_cpus R
    rw [← hflag] at he
    rw [scanLoop_record flag blank desc st _ hf he hd hb (by decide)]
    have hm : ¬ ("cpus" : String) = "memory" := by decide
    have ha : strconv.Atoi "2" = some 2 := by decide
    have hi : strconv.Itoa 2 = "2" := by decide
    simp only [schemaOverrides, hm, if_true, if_false, addEntry, Int_ne_String, Int_ne_Bool, ha,
      hi]
    exact ⟨_, rfl⟩

/-- Witness of C7: the record of `--memory=abc:` with a description line, whose parsed
default is neither an integer nor a duration. -/
theorem override_replaces_record_witness :
    ∃ cur, scanLoop ("--memory=abc:" :: (["\tI am a great test description"] ++ [""])) {} =
      LoopResult.done
        { entries := [] ++
            [{ Parameter := "memory", Default := "\"4000mb\"",
               Description := "Amount of RAM to allocate to Kubernetes (format: <number>[<unit>], where unit = b, k, m or g)",
               Type_ := SchemaType.String, ArrayType := "" }],
          currentEntry := cur } :=
  (override_replaces_record {} "--memory=abc:" "" "abc:" ["\tI am a great test description"]
    (by decide) (by decide)).1 (by decide)

/-! ## The loop of `time.ParseDuration` never runs out of fuel -/

theorem leadingInt_length (s : List Char) (x v : Nat) (r : List Char)
    (h : time.leadingInt s x = some (v, r)) : r.length ≤ s.length := by
  induction s generalizing x with
  | nil =>
    simp only [time.leadingInt, Option.some.injEq, Prod.mk.injEq] at h
    rw [← h.2]
  | cons c cs ih =>
    simp only [time.leadingInt] at h
    split at h
    · simp only [Option.some.injEq, Prod.mk.injEq] at h
      rw [← h.2]
    · split at h
      · cases h
      · split at h
        · cases h
        · have := ih _ h
          simp only [List.length_cons]
          omega

theorem leadingFraction_length (s : List Char) (x : Nat) (scale : float64.F64) (o : Bool) :
    (time.leadingFraction s x scale o).2.2.length ≤ s.length := by
  induction s generalizing x scale o with
  | nil => simp [time.leadingFraction]
  | cons c cs ih =>
    simp only [time.leadingFraction]
    split
    · exact le_refl _
    · split
      · exact Nat.le_succ_of_le (ih _ _ _)
      · split
        · exact Nat.le_succ_of_le (ih _ _ _)
        · split
          · exact Nat.le_succ_of_le (ih _ _ _)
          · exact Nat.le_succ_of_le (ih _ _ _)

theorem dropWhile_length_lt (p : Char → Bool) (l : List Char) (h : l.takeWhile p ≠ []) :
    (l.dropWhile p).length < l.length := by
  have h1 := congrArg List.length (List.takeWhile_append_dropWhile p l)
  rw [List.length_append] at h1
  have h2 : 0 < (l.takeWhile p).length := List.length_pos.2 h
  omega

theorem fractionPart_length (s1 : List Char) :
    (time.fractionPart s1).2.2.length ≤ s1.length := by
  unfold time.fractionPart
  split
  · have h4 := leadingFraction_length s1.tail 0 (float64.ofInt 1) false
    have h5 : s1.tail.length ≤ s1.length := by simp
    omega
  · exact le_refl _

theorem unitPart_length (v f : Nat) (scale : float64.F64) (s2 : List Char) (w : Nat)
    (rest : List Char) (h : time.unitPart v f scale s2 = time.Term.value w rest) :
    rest.length < s2.length := by
  unfold time.unitPart at h
  simp only at h
  by_cases hu : s2.takeWhile (fun c => !(c = Char.ofNat 46 || isDigit c)) = []
  · rw [if_pos hu] at h
    cases h
  · rw [if_neg hu] at h
    cases hm : time.unitMap ⟨s2.takeWhile (fun c => !(c = Char.ofNat 46 || isDigit c))⟩ with
    | none =>
      rw [hm] at h
      cases h
    | some unit =>
      rw [hm] at h
      simp only at h
      by_cases hv : v > 2 ^ 63 / unit
      · rw [if_pos hv] at h
        cases h
      · rw [if_neg hv] at h
        generalize (if f > 0 then
            v * unit + (float64.trunc (float64.mul (float64.ofInt f)
              (float64.div (float64.ofInt unit) scale))).toNat
          else v * unit) = v2 at h
        by_cases hc : f > 0 ∧ v2 > 2 ^ 63
        · rw [if_pos hc] at h
          cases h
        · rw [if_neg hc] at h
          simp only [time.Term.value.injEq] at h
          rw [← h.2]
          exact dropWhile_length_lt _ _ hu

theorem parseTerm_length (s : List Char) (v : Nat) (rest : List Char)
    (h : time.parseTerm s = time.Term.value v rest) : rest.length < s.length := by
  unfold time.parseTerm at h
  split at h
  · cases h
  · split at h
    · cases h
    · rename_i v1 s1 hint
      have h1 := leadingInt_length _ _ _ _ hint
      simp only at h
      split at h
      · cases h
      · have h2 := unitPart_length _ _ _ _ _ _ h
        have h3 := fractionPart_length s1
        omega

theorem parseTerms_fuel (fuel : Nat) (s : List Char) (d : Nat) (orig : String)
    (h : s.length ≤ fuel) : time.parseTerms fuel s d orig ≠ none := by
  induction fuel generalizing s d with
  | zero =>
    cases s with
    | nil => simp [time.parseTerms]
    | cons c cs => simp at h
  | succ fuel ih =>
    cases s with
    | nil => simp [time.parseTerms]
    | cons c cs =>
      simp only [time.parseTerms]
      split
      · simp
      · simp
      · simp
      · rename_i v rest hterm
        split
        · simp
        · apply ih
          have := parseTerm_length _ _ _ hterm
          simp only [List.length_cons] at this h
          omega

/-! ## C10: the default of an `Int` entry -/

/-! ## Facts about the binary64 model -/

namespace float64

theorem bitLenAux_spec (fuel n : Nat) (h : n ≤ fuel) (hn : 0 < n) :
    2 ^ bitLenAux fuel n ≤ 2 * n ∧ n < 2 ^ bitLenAux fuel n := by
  induction fuel generalizing n with
  | zero => omega
  | succ fuel ih =>
    have hn0 : n ≠ 0 := by omega
    simp only [bitLenAux, hn0, if_false]
    by_cases h1 : n / 2 = 0
    · have : n = 1 := by omega
      subst this
      cases fuel <;> simp [bitLenAux]
    · have := ih (n / 2) (by omega) (by omega)
      rw [pow_succ]
      constructor <;> omega

theorem bitLen_spec (n : Nat) (hn : 0 < n) : 2 ^ bitLen n ≤ 2 * n ∧ n < 2 ^ bitLen n :=
  bitLenAux_spec n n (le_refl _) hn

theorem roundHalfEven_spec (N D : Nat) (hD : 0 < D) :
    2 * (roundHalfEven N D * D) ≤ 2 * N + D ∧ 2 * N ≤ 2 * (roundHalfEven N D * D) + D := by
  have h := Nat.div_add_mod N D
  have hr := Nat.mod_lt N hD
  have hm : D * (N / D) = N / D * D := Nat.mul_comm _ _
  unfold roundHalfEven
  simp only []
  split
  · constructor <;> omega
  · split
    · rw [Nat.add_mul]; constructor <;> omega
    · split
      · constructor <;> omega
      · rw [Nat.add_mul]; constructor <;> omega

theorem scale_quot (k : Int) : ((scaleNum k : ℕ) : ℚ) / ((scaleDen k : ℕ) : ℚ) = (2 : ℚ) ^ k := by
  cases k with
  | ofNat n => simp [scaleNum, scaleDen]
  | negSucc n =>
    rw [zpow_negSucc]
    simp [scaleNum, scaleDen, Int.neg_negSucc]

theorem scaleNum_pos (k : Int) : 0 < scaleNum k := by simp [scaleNum]
theorem scaleDen_pos (k : Int) : 0 < scaleDen k := by simp [scaleDen]


theorem half_bound (m N D : ℚ) (hD : 0 < D) (h1 : 2 * (m * D) ≤ 2 * N + D)
    (h2 : 2 * N ≤ 2 * (m * D) + D) : |m - N / D| ≤ 1 / 2 := by
  rw [abs_le]
  constructor
  · have : N / D ≤ m + 1 / 2 := by
      rw [div_le_iff₀ hD]
      linarith
    linarith
  · have : m - 1 / 2 ≤ N / D := by
      rw [le_div_iff₀ hD]
      linarith
    linarith

theorem roundNat_spec (n d : Nat) (hn : 0 < n) (hd : 0 < d) :
    (2 : ℚ) ^ 52 ≤ (n : ℚ) / d * (2 : ℚ) ^ (-(roundNat n d).2) ∧
    |((roundNat n d).1 : ℚ) - (n : ℚ) / d * (2 : ℚ) ^ (-(roundNat n d).2)| ≤ 1 / 2 := by
  have hn0 : n ≠ 0 := by omega
  have hdq : (0 : ℚ) < d := by exact_mod_cast hd
  have hnq : (0 : ℚ) < n := by exact_mod_cast hn
  -- the scaled fraction, as a rational
  have hfrac : ∀ s : Int, ((n * scaleNum s : ℕ) : ℚ) / ((d * scaleDen s : ℕ) : ℚ) =
      (n : ℚ) / d * (2 : ℚ) ^ s := by
    intro s
    rw [← scale_quot s]
    push_cast
    have h1 : ((scaleDen s : ℕ) : ℚ) ≠ 0 := by
      have := scaleDen_pos s
      positivity
    field_simp
  have hDpos : ∀ s : Int, (0 : ℚ) < ((d * scaleDen s : ℕ) : ℚ) := by
    intro s
    have := scaleDen_pos s
    have : 0 < d * scaleDen s := Nat.mul_pos hd this
    exact_mod_cast this
  obtain ⟨hb1, _⟩ := bitLen_spec n hn
  obtain ⟨_, hb2⟩ := bitLen_spec d hd
  -- the first guess puts the scaled fraction above 2 ^ 51
  have h51 : (2 : ℚ) ^ 51 < (n : ℚ) / d * (2 : ℚ) ^ (52 + (bitLen d : Int) - (bitLen n : Int)) := by
    have e1 : (2 : ℚ) ^ (52 + (bitLen d : Int) - (bitLen n : Int)) =
        (2 : ℚ) ^ 52 * (2 : ℚ) ^ (bitLen d) / (2 : ℚ) ^ (bitLen n) := by
      rw [zpow_sub₀ (by norm_num), zpow_add₀ (by norm_num)]
      norm_cast
    rw [e1]
    have hb1q : (2 : ℚ) ^ bitLen n ≤ 2 * n := by exact_mod_cast hb1
    have hb2q : (d : ℚ) < (2 : ℚ) ^ bitLen d := by exact_mod_cast hb2
    have hpn : (0 : ℚ) < (2 : ℚ) ^ bitLen n := by positivity
    rw [div_mul_div_comm, lt_div_iff₀ (by positivity)]
    have : (2 : ℚ) ^ 52 = 2 * (2 : ℚ) ^ 51 := by norm_num
    rw [this]
    nlinarith [mul_pos hnq (by positivity : (0 : ℚ) < (2 : ℚ) ^ 51)]
  -- the error of the rounding, for any scale
  have herr : ∀ s : Int,
      |((roundHalfEven (n * scaleNum s) (d * scaleDen s) : ℕ) : ℚ) -
        (n : ℚ) / d * (2 : ℚ) ^ s| ≤ 1 / 2 := by
    intro s
    have hD := Nat.mul_pos hd (scaleDen_pos s)
    obtain ⟨h1, h2⟩ := roundHalfEven_spec (n * scaleNum s) (d * scaleDen s) hD
    have h1q : (2 : ℚ) * ((roundHalfEven (n * scaleNum s) (d * scaleDen s) : ℕ) *
        ((d * scaleDen s : ℕ) : ℚ)) ≤ 2 * ((n * scaleNum s : ℕ) : ℚ) + ((d * scaleDen s : ℕ) : ℚ) := by
      exact_mod_cast h1
    have h2q : (2 : ℚ) * ((n * scaleNum s : ℕ) : ℚ) ≤
        2 * ((roundHalfEven (n * scaleNum s) (d * scaleDen s) : ℕ) *
        ((d * scaleDen s : ℕ) : ℚ)) + ((d * scaleDen s : ℕ) : ℚ) := by
      exact_mod_cast h2
    rw [← hfrac s]
    exact half_bound _ _ _ (hDpos s) h1q h2q
  have hn0' : ¬ n = 0 := hn0
  simp only [roundNat, hn0', if_false]
  by_cases hc : n * scaleNum (52 + (bitLen d : Int) - (bitLen n : Int)) <
      2 ^ 52 * (d * scaleDen (52 + (bitLen d : Int) - (bitLen n : Int)))
  · simp only [hc, if_true, neg_neg]
    refine ⟨?_, herr _⟩
    rw [zpow_add₀ (by norm_num), zpow_one, ← mul_assoc]
    linarith
  · simp only [hc, if_false, neg_neg]
    refine ⟨?_, herr _⟩
    rw [← hfrac, le_div_iff₀ (hDpos _)]
    have := Nat.le_of_not_lt hc
    exact_mod_cast this


theorem num_div_den (x : F64) : ((num x : ℤ) : ℚ) / ((den x : ℕ) : ℚ) = x.val := by
  simp only [num, den, F64.val]
  rw [← scale_quot x.e]
  push_cast
  ring

theorem den_pos (x : F64) : 0 < den x := scaleDen_pos _

theorem trunc_of_bounds (x : F64) (q : Int) (h0 : 0 ≤ x.m) (h1 : (q : ℚ) ≤ x.val)
    (h2 : x.val < (q : ℚ) + 1) : trunc x = q := by
  have hn : 0 ≤ num x := by
    simp only [num]
    exact Int.mul_nonneg h0 (Int.ofNat_nonneg _)
  unfold trunc
  rw [Int.tdiv_eq_ediv hn (Int.ofNat_nonneg _)]
  rw [← Rat.floor_intCast_div_natCast, Int.floor_eq_iff, num_div_den]
  exact ⟨h1, h2⟩

/-- The value of a rounded positive fraction: the significand, its scale, and the two facts
the proofs below use. -/
theorem round_pos_spec (n : Int) (d : Nat) (hn : 0 < n) (hd : 0 < d) :
    ∃ (m : Nat) (s : Int), round n d = ⟨(m : Int), -s⟩ ∧
      (2 : ℚ) ^ 52 ≤ (n : ℚ) / d * (2 : ℚ) ^ s ∧
      |(m : ℚ) - (n : ℚ) / d * (2 : ℚ) ^ s| ≤ 1 / 2 := by
  have hnat : 0 < n.natAbs := Int.natAbs_pos.2 (by omega)
  obtain ⟨h1, h2⟩ := roundNat_spec n.natAbs d hnat hd
  have hcast : ((n.natAbs : ℕ) : ℚ) = (n : ℚ) := by
    have : ((n.natAbs : ℕ) : ℤ) = n := Int.natAbs_of_nonneg (by omega)
    rw [← Int.cast_natCast, this]
  rw [hcast] at h1 h2
  refine ⟨(roundNat n.natAbs d).1, -(roundNat n.natAbs d).2, ?_, h1, h2⟩
  simp [round, Int.sign_eq_one_of_pos hn]

theorem round_zero (d : Nat) : round 0 d = ⟨0, 0⟩ := by
  simp [round, roundNat]

/-- Go `float64(n)` is exact for a positive `n` below `2 ^ 53`. -/
theorem ofInt_exact (n : Int) (hn : 0 < n) (h53 : n < 2 ^ 53) :
    (ofInt n).val = n ∧ 0 ≤ (ofInt n).m := by
  obtain ⟨m, s, hr, h1, h2⟩ := round_pos_spec n 1 hn (by norm_num)
  have hnq : (0 : ℚ) < n := by exact_mod_cast hn
  have h53q : (n : ℚ) < 2 ^ 53 := by exact_mod_cast h53
  simp only [Nat.cast_one, div_one] at h1 h2
  -- the scale is not negative
  have hs : 0 ≤ s := by
    by_contra hneg
    have hs1 : s ≤ -1 := by omega
    have : (2 : ℚ) ^ s ≤ (2 : ℚ) ^ (-1 : ℤ) := zpow_le_zpow_right₀ (by norm_num) hs1
    have h2' : (2 : ℚ) ^ (-1 : ℤ) = 1 / 2 := by norm_num
    have h5 : (n : ℚ) * (2 : ℚ) ^ s ≤ (n : ℚ) * (1 / 2) := by
      apply mul_le_mul_of_nonneg_left _ hnq.le
      rw [← h2']; exact this
    have h6 : (2 : ℚ) ^ 53 = 2 * 2 ^ 52 := by norm_num
    linarith
  obtain ⟨k, rfl⟩ := Int.eq_ofNat_of_zero_le hs
  rw [zpow_natCast] at h1 h2
  -- so the scaled value is an integer, and the rounding is exact
  have hm : (m : ℤ) = n * 2 ^ k := by
    have h3 : |(((m : ℤ) - n * 2 ^ k : ℤ) : ℚ)| ≤ 1 / 2 := by
      push_cast
      exact h2
    have h4 : |((m : ℤ) - n * 2 ^ k : ℤ)| < 1 := by
      have : (|((m : ℤ) - n * 2 ^ k : ℤ)| : ℚ) < 1 := by
        rw [← Int.cast_abs] at h3 ⊢
        linarith
      exact_mod_cast this
    have := Int.abs_lt_one_iff.1 h4
    omega
  unfold ofInt
  rw [hr]
  constructor
  · simp only [F64.val]
    have : ((m : ℤ) : ℚ) = (n : ℚ) * 2 ^ k := by exact_mod_cast hm
    rw [this, zpow_neg, zpow_natCast]
    field_simp
  · exact Int.ofNat_nonneg _


theorem ofInt_zero : ofInt 0 = ⟨0, 0⟩ := round_zero 1

theorem ofInt_small (n : Int) (hn : 0 ≤ n) (h53 : n < 2 ^ 53) :
    (ofInt n).val = n ∧ 0 ≤ (ofInt n).m := by
  rcases lt_or_eq_of_le hn with h | h
  · exact ofInt_exact n h h53
  · subst h
    rw [ofInt_zero]
    simp [F64.val]

theorem ofInt_minute : ofInt 60000000000 = ⟨7864320000000000, -17⟩ := by
  decide

theorem add_arg (x y : F64) :
    (((num x * den y + num y * den x : ℤ)) : ℚ) / ((den x * den y : ℕ) : ℚ) = x.val + y.val := by
  rw [← num_div_den x, ← num_div_den y]
  have h1 : ((den x : ℕ) : ℚ) ≠ 0 := by have := den_pos x; positivity
  have h2 : ((den y : ℕ) : ℚ) ≠ 0 := by have := den_pos y; positivity
  push_cast
  field_simp

theorem num_nonneg (x : F64) (h : 0 ≤ x.m) : 0 ≤ num x := by
  simp only [num]
  exact Int.mul_nonneg h (Int.ofNat_nonneg _)

/-- The quotient of a number of nanoseconds below a minute by the minute: it stays below one
by more than `2 ^ (-36)`. -/
theorem div_minute_spec (r : Int) (h0 : 0 ≤ r) (hM : r < 60000000000) :
    0 ≤ (div (ofInt r) (ofInt 60000000000)).m ∧
    0 ≤ (div (ofInt r) (ofInt 60000000000)).val ∧
    (div (ofInt r) (ofInt 60000000000)).val ≤ 1 - 1 / 60000000000 + 1 / 2 ^ 54 := by
  obtain ⟨hv, hm⟩ := ofInt_small r h0 (by omega)
  rw [ofInt_minute]
  have hnum : num (⟨7864320000000000, -17⟩ : F64) = 7864320000000000 := by decide
  have hden : den (⟨7864320000000000, -17⟩ : F64) = 131072 := by decide
  simp only [div, hnum, hden]
  have hsign : Int.sign 7864320000000000 = 1 := by decide
  have habs : Int.natAbs 7864320000000000 = 7864320000000000 := by decide
  rw [hsign, habs, mul_one]
  rcases lt_or_eq_of_le h0 with hpos | hzero
  · -- a positive number of nanoseconds
    have hnx : 0 < num (ofInt r) := by
      have h1 := num_div_den (ofInt r)
      rw [hv] at h1
      have hdp : (0 : ℚ) < ((den (ofInt r) : ℕ) : ℚ) := by
        have := den_pos (ofInt r); positivity
      have hrq : (0 : ℚ) < r := by exact_mod_cast hpos
      have : (0 : ℚ) < ((num (ofInt r) : ℤ) : ℚ) := by
        by_contra hcon
        have hle : ((num (ofInt r) : ℤ) : ℚ) ≤ 0 := not_lt.1 hcon
        have : ((num (ofInt r) : ℤ) : ℚ) / ((den (ofInt r) : ℕ) : ℚ) ≤ 0 :=
          div_nonpos_of_nonpos_of_nonneg hle hdp.le
        linarith
      exact_mod_cast this
    have hA : 0 < num (ofInt r) * ((131072 : ℕ) : ℤ) := Int.mul_pos hnx (by norm_num)
    have hB : 0 < den (ofInt r) * 7864320000000000 := Nat.mul_pos (den_pos _) (by norm_num)
    obtain ⟨m, s, hr, h1, h2⟩ := round_pos_spec _ _ hA hB
    rw [hr]
    have harg : ((num (ofInt r) * ((131072 : ℕ) : ℤ) : ℤ) : ℚ) /
        ((den (ofInt r) * 7864320000000000 : ℕ) : ℚ) = (r : ℚ) / 60000000000 := by
      have h3 := num_div_den (ofInt r)
      rw [hv] at h3
      have hdp : ((den (ofInt r) : ℕ) : ℚ) ≠ 0 := by
        have := den_pos (ofInt r); positivity
      rw [← h3]
      push_cast
      field_simp
      ring
    rw [harg] at h1 h2
    have hrq : (0 : ℚ) < r := by exact_mod_cast hpos
    have hrM : (r : ℚ) ≤ 60000000000 - 1 := by
      have : r ≤ 60000000000 - 1 := by omega
      exact_mod_cast this
    have hx1 : (r : ℚ) / 60000000000 ≤ 1 - 1 / 60000000000 := by
      rw [div_le_iff₀ (by norm_num)]
      linarith
    have hx0 : (0 : ℚ) < (r : ℚ) / 60000000000 := by positivity
    have hpow : (0 : ℚ) < (2 : ℚ) ^ s := by positivity
    -- the scale is at least 53
    have hs : 53 ≤ s := by
      by_contra hcon
      have hs1 : s ≤ 52 := by omega
      have h4 : (2 : ℚ) ^ s ≤ (2 : ℚ) ^ (52 : ℤ) := zpow_le_zpow_right₀ (by norm_num) hs1
      have h5 : (2 : ℚ) ^ (52 : ℤ) = 2 ^ 52 := by norm_num
      have h6 : (r : ℚ) / 60000000000 * (2 : ℚ) ^ s < 1 * (2 : ℚ) ^ s := by
        apply mul_lt_mul_of_pos_right _ hpow
        linarith [show (0 : ℚ) < 1 / 60000000000 by norm_num]
      linarith
    have hinv : (2 : ℚ) ^ (-s) ≤ 1 / 2 ^ 53 := by
      have h4 : (2 : ℚ) ^ (-s) ≤ (2 : ℚ) ^ (-53 : ℤ) :=
        zpow_le_zpow_right₀ (by norm_num) (by omega)
      have h5 : (2 : ℚ) ^ (-53 : ℤ) = 1 / 2 ^ 53 := by norm_num
      exact le_of_le_of_eq h4 h5
    have hval : (⟨(m : ℤ), -s⟩ : F64).val =
        (r : ℚ) / 60000000000 + ((m : ℚ) - (r : ℚ) / 60000000000 * (2 : ℚ) ^ s) * (2 : ℚ) ^ (-s) := by
      simp only [F64.val, Int.cast_natCast]
      rw [sub_mul, mul_assoc, ← zpow_add₀ (by norm_num : (2 : ℚ) ≠ 0)]
      simp
    refine ⟨Int.ofNat_nonneg _, ?_, ?_⟩
    · simp only [F64.val, Int.cast_natCast]
      positivity
    · rw [hval]
      have hpn : (0 : ℚ) < (2 : ℚ) ^ (-s) := by positivity
      have habs := (abs_le.1 h2).2
      have h7 : ((m : ℚ) - (r : ℚ) / 60000000000 * (2 : ℚ) ^ s) * (2 : ℚ) ^ (-s) ≤
          1 / 2 * (1 / 2 ^ 53) := by
        calc ((m : ℚ) - (r : ℚ) / 60000000000 * (2 : ℚ) ^ s) * (2 : ℚ) ^ (-s)
            ≤ 1 / 2 * (2 : ℚ) ^ (-s) := mul_le_mul_of_nonneg_right habs hpn.le
          _ ≤ 1 / 2 * (1 / 2 ^ 53) := mul_le_mul_of_nonneg_left hinv (by norm_num)
      have h8 : (1 : ℚ) / 2 * (1 / 2 ^ 53) = 1 / 2 ^ 54 := by norm_num
      linarith
  · -- no nanoseconds
    subst hzero
    rw [ofInt_zero]
    have : num (⟨0, 0⟩ : F64) = 0 := by decide
    rw [this, zero_mul, round_zero]
    simp only [F64.val]
    norm_num


/-- Below `2 ^ 18` minutes the `float64` sum of the minutes and the fraction of a minute
truncates to the minutes. -/
theorem minutes_trunc_nonneg (q r : Int) (hq0 : 0 ≤ q) (hq : q < 2 ^ 18) (hr0 : 0 ≤ r)
    (hr : r < 60000000000) :
    trunc (add (ofInt q) (div (ofInt r) (ofInt 60000000000))) = q := by
  obtain ⟨hXv, hXm⟩ := ofInt_small q hq0 (by omega)
  obtain ⟨hYm, hY0, hY1⟩ := div_minute_spec r hr0 hr
  generalize ofInt q = X at hXv hXm
  generalize div (ofInt r) (ofInt 60000000000) = Y at hYm hY0 hY1
  have hq0q : (0 : ℚ) ≤ q := by exact_mod_cast hq0
  have hqq : (q : ℚ) + 1 ≤ 2 ^ 18 := by
    have : q + 1 ≤ 2 ^ 18 := by omega
    exact_mod_cast this
  have hA0 : 0 ≤ num X * den Y + num Y * den X :=
    Int.add_nonneg (Int.mul_nonneg (num_nonneg X hXm) (Int.ofNat_nonneg _))
      (Int.mul_nonneg (num_nonneg Y hYm) (Int.ofNat_nonneg _))
  have hB : 0 < den X * den Y := Nat.mul_pos (den_pos X) (den_pos Y)
  have harg := add_arg X Y
  rw [hXv] at harg
  unfold add
  rcases lt_or_eq_of_le hA0 with hA | hA
  · obtain ⟨m, s, hround, h1, h2⟩ := round_pos_spec _ _ hA hB
    rw [hround]
    rw [harg] at h1 h2
    have hy0 : (0 : ℚ) ≤ (q : ℚ) + Y.val := by linarith
    have hpow : (0 : ℚ) < (2 : ℚ) ^ s := by positivity
    -- the scale is at least 35
    have hs : 35 ≤ s := by
      by_contra hcon
      have hs1 : s ≤ 34 := by omega
      have h4 : (2 : ℚ) ^ s ≤ (2 : ℚ) ^ (34 : ℤ) := zpow_le_zpow_right₀ (by norm_num) hs1
      have h5 : (2 : ℚ) ^ (34 : ℤ) = 2 ^ 34 := by norm_num
      have h6 : ((q : ℚ) + Y.val) * (2 : ℚ) ^ s < 2 ^ 18 * (2 : ℚ) ^ s := by
        apply mul_lt_mul_of_pos_right _ hpow
        have : (1 : ℚ) - 1 / 60000000000 + 1 / 2 ^ 54 < 1 := by norm_num
        linarith
      have h7 : (2 : ℚ) ^ 18 * (2 : ℚ) ^ s ≤ 2 ^ 18 * 2 ^ 34 := by
        rw [← h5]
        exact mul_le_mul_of_nonneg_left h4 (by norm_num)
      have h8 : (2 : ℚ) ^ 18 * 2 ^ 34 = 2 ^ 52 := by norm_num
      linarith
    obtain ⟨k, rfl⟩ := Int.eq_ofNat_of_zero_le (by omega : 0 ≤ s)
    have hk : 35 ≤ k := by omega
    rw [zpow_natCast] at h1 h2 hpow
    have hpk : (2 : ℚ) ^ 35 ≤ (2 : ℚ) ^ k := pow_le_pow_right₀ (by norm_num) hk
    obtain ⟨hlo, hhi⟩ := abs_le.1 h2
    have hval : (⟨(m : ℤ), -((k : ℕ) : ℤ)⟩ : F64).val = (m : ℚ) / 2 ^ k := by
      simp only [F64.val, Int.cast_natCast, zpow_neg, zpow_natCast]
      rfl
    apply trunc_of_bounds _ _ (Int.ofNat_nonneg _)
    · -- the minutes are not above the sum
      rw [hval, le_div_iff₀ hpow]
      have hint : q * 2 ^ k ≤ (m : ℤ) := by
        by_contra hcon
        have h9 : (m : ℤ) + 1 ≤ q * 2 ^ k := by omega
        have h10 : (m : ℚ) + 1 ≤ (q : ℚ) * 2 ^ k := by exact_mod_cast h9
        have h11 : (q : ℚ) * 2 ^ k ≤ ((q : ℚ) + Y.val) * 2 ^ k :=
          mul_le_mul_of_nonneg_right (by linarith) hpow.le
        linarith
      exact_mod_cast hint
    · -- the sum stays below the next minute
      rw [hval, div_lt_iff₀ hpow]
      have h12 : ((q : ℚ) + Y.val) * 2 ^ k ≤
          ((q : ℚ) + (1 - 1 / 60000000000 + 1 / 2 ^ 54)) * 2 ^ k :=
        mul_le_mul_of_nonneg_right (by linarith) hpow.le
      have h13 : (1 : ℚ) / 2 < (1 / 60000000000 - 1 / 2 ^ 54) * 2 ^ 35 := by norm_num
      have h14 : ((1 : ℚ) / 60000000000 - 1 / 2 ^ 54) * 2 ^ 35 ≤
          (1 / 60000000000 - 1 / 2 ^ 54) * 2 ^ k :=
        mul_le_mul_of_nonneg_left hpk (by norm_num)
      nlinarith
  · -- the sum is zero
    rw [← hA, round_zero]
    have hz : ((0 : ℤ) : ℚ) / ((den X * den Y : ℕ) : ℚ) = (q : ℚ) + Y.val := by
      rw [hA]; exact harg
    simp only [Int.cast_zero, zero_div] at hz
    have hq' : (q : ℚ) = 0 := by linarith
    have : q = 0 := by exact_mod_cast hq'
    rw [this]
    decide


theorem round_neg (n : Int) (d : Nat) : round (-n) d = (round n d).neg := by
  simp [round, F64.neg, Int.sign_neg]

theorem ofInt_neg (n : Int) : ofInt (-n) = (ofInt n).neg := round_neg n 1

theorem num_neg (x : F64) : num x.neg = -num x := by
  simp [num, F64.neg]

theorem den_neg (x : F64) : den x.neg = den x := rfl

theorem div_neg_left (x y : F64) : div x.neg y = (div x y).neg := by
  simp only [div, num_neg, den_neg, Int.neg_mul, round_neg]

theorem add_neg_neg (x y : F64) : add x.neg y.neg = (add x y).neg := by
  simp only [add, num_neg, den_neg, Int.neg_mul, ← Int.neg_add, round_neg]

theorem trunc_neg (x : F64) : trunc x.neg = -trunc x := by
  simp only [trunc, num_neg, den_neg, Int.neg_tdiv]

end float64

/-- For a duration of fewer than `2 ^ 18` minutes, `int(d.Minutes())` is the duration in whole
minutes, the fraction discarded. -/
theorem trunc_Minutes (d : Int) (h : |d| < 2 ^ 18 * 60000000000) :
    float64.trunc (time.Minutes d) = Int.tdiv d 60000000000 := by
  have key : ∀ a : Int, 0 ≤ a → a < 2 ^ 18 * 60000000000 →
      float64.trunc (time.Minutes a) = Int.tdiv a 60000000000 := by
    intro a ha0 ha
    simp only [time.Minutes, time.Minute]
    have e1 : Int.tdiv a ((60000000000 : ℕ) : ℤ) = a / 60000000000 :=
      Int.tdiv_eq_ediv ha0 (by norm_num)
    have e2 : Int.tmod a ((60000000000 : ℕ) : ℤ) = a % 60000000000 :=
      Int.tmod_eq_emod ha0 (by norm_num)
    have e3 : Int.tdiv a 60000000000 = a / 60000000000 :=
      Int.tdiv_eq_ediv ha0 (by norm_num)
    rw [e1, e2, e3]
    exact float64.minutes_trunc_nonneg _ _ (by omega) (by omega) (by omega) (by omega)
  rcases le_or_lt 0 d with hd | hd
  · exact key d hd (by rwa [abs_of_nonneg hd] at h)
  · have hk := key (-d) (by omega) (by rwa [abs_of_neg hd] at h)
    have hmod : ∀ a b : Int, (-a).tmod b = -(a.tmod b) := by
      intro a b
      rw [Int.tmod_def, Int.tmod_def, Int.neg_tdiv]
      ring
    have hm : time.Minutes (-d) = (time.Minutes d).neg := by
      simp only [time.Minutes, Int.neg_tdiv, hmod, float64.ofInt_neg,
        float64.div_neg_left, float64.add_neg_neg]
    rw [hm, float64.trunc_neg, Int.neg_tdiv] at hk
    omega


/-- C10, as stated, fails: the default `262144m59.999999999s` is no decimal integer and parses
as a duration of 262144 whole minutes, and `addEntry` emits the default `262145`, since the
`float64` sum in `Duration.Minutes` rounds up to the next minute. -/
theorem addEntry_minutes_round_up :
    strconv.Atoi "262144m59.999999999s" = none ∧
    time.ParseDuration "262144m59.999999999s" = .ok 15728699999999999 ∧
    strconv.Itoa (Int.tdiv 15728699999999999 60000000000) = "262144" ∧
    addEntry []
        { Parameter := "test", Default := "262144m59.999999999s", Type_ := SchemaType.Int,
          Description := "I am a great test description" } =
      .ok [{ Parameter := "test", Default := "262145", Type_ := SchemaType.Int,
             Description := "I am a great test description (Configured in minutes)" }] := by
  set_option maxRecDepth 100000 in
  exact ⟨by decide, by rfl, by decide, by rfl⟩

/-- C10, amended: for every entry of kind `Int`, if the default parses as a decimal integer
`n`, the emitted default is the decimal rendering of `n` and the description is unchanged;
otherwise, if it parses as a duration `d`, the emitted description is the given one followed
by ` (Configured in minutes)` and the emitted default is the decimal rendering of
`int(d.Minutes())`, which for a duration of fewer than `2 ^ 18` minutes is `d` in whole
minutes with the fraction discarded: `6m0s` gives `6` and `90s` gives `1`.  The rendering of
an integer is canonical: `+007` gives `7`. -/
theorem addEntry_Int_default (entries : List SchemaEntry) (entry : SchemaEntry)
    (hT : entry.Type_ = SchemaType.Int) :
    (∀ n, strconv.Atoi entry.Default = some n →
      addEntry entries entry =
        .ok (entries ++ [{ Parameter := entry.Parameter, Default := strconv.Itoa n,
                           Type_ := SchemaType.Int, Description := entry.Description }])) ∧
    (∀ d, strconv.Atoi entry.Default = none → time.ParseDuration entry.Default = .ok d →
      addEntry entries entry =
        .ok (entries ++ [{ Parameter := entry.Parameter,
                           Default := strconv.Itoa (float64.trunc (time.Minutes d)),
                           Type_ := SchemaType.Int,
                           Description := entry.Description ++ " (Configured in minutes)" }]) ∧
      (|d| < 2 ^ 18 * 60000000000 →
        float64.trunc (time.Minutes d) = Int.tdiv d 60000000000)) ∧
    (time.ParseDuration "6m0s" = .ok 360000000000 ∧
      strconv.Itoa (float64.trunc (time.Minutes 360000000000)) = "6") ∧
    (time.ParseDuration "90s" = .ok 90000000000 ∧
      strconv.Itoa (float64.trunc (time.Minutes 90000000000)) = "1") ∧
    (strconv.Atoi "+007" = some 7 ∧ strconv.Itoa 7 = "7") := by
  have h6 : time.ParseDuration "6m0s" = .ok 360000000000 ∧
      strconv.Itoa (float64.trunc (time.Minutes 360000000000)) = "6" := by
    set_option maxRecDepth 100000 in
    exact ⟨by rfl, by decide⟩
  have h90 : time.ParseDuration "90s" = .ok 90000000000 ∧
      strconv.Itoa (float64.trunc (time.Minutes 90000000000)) = "1" := by
    set_option maxRecDepth 100000 in
    exact ⟨by rfl, by decide⟩
  refine ⟨?_, ?_, h6, h90, by decide⟩
  · intro n hn
    simp only [addEntry, hT, Int_ne_String, Int_ne_Bool, if_true, if_false, hn]
  · intro d ha hd
    refine ⟨?_, trunc_Minutes d⟩
    simp only [addEntry, hT, Int_ne_String, Int_ne_Bool, if_true, if_false, ha, hd]

/-- Witness of the amended C10 at the default `90s`. -/
theorem addEntry_Int_default_witness :
    addEntry [] { Parameter := "test", Default := "90s", Type_ := SchemaType.Int } =
      .ok ([] ++ [{ Parameter := "test",
                    Default := strconv.Itoa (float64.trunc (time.Minutes 90000000000)),
                    Type_ := SchemaType.Int,
                    Description := "" ++ " (Configured in minutes)" }]) :=
  ((addEntry_Int_default [] { Parameter := "test", Default := "90s", Type_ := SchemaType.Int }
    rfl).2.1 90000000000 (by decide) (by set_option maxRecDepth 100000 in rfl)).1

/-! ## C12: the shape of the document -/

theorem foldl_append_blocks (entries : List SchemaEntry) (init : String) :
    entries.foldl (fun body entry => body ++ entryBlock entry) init =
      init ++ entries.foldl (fun body entry => body ++ entryBlock entry) "" := by
  induction entries generalizing init with
  | nil => simp
  | cons e es ih =>
    simp only [List.foldl_cons]
    rw [ih (init ++ entryBlock e), ih ("" ++ entryBlock e)]
    simp [String.append_assoc]

/-- C12: for every list of entries `constructSchema` returns the header, the body and the
footer; the body is the concatenation, in list order, of the blocks `entryBlock entry`, each
a function of its entry alone.  So `constructSchema []` is the header and the footer, and
the body of `xs ++ ys` is the body of `xs` followed by the body of `ys`. -/
theorem constructSchema_shape :
    (∀ entries, constructSchema entries = header ++ schemaBody entries ++ footer) ∧
    (∀ entries, schemaBody entries =
      (entries.map entryBlock).foldr (fun block rest => block ++ rest) "") ∧
    constructSchema [] = header ++ footer ∧
    (∀ xs ys, schemaBody (xs ++ ys) = schemaBody xs ++ schemaBody ys) := by
  refine ⟨fun _ => rfl, ?_, ?_, ?_⟩
  · intro entries
    simp only [schemaBody, foldl_blocks, List.foldr_map]
    simp
  · simp [constructSchema]
  · intro xs ys
    simp only [schemaBody, List.foldl_append]
    exact foldl_append_blocks ys _

/-! ## C16: applying the overrides twice -/

theorem loadParameter_stages (line : String) :
    loadParameter line =
      (rawDefault line).map (fun raw =>
        stripQuotes (overrideDefault
          { Parameter := flagName line, Default := raw, Description := "",
            Type_ := getSchemaType raw, ArrayType := "" })) := by
  unfold loadParameter rawDefault flagName
  cases hs : strings.Split line "=" with
  | nil => simp
  | cons seg0 t =>
    cases t with
    | nil => simp
    | cons seg1 rest =>
      simp only [List.headD_cons, List.getElem?_cons_succ, List.getElem?_cons_zero,
        Option.map_some', Option.some.injEq]
      unfold stripQuotes overrideDefault
      simp only
      cases schemaOverrides
        (strings.ReplaceAll (strings.TrimPrefix seg0 "--") "-" "_") with
      | none => simp only []; split <;> rfl
      | some val => simp only []; split <;> rfl

/-- C16: applying the override table is idempotent.  With `applyOverrides` the replacement of
the default and the kind (as in `loadParameter`) followed by that of the description (as in
`Build`), `applyOverrides (applyOverrides entry) = applyOverrides entry` for every record,
and a record whose name is no key of the table is left unchanged. -/
theorem applyOverrides_idempotent :
    (∀ entry, applyOverrides (applyOverrides entry) = applyOverrides entry) ∧
    (∀ entry, schemaOverrides entry.Parameter = none → applyOverrides entry = entry) := by
  constructor
  · intro entry
    unfold applyOverrides overrideDescription overrideDefault
    cases h : schemaOverrides entry.Parameter with
    | none => simp only [h]
    | some val => simp only [h]
  · intro entry h
    simp only [applyOverrides, overrideDescription, overrideDefault, h]

/-- Witness of C16 at a record named `memory`. -/
theorem applyOverrides_idempotent_witness :
    applyOverrides (applyOverrides { Parameter := "memory", Default := "abc" }) =
      applyOverrides { Parameter := "memory", Default := "abc" } ∧
    applyOverrides { Parameter := "test", Default := "abc" } =
      { Parameter := "test", Default := "abc" } :=
  ⟨applyOverrides_idempotent.1 _, applyOverrides_idempotent.2 _ (by decide)⟩

/-! ## C15: `Build` fails fast -/

theorem BuildWith_recording (minikube : MinikubeBinary) (log : List Call) :
    (BuildWith (recording minikube) log).1 = Build minikube := by
  unfold BuildWith Build recording
  simp only
  cases h1 : minikube.GetVersion with
  | mk v e =>
    cases e with
    | some e1 => rfl
    | none =>
      simp only
      cases h2 : minikube.GetStartHelpText with
      | mk help e2 =>
        cases e2 with
        | some e3 => rfl
        | none =>
          simp only
          cases scanLoop (ScanLines help) {} <;> rfl

/-- C15: `Build` fails fast.  When `GetVersion` returns an error, whatever it is, `Build`
returns the empty document and the error with the fixed message, and the binary is left in
the state `GetVersion` left it in: the recorded calls are `GetVersion` alone, the help text
is not requested.  When `GetVersion` succeeds and `GetStartHelpText` returns an error,
`Build` returns the empty document and that error. -/
theorem Build_fails_fast :
    (∀ (σ : Type) (minikube : StatefulBinary σ) (s s1 : σ) (version : String) (e : GoError),
      minikube.GetVersion s = ((version, some e), s1) →
      BuildWith minikube s =
        (some ("", some (GoError.errorsNew
          "could not run minikube binary. please ensure that you have minikube installed and available")),
         s1)) ∧
    (∀ (minikube : MinikubeBinary) (e : GoError), minikube.GetVersion.2 = some e →
      Build minikube =
        some ("", some (GoError.errorsNew
          "could not run minikube binary. please ensure that you have minikube installed and available")) ∧
      (BuildWith (recording minikube) []).2 = [Call.GetVersion]) ∧
    (∀ (σ : Type) (minikube : StatefulBinary σ) (s s1 s2 : σ) (version help : String)
      (e : GoError),
      minikube.GetVersion s = ((version, none), s1) →
      minikube.GetStartHelpText s1 = ((help, some e), s2) →
      BuildWith minikube s = (some ("", some e), s2)) ∧
    (∀ (minikube : MinikubeBinary) (e : GoError), minikube.GetVersion.2 = none →
      minikube.GetStartHelpText.2 = some e →
      Build minikube = some ("", some e) ∧
      (BuildWith (recording minikube) []).2 = [Call.GetVersion, Call.GetStartHelpText]) ∧
    (∀ minikube : MinikubeBinary, (BuildWith (recording minikube) []).1 = Build minikube) := by
  refine ⟨?_, ?_, ?_, ?_, fun m => BuildWith_recording m []⟩
  · intro σ minikube s s1 version e h
    simp only [BuildWith, h]
  · intro minikube e h
    constructor
    · simp only [Build, h]
    · cases hv : minikube.GetVersion with
      | mk v e1 =>
        rw [hv] at h
        simp only at h
        subst h
        simp only [BuildWith, recording, hv, List.nil_append]
  · intro σ minikube s s1 s2 version help e h1 h2
    simp only [BuildWith, h1, h2]
  · intro minikube e h1 h2
    constructor
    · simp only [Build, h1, h2]
    · cases hv : minikube.GetVersion with
      | mk v e1 =>
        cases hh : minikube.GetStartHelpText with
        | mk help e2 =>
          rw [hv] at h1
          rw [hh] at h2
          simp only at h1 h2
          subst h1 h2
          simp only [BuildWith, recording, hv, hh, List.nil_append, List.singleton_append]

/-- Witness of C15 on the mock of `TestMinikubeNotFound`. -/
theorem Build_fails_fast_witness :
    Build testMinikubeNotFound =
      some ("", some (GoError.errorsNew
        "could not run minikube binary. please ensure that you have minikube installed and available")) ∧
    (BuildWith (recording testMinikubeNotFound) []).2 = [Call.GetVersion] :=
  Build_fails_fast.2.1 testMinikubeNotFound (GoError.errorsNew "could not find minikube binary") rfl

/-! ## What a record without an override renders as (C14) -/

theorem overrideDescription_closing (cur : SchemaEntry) :
    overrideDescription { cur with Description := escapeDescription cur.Description } =
      { cur with
        Description := match schemaOverrides cur.Parameter with
          | some val => val.Description
          | none => escapeDescription cur.Description } := by
  unfold overrideDescription
  simp only
  cases schemaOverrides cur.Parameter <;> rfl

theorem loadParameter_plain (line raw : String) (hr : rawDefault line = some raw)
    (ho : schemaOverrides (flagName line) = none) :
    loadParameter line =
      some { Parameter := flagName line,
             Default := if getSchemaType raw = SchemaType.String then strings.Trim raw "\x27"
                        else raw,
             Description := "", Type_ := getSchemaType raw, ArrayType := "" } := by
  rw [loadParameter_stages, hr]
  simp only [Option.map_some', overrideDefault, ho, stripQuotes]
  split <;> rfl

theorem scanLoop_plain_record (flag blank raw : String) (desc : List String) (st : LoopState)
    (hf : isFlagLine flag = true) (hd : ∀ d ∈ desc, isDescriptionLine d = true)
    (hb : isBlankLine blank = true)
    (hr : rawDefault (strings.TrimSpace flag) = some raw)
    (hn : flagName (strings.TrimSpace flag) ≠ "")
    (ho : schemaOverrides (flagName (strings.TrimSpace flag)) = none) :
    scanLoop (flag :: (desc ++ [blank])) st =
      match addEntry st.entries
          { Parameter := flagName (strings.TrimSpace flag),
            Default := if getSchemaType raw = SchemaType.String then strings.Trim raw "\x27"
                       else raw,
            Description := escapeDescription
              (desc.foldl (fun acc d => acc ++ strings.TrimSpace d) ""),
            Type_ := getSchemaType raw, ArrayType := "" } with
      | .error err => LoopResult.failed err
      | .ok entries =>
        LoopResult.done
          { entries := entries,
            currentEntry :=
              { Parameter := "",
                Default := if getSchemaType raw = SchemaType.String then strings.Trim raw "\x27"
                           else raw,
                Description := escapeDescription
                  (desc.foldl (fun acc d => acc ++ strings.TrimSpace d) ""),
                Type_ := getSchemaType raw, ArrayType := "" } } := by
  rw [scanLoop_record flag blank desc st _ hf (loadParameter_plain _ _ hr ho) hd hb hn]
  simp only [ho]

theorem Trim_quoted (v : String) (h : Char.ofNat 39 ∉ v.data) :
    strings.Trim ("\x27" ++ v ++ "\x27") "\x27" = v := by
  have hq : ("\x27" : String).data = [Char.ofNat 39] := by decide
  have hp : ∀ c : Char, ([Char.ofNat 39] : List Char).contains c = true ↔ c = Char.ofNat 39 := by
    intro c; simp
  cases v with
  | mk l =>
    simp only [strings.Trim, String.data_append, hq, strings.dropWhileEnd]
    simp only at h
    apply congrArg String.mk
    have h1 : ((([Char.ofNat 39] : List Char) ++ l ++ [Char.ofNat 39]).dropWhile
        (fun c => ([Char.ofNat 39] : List Char).contains c)) =
        (l ++ [Char.ofNat 39]).dropWhile (fun c => ([Char.ofNat 39] : List Char).contains c) := by
      simp [List.dropWhile_cons]
    rw [h1]
    cases l with
    | nil => simp [List.dropWhile_cons]
    | cons a l =>
      have ha : ¬ a = Char.ofNat 39 := fun e => h (by rw [e]; exact List.mem_cons_self _ _)
      have h2 : ((a :: l ++ [Char.ofNat 39]).dropWhile
          (fun c => ([Char.ofNat 39] : List Char).contains c)) = a :: l ++ [Char.ofNat 39] := by
        simp [List.dropWhile_cons, ha]
      rw [h2]
      have h3 : (a :: l ++ [Char.ofNat 39]).reverse = Char.ofNat 39 :: (a :: l).reverse := by
        simp
      rw [h3]
      have h4 : ((Char.ofNat 39 :: (a :: l).reverse).dropWhile
          (fun c => ([Char.ofNat 39] : List Char).contains c)) = (a :: l).reverse := by
        rw [List.dropWhile_cons]
        simp only [List.contains_cons, beq_self_eq_true, Bool.true_or, if_true]
        -- the last character of `a :: l` is no quote
        cases hrev : (a :: l).reverse with
        | nil => simp
        | cons b r =>
          have hb : b ∈ a :: l := by
            rw [← List.mem_reverse, hrev]; exact List.mem_cons_self _ _
          have hb2 : ¬ b = Char.ofNat 39 := fun e => h (by rw [← e]; exact hb)
          simp [List.dropWhile_cons, hb2]
      rw [h4, List.reverse_reverse]

theorem getSchemaType_String_of (raw : String)
    (h : raw = "" ∨ raw.data.count (Char.ofNat 39) = 2) :
    getSchemaType raw = SchemaType.String := by
  have hc : strings.Count raw "\x27" = raw.data.count (Char.ofNat 39) := Count_single raw _
  have g : strings.Count raw "\x27" = 2 ∨ raw = "" := by rw [hc]; exact h.symm
  simp [getSchemaType, g]

/-- The default of a `String` record, where `loadParameter` reads it whole.  For every record
closed by a blank line, with a non-empty name and no override, whose default as
`loadParameter` reads it (the `seg[1]` of the line without its trailing colon, which is the
whole default when that holds no `=`) is empty or holds exactly two single quotes, the loop
of `Build` appends
one entry of kind `String` whose default is the raw default without its leading and
trailing single quotes, between one pair of double quotes, and whose block holds the line
`Default:	"<that>",`.  A raw default `'v'` with no single quote in `v` gives `"v"`, an empty
one gives `""`. -/
theorem String_default_rendering (st : LoopState) (flag blank raw : String)
    (desc : List String)
    (hf : isFlagLine flag = true) (hd : ∀ d ∈ desc, isDescriptionLine d = true)
    (hb : isBlankLine blank = true)
    (hr : rawDefault (strings.TrimSpace flag) = some raw)
    (hn : flagName (strings.TrimSpace flag) ≠ "")
    (ho : schemaOverrides (flagName (strings.TrimSpace flag)) = none)
    (hs : raw = "" ∨ raw.data.count (Char.ofNat 39) = 2) :
    (∃ entry cur,
      scanLoop (flag :: (desc ++ [blank])) st =
        LoopResult.done { entries := st.entries ++ [entry], currentEntry := cur } ∧
      entry.Parameter = flagName (strings.TrimSpace flag) ∧
      entry.Type_ = SchemaType.String ∧
      entry.Default = "\"" ++ strings.Trim raw "\x27" ++ "\"" ∧
      typeParams entry = "\n\t\t\tDefault:\t" ++ ("\"" ++ strings.Trim raw "\x27" ++ "\"") ++ ",") ∧
    (∀ v : String, Char.ofNat 39 ∉ v.data → raw = "\x27" ++ v ++ "\x27" →
      strings.Trim raw "\x27" = v) ∧
    (raw = "" → strings.Trim raw "\x27" = "") := by
  have ht := getSchemaType_String_of raw hs
  refine ⟨?_, ?_, ?_⟩
  · rw [scanLoop_plain_record flag blank raw desc st hf hd hb hr hn ho]
    simp only [ht, if_true, addEntry]
    refine ⟨_, _, rfl, rfl, rfl, rfl, ?_⟩
    simp [typeParams, String_ne_Array]
  · intro v hv e
    rw [e]
    exact Trim_quoted v hv
  · intro e
    rw [e]
    decide

/-- The first record of `TestStringProperty` is rendered so. -/
theorem String_default_rendering_witness :
    ∃ entry cur,
      scanLoop ("--test=\x27test-value\x27:" ::
          (["\tI am a great test description"] ++ [""])) {} =
        LoopResult.done { entries := [] ++ [entry], currentEntry := cur } ∧
      entry.Parameter = flagName (strings.TrimSpace "--test=\x27test-value\x27:") ∧
      entry.Type_ = SchemaType.String ∧
      entry.Default = "\"" ++ strings.Trim "\x27test-value\x27" "\x27" ++ "\"" ∧
      typeParams entry =
        "\n\t\t\tDefault:\t" ++ ("\"" ++ strings.Trim "\x27test-value\x27" "\x27" ++ "\"") ++ "," :=
  (String_default_rendering {} "--test=\x27test-value\x27:" "" "\x27test-value\x27"
    ["\tI am a great test description"] (by decide) (by decide) (by decide) (by decide)
    (by decide) (by decide) (Or.inr (by decide))).1

theorem loadParameter_description (line : String) (entry : SchemaEntry)
    (h : loadParameter line = some entry) : entry.Description = "" := by
  unfold loadParameter at h
  split at h
  · simp only [Option.some.injEq] at h
    rw [← h]
  · cases h

theorem addEntry_plain (entries : List SchemaEntry) (entry : SchemaEntry)
    (ht : entry.Type_ = SchemaType.String ∨ entry.Type_ = SchemaType.Bool ∨
      entry.Type_ = SchemaType.Int ∨ entry.Type_ = SchemaType.Array)
    (hnd : entry.Type_ = SchemaType.Int → strconv.Atoi entry.Default ≠ none) :
    ∃ emitted, addEntry entries entry = .ok (entries ++ [emitted]) ∧
      emitted.Parameter = entry.Parameter ∧ emitted.Description = entry.Description ∧
      emitted.Type_ = entry.Type_ := by
  unfold addEntry
  rcases ht with ht | ht | ht | ht
  · simp only [ht, if_true]
    exact ⟨_, rfl, rfl, rfl, rfl⟩
  · simp only [ht, Bool_ne_String, if_true, if_false]
    exact ⟨_, rfl, rfl, rfl, rfl⟩
  · simp only [ht, Int_ne_String, Int_ne_Bool, if_true, if_false]
    cases ha : strconv.Atoi entry.Default with
    | none => exact absurd ha (hnd ht)
    | some n => exact ⟨_, rfl, rfl, rfl, rfl⟩
  · simp only [ht, Array_ne_String, Array_ne_Bool, Array_ne_Int, if_true, if_false]
    exact ⟨_, rfl, rfl, rfl, rfl⟩

/-- C14: the description of a record.  For every record closed by a blank line, with a
non-empty name and no override, whose default is no duration (the kind is not `Int`, or the
default is a decimal integer), the loop of `Build` appends one entry whose description is
the escaping of the concatenation, in order and without a separator, of the trimmed lines
between the flag line and the blank line.  The lines `foo` and `bar` give `foobar`; no
lines give the empty description. -/
theorem description_of_record (st : LoopState) (flag blank : String) (desc : List String)
    (entry : SchemaEntry)
    (hf : isFlagLine flag = true) (hd : ∀ d ∈ desc, isDescriptionLine d = true)
    (hb : isBlankLine blank = true)
    (he : loadParameter (strings.TrimSpace flag) = some entry)
    (hn : entry.Parameter ≠ "")
    (ho : schemaOverrides entry.Parameter = none)
    (hnd : entry.Type_ = SchemaType.Int → strconv.Atoi entry.Default ≠ none) :
    (∃ emitted cur,
      scanLoop (flag :: (desc ++ [blank])) st =
        LoopResult.done { entries := st.entries ++ [emitted], currentEntry := cur } ∧
      emitted.Parameter = entry.Parameter ∧
      emitted.Description =
        escapeDescription (desc.foldl (fun acc d => acc ++ strings.TrimSpace d) "")) ∧
    escapeDescription (["  foo", "\tbar "].foldl (fun acc d => acc ++ strings.TrimSpace d) "") =
      "foobar" ∧
    escapeDescription (([] : List String).foldl (fun acc d => acc ++ strings.TrimSpace d) "") =
      "" := by
  refine ⟨?_, by decide, by decide⟩
  rw [scanLoop_record flag blank desc st entry hf he hd hb hn]
  simp only [ho, loadParameter_description _ _ he]
  obtain ⟨emitted, h1, h2, h3, _⟩ := addEntry_plain st.entries
    { entry with
      Description := escapeDescription
        (desc.foldl (fun acc d => acc ++ strings.TrimSpace d) "") }
    (loadParameter_type _ entry he) hnd
  rw [h1]
  exact ⟨emitted, _, rfl, h2, h3⟩

/-- Witness of C14: the record of `--test=123:` with the description lines `foo` and
`bar`. -/
theorem description_of_record_witness :
    ∃ emitted cur,
      scanLoop ("--test=123:" :: (["  foo", "\tbar "] ++ [""])) {} =
        LoopResult.done { entries := [] ++ [emitted], currentEntry := cur } ∧
      emitted.Parameter = "test" ∧
      emitted.Description =
        escapeDescription
          (["  foo", "\tbar "].foldl (fun acc d => acc ++ strings.TrimSpace d) "") :=
  (description_of_record {} "--test=123:" "" ["  foo", "\tbar "]
    { Parameter := "test", Default := "123", Type_ := SchemaType.Int }
    (by decide) (by decide) (by decide) (by decide) (by decide) (by decide) (by decide)).1

theorem getSchemaType_Array_of (raw : String)
    (h1 : raw.data.head? = some (Char.ofNat 91)) (h2 : raw.data.getLast? = some (Char.ofNat 93))
    (h3 : raw.data.count (Char.ofNat 39) ≠ 2) :
    getSchemaType raw = SchemaType.Array := by
  have hc : strings.Count raw "\x27" = raw.data.count (Char.ofNat 39) := Count_single raw _
  have hp : strings.HasPrefix raw "[" = true := (HasPrefix_single raw _).2 h1
  have hs : strings.HasSuffix raw "]" = true := (HasSuffix_single raw _).2 h2
  have hne : raw ≠ "" := by
    intro e; rw [e] at h1; exact absurd h1 (by decide)
  have hnt : raw ≠ "true" := by
    intro e; rw [e] at h1; exact absurd h1 (by decide)
  have hnf : raw ≠ "false" := by
    intro e; rw [e] at h1; exact absurd h1 (by decide)
  have g1 : ¬ (strings.Count raw "\x27" = 2 ∨ raw = "") := by
    rw [hc]; rintro (h | h)
    · exact h3 h
    · exact hne h
  simp [getSchemaType, g1, hnt, hnf, hp, hs]

/-- The rendering of a list, where `loadParameter` reads the default whole.  For every record
closed by a blank line, with a non-empty name and no override, whose default as
`loadParameter` reads it (the `seg[1]` of the line without its trailing colon, which is the
whole default when that holds no `=`) starts with `[`, ends with `]` and does not hold
exactly two single quotes, the loop of `Build` appends
one entry of kind `List` with element kind `String`; the parameters of its block are the
marker section followed by the element sub-block, they hold no `Default:`, and the block is
the text given here. -/
theorem List_rendering (st : LoopState) (flag blank raw : String) (desc : List String)
    (hf : isFlagLine flag = true) (hd : ∀ d ∈ desc, isDescriptionLine d = true)
    (hb : isBlankLine blank = true)
    (hr : rawDefault (strings.TrimSpace flag) = some raw)
    (hn : flagName (strings.TrimSpace flag) ≠ "")
    (ho : schemaOverrides (flagName (strings.TrimSpace flag)) = none)
    (h1 : raw.data.head? = some (Char.ofNat 91)) (h2 : raw.data.getLast? = some (Char.ofNat 93))
    (h3 : raw.data.count (Char.ofNat 39) ≠ 2) :
    ∃ entry cur,
      scanLoop (flag :: (desc ++ [blank])) st =
        LoopResult.done { entries := st.entries ++ [entry], currentEntry := cur } ∧
      entry.Parameter = flagName (strings.TrimSpace flag) ∧
      entry.Type_ = SchemaType.Array ∧ entry.ArrayType = SchemaType.String ∧
      typeParams entry =
        "\n\t\t\tElem: &schema.Schema\x7b\n\t\t\t\tType:\tschema.TypeString,\n\t\t\t\x7d,\n\t\t\t" ∧
      ¬ strings.Contains (extraParams entry) "Default:" ∧
      entryBlock entry =
        "\n\t\t\"" ++ entry.Parameter ++ "\": \x7b\n\t\t\tType:\t\t\t\t\tschema.TypeList" ++
          ",\n\t\t\tDescription:\t\"" ++ entry.Description ++ "\",\n\t\t\t" ++
          (markerParams entry ++
            "\n\t\t\tElem: &schema.Schema\x7b\n\t\t\t\tType:\tschema.TypeString,\n\t\t\t\x7d,\n\t\t\t") ++
          "\n\t\t\x7d,\n\t" := by
  have ht := getSchemaType_Array_of raw h1 h2 h3
  rw [scanLoop_plain_record flag blank raw desc st hf hd hb hr hn ho]
  simp only [ht, Array_ne_String, if_false, addEntry, Array_ne_Bool, Array_ne_Int, if_true]
  refine ⟨_, _, rfl, rfl, rfl, rfl, ?_, ?_, ?_⟩
  · simp only [typeParams, if_true]
    decide
  · simp only [extraParams, typeParams, if_true, markerParams]
    split
    · set_option maxRecDepth 100000 in decide
    · set_option maxRecDepth 100000 in decide
  · simp only [entryBlock, extraParams, typeParams, if_true]
    have e1 : "schema.Type" ++ SchemaType.Array = "schema.TypeList" := by decide
    have e2 : "schema.Type" ++ SchemaType.String = "schema.TypeString" := by decide
    rw [e1, e2]
    simp only [String.append_assoc]
    rfl

/-- The record of `TestArrayProperty` is rendered so. -/
theorem List_rendering_witness :
    ∃ entry cur,
      scanLoop ("--test=[]:" :: (["\tI am a great test description"] ++ [""])) {} =
        LoopResult.done { entries := [] ++ [entry], currentEntry := cur } ∧
      entry.Type_ = SchemaType.Array ∧ entry.ArrayType = SchemaType.String ∧
      ¬ strings.Contains (extraParams entry) "Default:" := by
  obtain ⟨entry, cur, h1, _, h3, h4, _, h6, _⟩ :=
    List_rendering {} "--test=[]:" "" "[]" ["\tI am a great test description"]
      (by decide) (by decide) (by decide) (by decide) (by decide) (by decide) (by decide)
      (by decide) (by decide)
  exact ⟨entry, cur, h1, h3, h4, h6⟩

/-! ## C13: names are not made unique -/

/-- C13, as stated, fails: on a help text that repeats the flag `a`, the loop of `Build` ends
with two entries named `a`, the first occurrence before the last, and `Build` returns the
document rendered from both. -/
theorem repeated_flag_emitted_twice :
    Build repeatedFlag =
      some (constructSchema
        [{ Parameter := "a", Default := "1", Description := "", Type_ := SchemaType.Int,
           ArrayType := "" },
         { Parameter := "a", Default := "2", Description := "", Type_ := SchemaType.Int,
           ArrayType := "" }], none) ∧
    ¬ (([{ Parameter := "a", Default := "1", Description := "", Type_ := SchemaType.Int,
           ArrayType := "" },
         { Parameter := "a", Default := "2", Description := "", Type_ := SchemaType.Int,
           ArrayType := "" }] : List SchemaEntry).map SchemaEntry.Parameter).Nodup ∧
    (∃ cur, scanLoop (ScanLines repeatedFlag.GetStartHelpText.1) {} =
      LoopResult.done
        { entries :=
            [{ Parameter := "a", Default := "1", Description := "", Type_ := SchemaType.Int,
               ArrayType := "" },
             { Parameter := "a", Default := "2", Description := "", Type_ := SchemaType.Int,
               ArrayType := "" }],
          currentEntry := cur }) := by
  refine ⟨?_, ?_, ?_⟩
  · set_option maxRecDepth 100000 in rfl
  · decide
  · exact ⟨_, by set_option maxRecDepth 100000 in rfl⟩

theorem addEntry_names (entries entries1 : List SchemaEntry) (entry : SchemaEntry)
    (ht : entry.Type_ = SchemaType.String ∨ entry.Type_ = SchemaType.Bool ∨
      entry.Type_ = SchemaType.Int ∨ entry.Type_ = SchemaType.Array)
    (h : addEntry entries entry = .ok entries1) :
    entries1.map SchemaEntry.Parameter =
      entries.map SchemaEntry.Parameter ++ [entry.Parameter] := by
  unfold addEntry at h
  rcases ht with ht | ht | ht | ht
  · simp only [ht, if_true] at h
    cases h; simp
  · simp only [ht, Bool_ne_String, if_true, if_false] at h
    cases h; simp
  · simp only [ht, Int_ne_String, Int_ne_Bool, if_true, if_false] at h
    split at h
    · cases h; simp
    · split at h
      · cases h
      · cases h; simp
  · simp only [ht, Array_ne_String, Array_ne_Bool, Array_ne_Int, if_true, if_false] at h
    cases h; simp

theorem scanLoop_names (lines : List String) (st st1 : LoopState)
    (hty : st.currentEntry.Parameter ≠ "" →
      st.currentEntry.Type_ = SchemaType.String ∨ st.currentEntry.Type_ = SchemaType.Bool ∨
      st.currentEntry.Type_ = SchemaType.Int ∨ st.currentEntry.Type_ = SchemaType.Array)
    (h : scanLoop lines st = LoopResult.done st1) :
    st1.entries.map SchemaEntry.Parameter =
      st.entries.map SchemaEntry.Parameter ++
        (if st.currentEntry.Parameter ≠ "" ∧ terminated lines = true
          then [st.currentEntry.Parameter] else []) ++
        terminatedNames lines := by
  induction lines generalizing st with
  | nil =>
    simp only [scanLoop, LoopResult.done.injEq] at h
    subst h
    simp [terminated, terminatedNames]
  | cons text rest ih =>
    rcases line_cases text with hf | hd | hb
    · rw [scanLoop_flag _ _ _ hf] at h
      have hnb : isBlankLine text = false := by
        cases hb : isBlankLine text with
        | false => rfl
        | true => rw [not_flag_of_blank text hb] at hf; cases hf
      cases he : loadParameter (strings.TrimSpace text) with
      | none => rw [he] at h; cases h
      | some entry =>
        rw [he] at h
        have := ih { st with currentEntry := entry }
          (fun _ => loadParameter_type _ _ he) h
        rw [this]
        simp only [terminated, terminatedNames, hf, hnb, he, Bool.false_eq_true, if_false,
          and_false, List.append_nil, Bool.true_and, if_true]
        by_cases hp : entry.Parameter = "" <;> by_cases ht : terminated rest = true <;>
          simp [hp, ht]
    · rw [scanLoop_description _ _ _ hd] at h
      have := ih { st with currentEntry :=
        { st.currentEntry with
          Description := st.currentEntry.Description ++ strings.TrimSpace text } } hty h
      rw [this]
      simp only [isDescriptionLine, Bool.and_eq_true, Bool.not_eq_true'] at hd
      simp [terminated, terminatedNames, hd.1, hd.2]
    · have hf := not_flag_of_blank text hb
      by_cases hp : st.currentEntry.Parameter = ""
      · rw [scanLoop_blank_idle _ _ _ hb hp] at h
        have := ih _ hty h
        rw [this]
        simp [terminated, terminatedNames, hf, hb, hp]
      · rw [scanLoop_blank_open _ _ _ hb hp] at h
        split at h
        · cases h
        · rename_i entries1 hadd
          have hl := addEntry_names _ _ _ (by exact hty hp) hadd
          have := ih _ (fun hx => absurd rfl hx) h
          rw [this]
          simp only [hl]
          simp [terminated, terminatedNames, hf, hb, hp]

/-- C13, amended: for every help text on which `Build` succeeds, the loop of `Build` ends
with a list of entries, from which the document is rendered, and the names of these entries
are the names of the blank-line-terminated flag records with a non-empty name among the
lines the scanner delivers (those before the first line of 65536 bytes or more), one for
each of them and in the order of their flag lines; a repeated flag is emitted once for each
terminated occurrence, so the emitted names are pairwise different exactly when those of
the terminated records are. -/
theorem Build_names (minikube : MinikubeBinary) (doc : String)
    (hb : Build minikube = some (doc, none)) :
    ∃ st : LoopState,
      scanLoop (ScanLines minikube.GetStartHelpText.1) {} = LoopResult.done st ∧
      doc = constructSchema st.entries ∧
      st.entries.map SchemaEntry.Parameter =
        terminatedNames (ScanLines minikube.GetStartHelpText.1) ∧
      ((st.entries.map SchemaEntry.Parameter).Nodup ↔
        (terminatedNames (ScanLines minikube.GetStartHelpText.1)).Nodup) := by
  unfold Build at hb
  split at hb
  · cases hb
  · split at hb
    · cases hb
    · split at hb
      · cases hb
      · cases hb
      · rename_i st hl
        simp only [Option.some.injEq, Prod.mk.injEq, and_true] at hb
        have hn := scanLoop_names _ {} st (fun hx => absurd rfl hx) hl
        have hn2 : st.entries.map SchemaEntry.Parameter =
            terminatedNames (ScanLines minikube.GetStartHelpText.1) := by
          rw [hn]; simp
        exact ⟨st, hl, hb.symm, hn2, by rw [hn2]⟩

/-- Witness of the amended C13 on the help text that repeats the flag `a`. -/
theorem Build_names_witness :
    terminatedNames (ScanLines repeatedFlag.GetStartHelpText.1) = ["a", "a"] ∧
    ∃ st : LoopState,
      scanLoop (ScanLines repeatedFlag.GetStartHelpText.1) {} = LoopResult.done st ∧
      constructSchema
        [{ Parameter := "a", Default := "1", Description := "", Type_ := SchemaType.Int,
           ArrayType := "" },
         { Parameter := "a", Default := "2", Description := "", Type_ := SchemaType.Int,
           ArrayType := "" }] = constructSchema st.entries ∧
      st.entries.map SchemaEntry.Parameter =
        terminatedNames (ScanLines repeatedFlag.GetStartHelpText.1) ∧
      ((st.entries.map SchemaEntry.Parameter).Nodup ↔
        (terminatedNames (ScanLines repeatedFlag.GetStartHelpText.1)).Nodup) :=
  ⟨by decide, Build_names repeatedFlag _ (by set_option maxRecDepth 100000 in rfl)⟩

/-! ## C18: the index fault -/

theorem splitFrom_of_not_mem (c : Char) (cur l : List Char) (h : c ∉ l) :
    strings.splitFrom [c] 0 cur l = [cur.reverse ++ l] := by
  induction l generalizing cur with
  | nil => simp [strings.splitFrom]
  | cons x xs ih =>
    have hx : ¬ c = x := fun e => h (by rw [e]; exact List.mem_cons_self _ _)
    have hxs : c ∉ xs := fun e => h (List.mem_cons_of_mem _ e)
    simp only [strings.splitFrom, List.isPrefixOf, beq_iff_eq, hx, Bool.and_true,
      Bool.false_eq_true, if_false, decide_False]
    rw [ih _ hxs]
    simp

theorem loadParameter_none_of_no_eq (line : String) (h : Char.ofNat 61 ∉ line.data) :
    loadParameter line = none := by
  have h1 : ("=" : String).data = [Char.ofNat 61] := by decide
  have hs : strings.Split line "=" = [line] := by
    simp only [strings.Split, h1]
    rw [if_neg (by simp), splitFrom_of_not_mem _ _ _ h]
    simp
  simp only [loadParameter, hs]

theorem not_mem_TrimSpace (text : String) (c : Char) (h : c ∉ text.data) :
    c ∉ (strings.TrimSpace text).data := by
  intro hm
  apply h
  simp only [strings.TrimSpace, strings.dropWhileEnd, List.mem_reverse] at hm
  have h1 := (List.dropWhile_sublist _).subset hm
  rw [List.mem_reverse] at h1
  exact (List.dropWhile_sublist _).subset h1

/-- C18, as stated, fails: on a help text whose record `--a=xyz:` is closed before the flag
line `--bad` without `=`, `Build` does not fault; it returns the error of the record. -/
theorem error_before_malformed_line :
    Build failureBeforeMalformed = some ("", some (GoError.invalidDuration "xyz")) := by
  set_option maxRecDepth 100000 in rfl

/-- C18, amended: in `loadParameter` the second segment of the line split on `=` exists
exactly when the line contains `=`.  So on a help text in which the flag lines the scanner
delivers (those before the first line of 65536 bytes or more) all contain `=`, `Build` does
not fault; and on a help text in which the scanner delivers a flag line that lacks `=`, once
both fetches succeed, `Build` faults at the first such line exactly when no record closed
before that line makes it return an error. -/
theorem index_fault_iff :
    (∀ line : String, (∃ entry, loadParameter line = some entry) ↔ Char.ofNat 61 ∈ line.data) ∧
    (∀ minikube : MinikubeBinary,
      (∀ text ∈ ScanLines minikube.GetStartHelpText.1,
        isFlagLine text = true → Char.ofNat 61 ∈ text.data) →
      Build minikube ≠ none) ∧
    (∀ (minikube : MinikubeBinary) (pre rest : List String) (text : String),
      minikube.GetVersion.2 = none → minikube.GetStartHelpText.2 = none →
      ScanLines minikube.GetStartHelpText.1 = pre ++ text :: rest →
      isFlagLine text = true → Char.ofNat 61 ∉ text.data →
      (∀ t ∈ pre, isFlagLine t = true → Char.ofNat 61 ∈ t.data) →
      (Build minikube = none ↔ ¬ ∃ entry, ClosedRecord pre entry ∧ UnparsableInt entry)) := by
  refine ⟨?_, ?_, ?_⟩
  · intro line
    constructor
    · rintro ⟨entry, he⟩
      by_contra hn
      rw [loadParameter_none_of_no_eq line hn] at he
      cases he
    · exact loadParameter_isSome_of_eq line
  · intro minikube h hb
    have hn := scanLoop_ne_panicked (ScanLines minikube.GetStartHelpText.1) {} h
    unfold Build at hb
    split at hb
    · cases hb
    · split at hb
      · cases hb
      · split at hb
        · rename_i hp
          exact hn hp
        · cases hb
        · cases hb
  · intro minikube pre rest text hv hh hl hf hne hpre
    have hnp := scanLoop_ne_panicked pre {} hpre
    have hstep : ∀ st : LoopState, scanLoop (text :: rest) st = LoopResult.panicked := by
      intro st
      rw [scanLoop_flag _ _ _ hf,
        loadParameter_none_of_no_eq _ (not_mem_TrimSpace text _ hne)]
    simp only [Build, hv, hh, hl]
    rw [scanLoop_append]
    cases hp : scanLoop pre {} with
    | panicked => exact absurd hp hnp
    | failed err =>
      simp only []
      constructor
      · intro h; cases h
      · intro h
        exfalso
        apply h
        rcases scanLoop_failed_cases _ _ _ hp with ⟨hp1, _⟩ | hr
        · exact absurd rfl hp1
        · exact hr
    | done st =>
      simp only [hstep]
      constructor
      · intro _
        rintro ⟨entry, hc, hu⟩
        obtain ⟨err, he⟩ := scanLoop_fails_of_closed pre {} entry hc hu hnp
        rw [hp] at he
        cases he
      · intro _
        trivial

/-- Witness of the amended C18: the help text of `--a=1:`, a blank line and `--bad`. -/
theorem index_fault_iff_witness :
    (Build malformedFlag = none ↔
      ¬ ∃ entry, ClosedRecord ["--a=1:", ""] entry ∧ UnparsableInt entry) ∧
    Build malformedFlag = none :=
  ⟨index_fault_iff.2.2 malformedFlag ["--a=1:", ""] [] "--bad" rfl rfl (by decide) (by decide)
      (by decide) (by decide),
   by set_option maxRecDepth 100000 in rfl⟩

/-! ## C19: descriptions are safe between double quotes -/

theorem safeFrom_replicate (k : Nat) (o : Bool) (t : List Char) :
    safeFrom o (List.replicate k (Char.ofNat 92) ++ t) =
      safeFrom (o != decide (k % 2 = 1)) t := by
  induction k generalizing o with
  | zero => simp
  | succ k ih =>
    rw [List.replicate_succ, List.cons_append]
    simp only [safeFrom, if_true]
    rw [ih]
    congr 1
    rcases Nat.mod_two_eq_zero_or_one k with h | h
    · have h2 : (k + 1) % 2 = 1 := by omega
      cases o <;> simp [h, h2]
    · have h2 : (k + 1) % 2 = 0 := by omega
      cases o <;> simp [h, h2]

theorem safeFrom_after (pre t : List Char) (c : Char) (o : Bool)
    (h : safeFrom o (pre ++ c :: t) = true) (hc : c ≠ Char.ofNat 92) :
    safeFrom false t = true := by
  induction pre generalizing o with
  | nil =>
    simp only [List.nil_append, safeFrom, hc, if_false] at h
    split at h
    · simp only [Bool.and_eq_true] at h; exact h.2
    · simp only [Bool.and_eq_true] at h; exact h.2
  | cons x xs ih =>
    simp only [List.cons_append, safeFrom] at h
    split at h
    · exact ih _ h
    · split at h
      · simp only [Bool.and_eq_true] at h; exact ih _ h.2
      · simp only [Bool.and_eq_true] at h; exact ih _ h.2

theorem safeFrom_suffix (s pre t : List Char) (h : safeFrom false s = true)
    (e : s = pre ++ t) (hp : pre.getLast? ≠ some (Char.ofNat 92)) :
    safeFrom false t = true := by
  rcases List.eq_nil_or_concat pre with h0 | ⟨p, x, h0⟩
  · rw [h0] at e
    rw [e] at h
    exact h
  · rw [h0, List.concat_eq_append] at e hp
    rw [List.getLast?_concat] at hp
    have hx : x ≠ Char.ofNat 92 := fun hx => hp (by rw [hx])
    rw [e, List.append_assoc, List.singleton_append] at h
    exact safeFrom_after p t x false h hx

theorem QuoteSafe_of_safeFrom (s : List Char) (h : safeFrom false s = true) : QuoteSafe s := by
  refine ⟨?_, ?_, ?_⟩
  · intro pre post k e hp
    have h1 := safeFrom_suffix s pre _ h e hp
    rw [safeFrom_replicate] at h1
    rcases Nat.mod_two_eq_zero_or_one k with hk | hk
    · simp [hk, safeFrom] at h1
    · exact hk
  · intro pre post k c e hc1 hc2 hp
    have h1 := safeFrom_suffix s pre _ h e hp
    rw [safeFrom_replicate] at h1
    rcases Nat.mod_two_eq_zero_or_one k with hk | hk
    · exact hk
    · simp [hk, safeFrom, hc1, hc2] at h1
  · intro pre k e hp
    have h1 := safeFrom_suffix s pre _ h e hp
    have h2 := safeFrom_replicate k false []
    rw [List.append_nil] at h2
    rw [h2] at h1
    rcases Nat.mod_two_eq_zero_or_one k with hk | hk
    · exact hk
    · simp [hk, safeFrom] at h1

theorem safeFrom_append (a b : List Char) (o : Bool) (ha : safeFrom o a = true)
    (hb : safeFrom false b = true) : safeFrom o (a ++ b) = true := by
  induction a generalizing o with
  | nil =>
    simp only [safeFrom, Bool.not_eq_true'] at ha
    rw [ha]
    exact hb
  | cons x xs ih =>
    simp only [List.cons_append, safeFrom] at ha ⊢
    split
    · rename_i hx
      simp only [hx, if_true] at ha
      exact ih _ ha
    · rename_i hx
      simp only [hx, if_false] at ha
      split
      · rename_i hq
        simp only [hq, if_true, Bool.and_eq_true] at ha
        simp only [Bool.and_eq_true]
        exact ⟨ha.1, ih _ ha.2⟩
      · rename_i hq
        simp only [hq, if_false, Bool.and_eq_true] at ha
        simp only [Bool.and_eq_true]
        exact ⟨ha.1, ih _ ha.2⟩

theorem safeFrom_escaped (l : List Char) :
    safeFrom false
      ((l.flatMap
        (fun c => if c = Char.ofNat 92 then [Char.ofNat 92, Char.ofNat 92] else [c])).flatMap
        (fun c => if c = Char.ofNat 34 then [Char.ofNat 92, Char.ofNat 34] else [c])) = true := by
  induction l with
  | nil => rfl
  | cons c l ih =>
    rw [List.flatMap_cons, List.flatMap_append]
    by_cases h1 : c = Char.ofNat 92
    · subst h1
      have h2 : ¬ Char.ofNat 92 = Char.ofNat 34 := by decide
      simp only [if_true, List.flatMap_cons, h2, if_false, List.flatMap_nil, List.append_nil,
        List.singleton_append, List.cons_append, safeFrom, Bool.not_false, Bool.not_true]
      exact ih
    · by_cases h2 : c = Char.ofNat 34
      · subst h2
        simp only [h1, if_false, List.flatMap_cons, if_true, List.flatMap_nil, List.append_nil,
          List.cons_append, List.nil_append, safeFrom, Bool.not_false, Bool.true_and]
        exact ih
      · simp only [h1, if_false, List.flatMap_cons, h2, List.flatMap_nil, List.append_nil,
          List.singleton_append, safeFrom, Bool.not_false, Bool.true_and]
        exact ih

theorem safeFrom_escapeDescription (d : String) :
    safeFrom false (escapeDescription d).data = true := by
  rw [escapeDescription_data]
  exact safeFrom_escaped d.data

theorem safeFrom_override (key : String) (val : SchemaOverride)
    (h : schemaOverrides key = some val) : safeFrom false val.Description.data = true := by
  unfold schemaOverrides at h
  split at h
  · simp only [Option.some.injEq] at h
    rw [← h]
    set_option maxRecDepth 100000 in decide
  · split at h
    · simp only [Option.some.injEq] at h
      rw [← h]
      set_option maxRecDepth 100000 in decide
    · cases h

theorem addEntry_safe (entries entries1 : List SchemaEntry) (entry : SchemaEntry)
    (hs : ∀ e ∈ entries, safeFrom false e.Description.data = true)
    (he : safeFrom false entry.Description.data = true)
    (h : addEntry entries entry = .ok entries1) :
    ∀ e ∈ entries1, safeFrom false e.Description.data = true := by
  have hsuffix : safeFrom false
      (entry.Description ++ " (Configured in minutes)").data = true := by
    rw [String.data_append]
    exact safeFrom_append _ _ _ he (by decide)
  unfold addEntry at h
  intro e hmem
  split at h
  · cases h
    rcases List.mem_append.1 hmem with hm | hm
    · exact hs e hm
    · simp only [List.mem_singleton] at hm; rw [hm]; exact he
  · split at h
    · cases h
      rcases List.mem_append.1 hmem with hm | hm
      · exact hs e hm
      · simp only [List.mem_singleton] at hm; rw [hm]; exact he
    · split at h
      · split at h
        · cases h
          rcases List.mem_append.1 hmem with hm | hm
          · exact hs e hm
          · simp only [List.mem_singleton] at hm; rw [hm]; exact he
        · split at h
          · cases h
          · cases h
            rcases List.mem_append.1 hmem with hm | hm
            · exact hs e hm
            · simp only [List.mem_singleton] at hm; rw [hm]; exact hsuffix
      · split at h
        · cases h
          rcases List.mem_append.1 hmem with hm | hm
          · exact hs e hm
          · simp only [List.mem_singleton] at hm; rw [hm]; exact he
        · cases h
          exact hs e hmem

theorem scanLoop_safe (lines : List String) (st st1 : LoopState)
    (hs : ∀ e ∈ st.entries, safeFrom false e.Description.data = true)
    (h : scanLoop lines st = LoopResult.done st1) :
    ∀ e ∈ st1.entries, safeFrom false e.Description.data = true := by
  induction lines generalizing st with
  | nil =>
    simp only [scanLoop, LoopResult.done.injEq] at h
    subst h
    exact hs
  | cons text rest ih =>
    rcases line_cases text with hf | hd | hb
    · rw [scanLoop_flag _ _ _ hf] at h
      cases he : loadParameter (strings.TrimSpace text) with
      | none => rw [he] at h; cases h
      | some entry =>
        rw [he] at h
        exact ih { st with currentEntry := entry } hs h
    · rw [scanLoop_description _ _ _ hd] at h
      exact ih { st with currentEntry :=
        { st.currentEntry with
          Description := st.currentEntry.Description ++ strings.TrimSpace text } } hs h
    · by_cases hp : st.currentEntry.Parameter = ""
      · rw [scanLoop_blank_idle _ _ _ hb hp] at h
        exact ih _ hs h
      · rw [scanLoop_blank_open _ _ _ hb hp] at h
        split at h
        · cases h
        · rename_i entries1 hadd
          have hcur : safeFrom false
              (match schemaOverrides st.currentEntry.Parameter with
                | some val => val.Description
                | none => escapeDescription st.currentEntry.Description).data = true := by
            cases ho : schemaOverrides st.currentEntry.Parameter with
            | none => exact safeFrom_escapeDescription _
            | some val => exact safeFrom_override _ _ ho
          have hs1 := addEntry_safe _ _ _ hs hcur hadd
          exact ih _ hs1 h

/-- C19: every description `Build` emits is safe between double quotes.  For every help text
on which `Build` succeeds, the loop of `Build` ends with the list of entries the document is
rendered from, and in the description of every one of these entries each double quote is
preceded by a maximal run of backslashes of odd length and every other maximal run of
backslashes, also one at the end, has even length.  The escaped descriptions, the override
descriptions and the escaped descriptions with the suffix ` (Configured in minutes)` are all
of this kind. -/
theorem descriptions_quote_safe (minikube : MinikubeBinary) (doc : String)
    (hb : Build minikube = some (doc, none)) :
    (∃ st : LoopState,
      scanLoop (ScanLines minikube.GetStartHelpText.1) {} = LoopResult.done st ∧
      doc = constructSchema st.entries ∧ ∀ e ∈ st.entries, QuoteSafe e.Description.data) ∧
    (∀ d : String, QuoteSafe (escapeDescription d).data) ∧
    (∀ key val, schemaOverrides key = some val → QuoteSafe val.Description.data) ∧
    (∀ d : String, QuoteSafe (escapeDescription d ++ " (Configured in minutes)").data) := by
  refine ⟨?_, fun d => QuoteSafe_of_safeFrom _ (safeFrom_escapeDescription d),
    fun key val h => QuoteSafe_of_safeFrom _ (safeFrom_override key val h), ?_⟩
  · unfold Build at hb
    split at hb
    · cases hb
    · split at hb
      · cases hb
      · split at hb
        · cases hb
        · cases hb
        · rename_i st hl
          simp only [Option.some.injEq, Prod.mk.injEq, and_true] at hb
          refine ⟨st, hl, hb.symm, ?_⟩
          intro e he
          exact QuoteSafe_of_safeFrom _
            (scanLoop_safe _ {} st (fun x hx => by cases hx) hl e he)
  · intro d
    apply QuoteSafe_of_safeFrom
    rw [String.data_append]
    exact safeFrom_append _ _ _ (safeFrom_escapeDescription d) (by decide)

/-- Witness of C19 on a help text whose description holds double quotes and a backslash and
whose default is a duration. -/
theorem descriptions_quote_safe_witness :
    ∃ st : LoopState,
      scanLoop (ScanLines quotedDescription.GetStartHelpText.1) {} = LoopResult.done st ∧
      constructSchema
        [{ Parameter := "test", Default := "6",
           Description := "say \\\"hi\\\" to C:\\\\ (Configured in minutes)",
           Type_ := SchemaType.Int, ArrayType := "" }] = constructSchema st.entries ∧
      ∀ e ∈ st.entries, QuoteSafe e.Description.data :=
  (descriptions_quote_safe quotedDescription _ (by set_option maxRecDepth 100000 in rfl)).1

/-! ## C20: text outside the records -/

theorem Build_eq_output (minikube : MinikubeBinary) (hv : minikube.GetVersion.2 = none)
    (hh : minikube.GetStartHelpText.2 = none) :
    Build minikube = (scanLoop (ScanLines minikube.GetStartHelpText.1) {}).output := by
  simp only [Build, hv, hh]
  cases scanLoop (ScanLines minikube.GetStartHelpText.1) {} <;> rfl

theorem scanLoop_idle_output (lines : List String) (st st1 : LoopState)
    (hp : st.currentEntry.Parameter = "") (hp1 : st1.currentEntry.Parameter = "")
    (he : st.entries = st1.entries) :
    (scanLoop lines st).output = (scanLoop lines st1).output := by
  induction lines generalizing st st1 with
  | nil =>
    simp only [scanLoop, LoopResult.output, he]
  | cons text rest ih =>
    rcases line_cases text with hf | hd | hb
    · rw [scanLoop_flag _ _ _ hf, scanLoop_flag _ _ _ hf, he]
    · rw [scanLoop_description _ _ _ hd, scanLoop_description _ _ _ hd]
      exact ih _ _ hp hp1 he
    · rw [scanLoop_blank_idle _ _ _ hb hp, scanLoop_blank_idle _ _ _ hb hp1]
      exact ih _ _ hp hp1 he

theorem scanLoop_outside (ins : List String) (st : LoopState)
    (hi : ∀ t ∈ ins, isFlagLine t = false) (hp : st.currentEntry.Parameter = "") :
    ∃ cur, scanLoop ins st = LoopResult.done { entries := st.entries, currentEntry := cur } ∧
      cur.Parameter = "" := by
  induction ins generalizing st with
  | nil => exact ⟨st.currentEntry, rfl, hp⟩
  | cons text rest ih =>
    have hr : ∀ t ∈ rest, isFlagLine t = false := fun t ht => hi t (List.mem_cons_of_mem _ ht)
    have hnf := hi text (List.mem_cons_self _ _)
    rcases line_cases text with hf | hd | hb
    · rw [hnf] at hf; cases hf
    · rw [scanLoop_description _ _ _ hd]
      exact ih _ hr hp
    · rw [scanLoop_blank_idle _ _ _ hb hp]
      exact ih _ hr hp

theorem scanLoop_after_blank (pre : List String) (b : String) (st0 st : LoopState)
    (hb : isBlankLine b = true) (h : scanLoop (pre ++ [b]) st0 = LoopResult.done st) :
    st.currentEntry.Parameter = "" := by
  rw [scanLoop_append] at h
  cases hpre : scanLoop pre st0 with
  | panicked => rw [hpre] at h; cases h
  | failed err => rw [hpre] at h; cases h
  | done st1 =>
    rw [hpre] at h
    simp only [] at h
    by_cases hp : st1.currentEntry.Parameter = ""
    · rw [scanLoop_blank_idle _ _ _ hb hp] at h
      simp only [scanLoop, LoopResult.done.injEq] at h
      rw [← h]; exact hp
    · rw [scanLoop_blank_open _ _ _ hb hp] at h
      split at h
      · cases h
      · simp only [scanLoop, LoopResult.done.injEq] at h
        rw [← h]

theorem scanLoop_at_outside (pre : List String) (st : LoopState) (ho : OutsideRecords pre)
    (h : scanLoop pre {} = LoopResult.done st) : st.currentEntry.Parameter = "" := by
  obtain ⟨p, gap, e, hgap, hp⟩ := ho
  subst e
  rw [scanLoop_append] at h
  cases hpp : scanLoop p {} with
  | panicked => rw [hpp] at h; cases h
  | failed err => rw [hpp] at h; cases h
  | done st1 =>
    rw [hpp] at h
    simp only [] at h
    have h1 : st1.currentEntry.Parameter = "" := by
      rcases hp with hp | ⟨q, b, hq, hb⟩
      · subst hp
        simp only [scanLoop, LoopResult.done.injEq] at hpp
        rw [← hpp]
      · subst hq
        exact scanLoop_after_blank q b {} st1 hb hpp
    obtain ⟨cur, hc, hcp⟩ := scanLoop_outside gap st1 hgap h1
    rw [hc] at h
    simp only [LoopResult.done.injEq] at h
    rw [← h]
    exact hcp

theorem scanLoop_insert (pre ins post : List String) (ho : OutsideRecords pre)
    (hi : ∀ t ∈ ins, isFlagLine t = false) :
    (scanLoop (pre ++ (ins ++ post)) {}).output = (scanLoop (pre ++ post) {}).output := by
  rw [scanLoop_append, scanLoop_append pre post]
  cases hpre : scanLoop pre {} with
  | panicked => rfl
  | failed err => rfl
  | done st =>
    simp only []
    have hp := scanLoop_at_outside pre st ho hpre
    rw [scanLoop_append]
    obtain ⟨cur, hc, hcp⟩ := scanLoop_outside ins st hi hp
    rw [hc]
    simp only []
    exact scanLoop_idle_output post _ _ hcp hp rfl

/-! ## The token limit of the scanner: C2 and C4 on a long line -/

theorem unlines_cons (l : String) (ls : List String) :
    (unlines (l :: ls)).data = l.data ++ Char.ofNat 10 :: (unlines ls).data := by
  have h1 : ("\n" : String).data = [Char.ofNat 10] := by decide
  simp only [unlines, List.foldr_cons, String.data_append, h1, List.append_assoc,
    List.singleton_append]

theorem unlines_append (xs ys : List String) :
    unlines (xs ++ ys) = unlines xs ++ unlines ys := by
  induction xs with
  | nil => simp [unlines]
  | cons x xs ih =>
    have e : ∀ l (ls : List String), unlines (l :: ls) = l ++ "\n" ++ unlines ls := fun _ _ => rfl
    rw [List.cons_append, e, e, ih]
    simp only [String.append_assoc]

theorem ScanLines_unlines (ins : List String) (t : String)
    (hn : ∀ l ∈ ins, Char.ofNat 10 ∉ l.data)
    (hs : ∀ l ∈ ins, byteLen l.data < MaxScanTokenSize) :
    ScanLines (unlines ins ++ t) = ins.map (fun l => ⟨dropCR l.data⟩) ++ ScanLines t := by
  induction ins with
  | nil => simp [unlines]
  | cons l ls ih =>
    have hr := ih (fun x hx => hn x (List.mem_cons_of_mem _ hx))
      (fun x hx => hs x (List.mem_cons_of_mem _ hx))
    simp only [ScanLines, String.data_append] at hr ⊢
    rw [unlines_cons, List.append_assoc, List.cons_append,
      scanLinesFrom_line [] l.data _ (hn l (List.mem_cons_self _ _)), hr]
    have h1 := hs l (List.mem_cons_self _ _)
    simp [h1]

theorem ScanLines_unlines_long (pre post : List String) (l t : String)
    (hn : ∀ x ∈ pre, Char.ofNat 10 ∉ x.data)
    (hs : ∀ x ∈ pre, byteLen x.data < MaxScanTokenSize)
    (hl : Char.ofNat 10 ∉ l.data) (hlong : ¬ byteLen l.data < MaxScanTokenSize) :
    ScanLines (unlines (pre ++ l :: post) ++ t) = pre.map (fun l => ⟨dropCR l.data⟩) := by
  rw [unlines_append, String.append_assoc, ScanLines_unlines pre _ hn hs]
  have : ScanLines (unlines (l :: post) ++ t) = [] := by
    simp only [ScanLines, String.data_append]
    rw [unlines_cons, List.append_assoc, List.cons_append, scanLinesFrom_line [] l.data _ hl]
    simp [hlong]
  rw [this, List.append_nil]

theorem longLine_no_newline : Char.ofNat 10 ∉ longLine.data := by
  intro h
  have := List.eq_of_mem_replicate h
  exact absurd this (by decide)

theorem longLine_long : ¬ byteLen longLine.data < MaxScanTokenSize := by
  have h : byteLen longLine.data = MaxScanTokenSize := by
    show byteLen (List.replicate MaxScanTokenSize (Char.ofNat 120)) = MaxScanTokenSize
    rw [byteLen_replicate]
    have : runeLen (Char.ofNat 120) = 1 := by decide
    rw [this, Nat.mul_one]
  rw [h]
  exact Nat.lt_irrefl _

theorem TrimSpace_replicate (n : Nat) :
    strings.TrimSpace ⟨List.replicate n (Char.ofNat 120)⟩ =
      ⟨List.replicate n (Char.ofNat 120)⟩ := by
  have hx : strings.isSpace (Char.ofNat 120) = false := by decide
  have hd : ∀ k, (List.replicate k (Char.ofNat 120)).dropWhile strings.isSpace =
      List.replicate k (Char.ofNat 120) := by
    intro k
    cases k with
    | zero => rfl
    | succ k => rw [List.replicate_succ, List.dropWhile_cons, hx]; rfl
  simp only [strings.TrimSpace, strings.dropWhileEnd, hd, List.reverse_replicate]

theorem replicate_not_flag (n : Nat) :
    isFlagLine ⟨List.replicate (n + 1) (Char.ofNat 120)⟩ = false := by
  rw [isFlagLine, TrimSpace_replicate, List.replicate_succ]
  rfl

theorem replicate_not_blank (n : Nat) :
    isBlankLine ⟨List.replicate (n + 1) (Char.ofNat 120)⟩ = false := by
  rw [isBlankLine, TrimSpace_replicate, List.replicate_succ, decide_eq_false_iff_not]
  intro h
  exact absurd (congrArg String.data h) (List.cons_ne_nil _ _)

theorem longLine_not_flag : isFlagLine longLine = false :=
  replicate_not_flag 65535

theorem longLine_not_blank : isBlankLine longLine = false :=
  replicate_not_blank 65535

theorem ScanLines_long_first (post : List String) :
    ScanLines (unlines (longLine :: post)) = [] := by
  have h := ScanLines_unlines_long [] post longLine "" (fun x hx => by cases hx)
    (fun x hx => by cases hx) longLine_no_newline longLine_long
  simpa using h

/-- C2, as stated, fails: in the help text made of a line of 65536 letters, the flag line
`--a=xyz:` and a blank line, both fetches succeed, the only flag line contains `=`, and the
record of `--a=xyz:` is closed by a blank line, has kind `Int` and a default that is neither
an integer nor a duration; yet `Build` returns the document without entries and no error,
because the scanner stops at the long line. -/
theorem error_lost_after_long_line :
    failureAfterLongLine.GetVersion.2 = none ∧
    failureAfterLongLine.GetStartHelpText = (unlines [longLine, "--a=xyz:", ""], none) ∧
    (∀ text ∈ [longLine, "--a=xyz:", ""],
      isFlagLine text = true → Char.ofNat 61 ∈ text.data) ∧
    (∃ entry, ClosedRecord [longLine, "--a=xyz:", ""] entry ∧ UnparsableInt entry) ∧
    Build failureAfterLongLine = some (constructSchema [], none) := by
  refine ⟨rfl, rfl, ?_, ?_, ?_⟩
  · intro text ht hf
    rcases List.mem_cons.1 ht with e | ht
    · rw [e, longLine_not_flag] at hf; cases hf
    · rcases List.mem_cons.1 ht with e | ht
      · rw [e]; decide
      · rw [List.mem_singleton.1 ht] at hf; exact absurd hf (by decide)
  · refine ⟨{ Parameter := "a", Default := "xyz", Description := "", Type_ := SchemaType.Int,
              ArrayType := "" }, ?_, ?_⟩
    · exact ⟨[longLine], "--a=xyz:", [], "", [], rfl, by decide, by simp, by decide,
        by decide, by decide⟩
    · exact ⟨rfl, by decide, ⟨_, rfl⟩⟩
  · rw [Build_eq_output _ rfl rfl]
    show (scanLoop (ScanLines (unlines [longLine, "--a=xyz:", ""])) {}).output = _
    rw [ScanLines_long_first]
    rfl

theorem countTerminated_of_not_flag (text : String) (rest : List String)
    (h : isFlagLine text = false) :
    countTerminated (text :: rest) = countTerminated rest := by
  simp [countTerminated, h]

/-- C4, as stated, fails: in the help text made of a line of 65536 letters, the flag line
`--a=1:` and a blank line, the only flag line contains `=` and has the name `a`, and there
is one blank-line-terminated flag record; `Build` succeeds and renders no block: the
document is the header followed by the footer. -/
theorem block_lost_after_long_line :
    recordAfterLongLine.GetStartHelpText = (unlines [longLine, "--a=1:", ""], none) ∧
    (∀ text ∈ [longLine, "--a=1:", ""], isFlagLine text = true →
      Char.ofNat 61 ∈ text.data ∧
      (loadParameter (strings.TrimSpace text)).map SchemaEntry.Parameter = some "a") ∧
    countTerminated [longLine, "--a=1:", ""] = 1 ∧
    Build recordAfterLongLine = some (header ++ footer, none) := by
  refine ⟨rfl, ?_, ?_, ?_⟩
  · intro text ht hf
    rcases List.mem_cons.1 ht with e | ht
    · rw [e, longLine_not_flag] at hf; cases hf
    · rcases List.mem_cons.1 ht with e | ht
      · rw [e]; decide
      · rw [List.mem_singleton.1 ht] at hf; exact absurd hf (by decide)
  · rw [countTerminated_of_not_flag _ _ longLine_not_flag]
    decide
  · rw [Build_eq_output _ rfl rfl]
    show (scanLoop (ScanLines (unlines [longLine, "--a=1:", ""])) {}).output = _
    rw [ScanLines_long_first]
    have h : constructSchema [] = header ++ footer := by simp [constructSchema]
    rw [← h]
    rfl

/-! ## C11 and C17: a default that holds `=` -/

/-- C11 fails on the code at the flag line `--foo='a=b':`, by the defect of C5.  The default
`'a=b'` holds exactly two single quotes and `foo` has no override, but `loadParameter` reads
the default `'a`, of kind `Int`, and `Build` on the closed record returns the error of
`time.ParseDuration` instead of a document with the default `"a=b"`. -/
theorem String_default_cut_at_equals :
    ("\x27a=b\x27" : String).data.count (Char.ofNat 39) = 2 ∧
    getSchemaType "\x27a=b\x27" = SchemaType.String ∧
    schemaOverrides "foo" = none ∧
    rawDefault "--foo=\x27a=b\x27:" = some "\x27a" ∧
    loadParameter "--foo=\x27a=b\x27:" =
      some { Parameter := "foo", Default := "\x27a", Description := "",
             Type_ := SchemaType.Int, ArrayType := "" } ∧
    Build quotedDefaultWithEquals = some ("", some (GoError.invalidDuration "\x27a")) := by
  refine ⟨by decide, by decide, rfl, ?_, ?_, ?_⟩
  · set_option maxRecDepth 100000 in decide
  · set_option maxRecDepth 100000 in decide
  · set_option maxRecDepth 100000 in rfl

/-- C17 fails on the code at the flag line `--foo=[a=b]:`, by the defect of C5.  The default
`[a=b]` is bracket-delimited and holds no single quote, and `foo` has no override, but
`loadParameter` reads the default `[a`, of kind `Int`, and `Build` on the closed record
returns the error of `time.ParseDuration` instead of a document with a `List` entry. -/
theorem List_default_cut_at_equals :
    getSchemaType "[a=b]" = SchemaType.Array ∧
    schemaOverrides "foo" = none ∧
    rawDefault "--foo=[a=b]:" = some "[a" ∧
    loadParameter "--foo=[a=b]:" =
      some { Parameter := "foo", Default := "[a", Description := "",
             Type_ := SchemaType.Int, ArrayType := "" } ∧
    Build listDefaultWithEquals = some ("", some (GoError.invalidDuration "[a")) := by
  refine ⟨by decide, rfl, ?_, ?_, ?_⟩
  · set_option maxRecDepth 100000 in decide
  · set_option maxRecDepth 100000 in decide
  · set_option maxRecDepth 100000 in rfl

/-! ## C20: inserted lines -/

/-- C20, as stated, fails: a line of 65536 letters, which is no flag line, inserted between
the blank line that closes the record of `--a=1:` and the flag line `--b=2:` makes `Build`
lose the record of `--b=2:`. -/
theorem long_line_hides_later_records :
    isFlagLine longLine = false ∧
    Build ⟨("Version 999", none),
        ("--a=1:\n\n" ++ (unlines [longLine] ++ "--b=2:\n\n"), none)⟩ =
      some (constructSchema
        [{ Parameter := "a", Default := "1", Description := "", Type_ := SchemaType.Int,
           ArrayType := "" }], none) ∧
    Build ⟨("Version 999", none), ("--a=1:\n\n" ++ "--b=2:\n\n", none)⟩ =
      some (constructSchema
        [{ Parameter := "a", Default := "1", Description := "", Type_ := SchemaType.Int,
           ArrayType := "" },
         { Parameter := "b", Default := "2", Description := "", Type_ := SchemaType.Int,
           ArrayType := "" }], none) ∧
    Build ⟨("Version 999", none),
        ("--a=1:\n\n" ++ (unlines [longLine] ++ "--b=2:\n\n"), none)⟩ ≠
      Build ⟨("Version 999", none), ("--a=1:\n\n" ++ "--b=2:\n\n", none)⟩ := by
  have h1 : Build ⟨("Version 999", none),
        ("--a=1:\n\n" ++ (unlines [longLine] ++ "--b=2:\n\n"), none)⟩ =
      some (constructSchema
        [{ Parameter := "a", Default := "1", Description := "", Type_ := SchemaType.Int,
           ArrayType := "" }], none) := by
    rw [Build_eq_output _ rfl rfl]
    have e : ("--a=1:\n\n" : String) = unlines ["--a=1:", ""] := by decide
    show (scanLoop (ScanLines ("--a=1:\n\n" ++ (unlines [longLine] ++ "--b=2:\n\n"))) {}).output
      = _
    rw [e, ← String.append_assoc, ← unlines_append,
      ScanLines_unlines_long ["--a=1:", ""] [] longLine "--b=2:\n\n" (by decide) (by decide)
        longLine_no_newline longLine_long]
    set_option maxRecDepth 100000 in rfl
  have h2 : Build ⟨("Version 999", none), ("--a=1:\n\n" ++ "--b=2:\n\n", none)⟩ =
      some (constructSchema
        [{ Parameter := "a", Default := "1", Description := "", Type_ := SchemaType.Int,
           ArrayType := "" },
         { Parameter := "b", Default := "2", Description := "", Type_ := SchemaType.Int,
           ArrayType := "" }], none) := by
    set_option maxRecDepth 100000 in rfl
  refine ⟨longLine_not_flag, h1, h2, ?_⟩
  rw [h1, h2]
  intro h
  have h3 := congrArg (fun r => r.map (fun p => p.1.length)) h
  revert h3
  set_option maxRecDepth 100000 in decide

/-- C20, amended: text outside the records does not leak into the output when its lines are
shorter than 65536 bytes.  Let `h1` be the start of a help text, empty or ending with a
newline, that stops outside the records: among the lines the scanner delivers, no flag line
comes before its end, or none since its last blank line.  Inserting there any lines of
fewer than 65536 bytes that are not flag lines leaves the result of `Build` unchanged,
whatever follows.  And what the loop of `Build` does from a flag line on does not depend on
the current record it holds when it reads that flag line, so a description holds only lines
that follow its own flag line. -/
theorem Build_ignores_text_outside_records :
    (∀ (version : String × Option GoError) (h1 h2 : String) (ins : List String),
      (h1 = "" ∨ h1.data.getLast? = some (Char.ofNat 10)) →
      OutsideRecords (ScanLines h1) →
      (∀ l ∈ ins, isFlagLine l = false ∧ Char.ofNat 10 ∉ l.data ∧
        byteLen l.data < MaxScanTokenSize) →
      Build ⟨version, (h1 ++ (unlines ins ++ h2), none)⟩ =
        Build ⟨version, (h1 ++ h2, none)⟩) ∧
    (∀ (st st1 : LoopState) (flag : String) (rest : List String),
      isFlagLine flag = true → st.entries = st1.entries →
      scanLoop (flag :: rest) st = scanLoop (flag :: rest) st1) := by
  constructor
  · intro version h1 h2 ins hh ho hins
    cases hv : version.2 with
    | some e => simp only [Build, hv]
    | none =>
      rw [Build_eq_output _ hv rfl, Build_eq_output _ hv rfl]
      simp only []
      rcases ScanLines_append h1 hh with happ | happ
      · rw [happ, happ, ScanLines_unlines ins h2 (fun l hl => (hins l hl).2.1)
          (fun l hl => (hins l hl).2.2)]
        apply scanLoop_insert _ _ _ ho
        intro t ht
        obtain ⟨x, hx, e⟩ := List.mem_map.1 ht
        rw [← e, isFlagLine_dropCR]
        exact (hins x hx).1
      · rw [happ, happ]
  · intro st st1 flag rest hf he
    rw [scanLoop_flag _ _ _ hf, scanLoop_flag _ _ _ hf, he]

/-- Witness of the amended C20: lines inserted before the first flag line and after a
closing blank line. -/
theorem Build_ignores_text_outside_records_witness :
    Build ⟨("Version 999", none),
        ("" ++ (unlines ["Flags:", "", "  of minikube start"] ++ "--test=123:\n\n"), none)⟩ =
      Build ⟨("Version 999", none), ("" ++ "--test=123:\n\n", none)⟩ ∧
    Build ⟨("Version 999", none),
        ("--test=123:\n\n" ++ (unlines ["stray text", ""] ++ "--next=true:\n\n"), none)⟩ =
      Build ⟨("Version 999", none), ("--test=123:\n\n" ++ "--next=true:\n\n", none)⟩ :=
  ⟨Build_ignores_text_outside_records.1 ("Version 999", none) "" "--test=123:\n\n"
      ["Flags:", "", "  of minikube start"] (Or.inl rfl)
      ⟨[], [], rfl, by decide, Or.inl rfl⟩ (by decide),
   Build_ignores_text_outside_records.1 ("Version 999", none) "--test=123:\n\n"
      "--next=true:\n\n" ["stray text", ""] (Or.inr (by decide))
      ⟨["--test=123:", ""], [], by decide, by decide, Or.inr ⟨["--test=123:"], "", rfl, by decide⟩⟩
      (by decide)⟩

end Generator
